import Mathlib

/-!
Verification of the Cryptographic-Suite library against its specification.

The definitions below are shallow embeddings of the TypeScript sources:
JavaScript numbers that flow through `Uint8Array` / `Uint32Array` stores or a
`>>> 0` coercion are modelled as `Nat` with an explicit `% 2^8` / `% 2^32`
(`u8` / `u32`); byte sequences are `List Nat`; fallible functions return
`Except String`.  Each definition keeps the name of the source function it
embeds.
-/

/-- JavaScript `>>> 0` / `Uint32Array` store coercion: reduce modulo 2^32. -/
def u32 (x : Nat) : Nat := x % 4294967296

/-- JavaScript `Uint8Array` store coercion: reduce modulo 2^8. -/
def u8 (x : Nat) : Nat := x % 256

/-! ## AES core (src aes.ts, from-scratch implementation) -/

/-- The AES S-box table (`SBOX` in aes.ts). -/
def SBOX : List Nat := [
  0x63, 0x7c, 0x77, 0x7b, 0xf2, 0x6b, 0x6f, 0xc5, 0x30, 0x01, 0x67, 0x2b, 0xfe, 0xd7, 0xab, 0x76,
  0xca, 0x82, 0xc9, 0x7d, 0xfa, 0x59, 0x47, 0xf0, 0xad, 0xd4, 0xa2, 0xaf, 0x9c, 0xa4, 0x72, 0xc0,
  0xb7, 0xfd, 0x93, 0x26, 0x36, 0x3f, 0xf7, 0xcc, 0x34, 0xa5, 0xe5, 0xf1, 0x71, 0xd8, 0x31, 0x15,
  0x04, 0xc7, 0x23, 0xc3, 0x18, 0x96, 0x05, 0x9a, 0x07, 0x12, 0x80, 0xe2, 0xeb, 0x27, 0xb2, 0x75,
  0x09, 0x83, 0x2c, 0x1a, 0x1b, 0x6e, 0x5a, 0xa0, 0x52, 0x3b, 0xd6, 0xb3, 0x29, 0xe3, 0x2f, 0x84,
  0x53, 0xd1, 0x00, 0xed, 0x20, 0xfc, 0xb1, 0x5b, 0x6a, 0xcb, 0xbe, 0x39, 0x4a, 0x4c, 0x58, 0xcf,
  0xd0, 0xef, 0xaa, 0xfb, 0x43, 0x4d, 0x33, 0x85, 0x45, 0xf9, 0x02, 0x7f, 0x50, 0x3c, 0x9f, 0xa8,
  0x51, 0xa3, 0x40, 0x8f, 0x92, 0x9d, 0x38, 0xf5, 0xbc, 0xb6, 0xda, 0x21, 0x10, 0xff, 0xf3, 0xd2,
  0xcd, 0x0c, 0x13, 0xec, 0x5f, 0x97, 0x44, 0x17, 0xc4, 0xa7, 0x7e, 0x3d, 0x64, 0x5d, 0x19, 0x73,
  0x60, 0x81, 0x4f, 0xdc, 0x22, 0x2a, 0x90, 0x88, 0x46, 0xee, 0xb8, 0x14, 0xde, 0x5e, 0x0b, 0xdb,
  0xe0, 0x32, 0x3a, 0x0a, 0x49, 0x06, 0x24, 0x5c, 0xc2, 0xd3, 0xac, 0x62, 0x91, 0x95, 0xe4, 0x79,
  0xe7, 0xc8, 0x37, 0x6d, 0x8d, 0xd5, 0x4e, 0xa9, 0x6c, 0x56, 0xf4, 0xea, 0x65, 0x7a, 0xae, 0x08,
  0xba, 0x78, 0x25, 0x2e, 0x1c, 0xa6, 0xb4, 0xc6, 0xe8, 0xdd, 0x74, 0x1f, 0x4b, 0xbd, 0x8b, 0x8a,
  0x70, 0x3e, 0xb5, 0x66, 0x48, 0x03, 0xf6, 0x0e, 0x61, 0x35, 0x57, 0xb9, 0x86, 0xc1, 0x1d, 0x9e,
  0xe1, 0xf8, 0x98, 0x11, 0x69, 0xd9, 0x8e, 0x94, 0x9b, 0x1e, 0x87, 0xe9, 0xce, 0x55, 0x28, 0xdf,
  0x8c, 0xa1, 0x89, 0x0d, 0xbf, 0xe6, 0x42, 0x68, 0x41, 0x99, 0x2d, 0x0f, 0xb0, 0x54, 0xbb, 0x16]

/-- The AES inverse S-box table (`INV_SBOX` in aes.ts). -/
def INV_SBOX : List Nat := [
  0x52, 0x09, 0x6a, 0xd5, 0x30, 0x36, 0xa5, 0x38, 0xbf, 0x40, 0xa3, 0x9e, 0x81, 0xf3, 0xd7, 0xfb,
  0x7c, 0xe3, 0x39, 0x82, 0x9b, 0x2f, 0xff, 0x87, 0x34, 0x8e, 0x43, 0x44, 0xc4, 0xde, 0xe9, 0xcb,
  0x54, 0x7b, 0x94, 0x32, 0xa6, 0xc2, 0x23, 0x3d, 0xee, 0x4c, 0x95, 0x0b, 0x42, 0xfa, 0xc3, 0x4e,
  0x08, 0x2e, 0xa1, 0x66, 0x28, 0xd9, 0x24, 0xb2, 0x76, 0x5b, 0xa2, 0x49, 0x6d, 0x8b, 0xd1, 0x25,
  0x72, 0xf8, 0xf6, 0x64, 0x86, 0x68, 0x98, 0x16, 0xd4, 0xa4, 0x5c, 0xcc, 0x5d, 0x65, 0xb6, 0x92,
  0x6c, 0x70, 0x48, 0x50, 0xfd, 0xed, 0xb9, 0xda, 0x5e, 0x15, 0x46, 0x57, 0xa7, 0x8d, 0x9d, 0x84,
  0x90, 0xd8, 0xab, 0x00, 0x8c, 0xbc, 0xd3, 0x0a, 0xf7, 0xe4, 0x58, 0x05, 0xb8, 0xb3, 0x45, 0x06,
  0xd0, 0x2c, 0x1e, 0x8f, 0xca, 0x3f, 0x0f, 0x02, 0xc1, 0xaf, 0xbd, 0x03, 0x01, 0x13, 0x8a, 0x6b,
  0x3a, 0x91, 0x11, 0x41, 0x4f, 0x67, 0xdc, 0xea, 0x97, 0xf2, 0xcf, 0xce, 0xf0, 0xb4, 0xe6, 0x73,
  0x96, 0xac, 0x74, 0x22, 0xe7, 0xad, 0x35, 0x85, 0xe2, 0xf9, 0x37, 0xe8, 0x1c, 0x75, 0xdf, 0x6e,
  0x47, 0xf1, 0x1a, 0x71, 0x1d, 0x29, 0xc5, 0x89, 0x6f, 0xb7, 0x62, 0x0e, 0xaa, 0x18, 0xbe, 0x1b,
  0xfc, 0x56, 0x3e, 0x4b, 0xc6, 0xd2, 0x79, 0x20, 0x9a, 0xdb, 0xc0, 0xfe, 0x78, 0xcd, 0x5a, 0xf4,
  0x1f, 0xdd, 0xa8, 0x33, 0x88, 0x07, 0xc7, 0x31, 0xb1, 0x12, 0x10, 0x59, 0x27, 0x80, 0xec, 0x5f,
  0x60, 0x51, 0x7f, 0xa9, 0x19, 0xb5, 0x4a, 0x0d, 0x2d, 0xe5, 0x7a, 0x9f, 0x93, 0xc9, 0x9c, 0xef,
  0xa0, 0xe0, 0x3b, 0x4d, 0xae, 0x2a, 0xf5, 0xb0, 0xc8, 0xeb, 0xbb, 0x3c, 0x83, 0x53, 0x99, 0x61,
  0x17, 0x2b, 0x04, 0x7e, 0xba, 0x77, 0xd6, 0x26, 0xe1, 0x69, 0x14, 0x63, 0x55, 0x21, 0x0c, 0x7d]

/-- Round constants (`RCON` in aes.ts). -/
def RCON : List Nat := [0x01, 0x02, 0x04, 0x08, 0x10, 0x20, 0x40, 0x80, 0x1b, 0x36]

/-- GF(2^8) multiplication loop body, 8 iterations (`gmul` in aes.ts). -/
def gmulGo (p a b : Nat) : Nat → Nat
  | 0 => p
  | n + 1 =>
    let p' := if b &&& 1 ≠ 0 then p ^^^ a else p
    let hiBitSet := a &&& 0x80 ≠ 0
    let a' := (a <<< 1) &&& 0xFF
    let a'' := if hiBitSet then a' ^^^ 0x1B else a'
    gmulGo p' a'' (b >>> 1) n

/-- GF(2^8) multiplication with reduction polynomial 0x1B (`gmul` in aes.ts). -/
def gmul (a b : Nat) : Nat := gmulGo 0 a b 8

/-- The AES state: four 32-bit words, one per `state[i]` of the source. -/
structure AesState where
  s0 : Nat
  s1 : Nat
  s2 : Nat
  s3 : Nat
deriving Repr, DecidableEq

/-- Assemble a 32-bit word from four bytes, big-endian, as the source does with
`(b0 << 24) | (b1 << 16) | (b2 << 8) | b3`. -/
def pack4 (b0 b1 b2 b3 : Nat) : Nat := (b0 <<< 24) ||| (b1 <<< 16) ||| (b2 <<< 8) ||| b3

/-- SubWord on one 32-bit word: S-box each byte (body of `subBytes` / key-expansion SubWord). -/
def subWordCore (t : Nat) : Nat :=
  pack4 (SBOX.getD ((t >>> 24) &&& 0xff) 0) (SBOX.getD ((t >>> 16) &&& 0xff) 0)
        (SBOX.getD ((t >>> 8) &&& 0xff) 0) (SBOX.getD (t &&& 0xff) 0)

/-- Inverse SubWord on one 32-bit word (body of `invSubBytes`). -/
def invSubWordCore (t : Nat) : Nat :=
  pack4 (INV_SBOX.getD ((t >>> 24) &&& 0xff) 0) (INV_SBOX.getD ((t >>> 16) &&& 0xff) 0)
        (INV_SBOX.getD ((t >>> 8) &&& 0xff) 0) (INV_SBOX.getD (t &&& 0xff) 0)

/-- `subBytes` of aes.ts: S-box substitution on every byte of the state. -/
def subBytes (st : AesState) : AesState :=
  ⟨u32 (subWordCore st.s0), u32 (subWordCore st.s1), u32 (subWordCore st.s2), u32 (subWordCore st.s3)⟩

/-- `invSubBytes` of aes.ts. -/
def invSubBytes (st : AesState) : AesState :=
  ⟨u32 (invSubWordCore st.s0), u32 (invSubWordCore st.s1),
   u32 (invSubWordCore st.s2), u32 (invSubWordCore st.s3)⟩

/-- `shiftRows` of aes.ts: byte-mask recombination of the four state words. -/
def shiftRows (st : AesState) : AesState :=
  ⟨u32 ((st.s0 &&& 0xFF000000) ||| (st.s1 &&& 0x00FF0000) ||| (st.s2 &&& 0x0000FF00) ||| (st.s3 &&& 0x000000FF)),
   u32 ((st.s1 &&& 0xFF000000) ||| (st.s2 &&& 0x00FF0000) ||| (st.s3 &&& 0x0000FF00) ||| (st.s0 &&& 0x000000FF)),
   u32 ((st.s2 &&& 0xFF000000) ||| (st.s3 &&& 0x00FF0000) ||| (st.s0 &&& 0x0000FF00) ||| (st.s1 &&& 0x000000FF)),
   u32 ((st.s3 &&& 0xFF000000) ||| (st.s0 &&& 0x00FF0000) ||| (st.s1 &&& 0x0000FF00) ||| (st.s2 &&& 0x000000FF))⟩

/-- `invShiftRows` of aes.ts. -/
def invShiftRows (st : AesState) : AesState :=
  ⟨u32 ((st.s0 &&& 0xFF000000) ||| (st.s3 &&& 0x00FF0000) ||| (st.s2 &&& 0x0000FF00) ||| (st.s1 &&& 0x000000FF)),
   u32 ((st.s1 &&& 0xFF000000) ||| (st.s0 &&& 0x00FF0000) ||| (st.s3 &&& 0x0000FF00) ||| (st.s2 &&& 0x000000FF)),
   u32 ((st.s2 &&& 0xFF000000) ||| (st.s1 &&& 0x00FF0000) ||| (st.s0 &&& 0x0000FF00) ||| (st.s3 &&& 0x000000FF)),
   u32 ((st.s3 &&& 0xFF000000) ||| (st.s2 &&& 0x00FF0000) ||| (st.s1 &&& 0x0000FF00) ||| (st.s0 &&& 0x000000FF))⟩

/-- One column of `mixColumns` of aes.ts. -/
def mixColumnsWord (s : Nat) : Nat :=
  let s0 := (s >>> 24) &&& 0xff
  let s1 := (s >>> 16) &&& 0xff
  let s2 := (s >>> 8) &&& 0xff
  let s3 := s &&& 0xff
  let d0 := gmul s0 2 ^^^ gmul s1 3 ^^^ s2 ^^^ s3
  let d1 := s0 ^^^ gmul s1 2 ^^^ gmul s2 3 ^^^ s3
  let d2 := s0 ^^^ s1 ^^^ gmul s2 2 ^^^ gmul s3 3
  let d3 := gmul s0 3 ^^^ s1 ^^^ s2 ^^^ gmul s3 2
  u32 (pack4 d0 d1 d2 d3)

/-- One column of `invMixColumns` of aes.ts. -/
def invMixColumnsWord (s : Nat) : Nat :=
  let s0 := (s >>> 24) &&& 0xff
  let s1 := (s >>> 16) &&& 0xff
  let s2 := (s >>> 8) &&& 0xff
  let s3 := s &&& 0xff
  let d0 := gmul s0 0x0e ^^^ gmul s1 0x0b ^^^ gmul s2 0x0d ^^^ gmul s3 0x09
  let d1 := gmul s0 0x09 ^^^ gmul s1 0x0e ^^^ gmul s2 0x0b ^^^ gmul s3 0x0d
  let d2 := gmul s0 0x0d ^^^ gmul s1 0x09 ^^^ gmul s2 0x0e ^^^ gmul s3 0x0b
  let d3 := gmul s0 0x0b ^^^ gmul s1 0x0d ^^^ gmul s2 0x09 ^^^ gmul s3 0x0e
  u32 (pack4 d0 d1 d2 d3)

/-- `mixColumns` of aes.ts: per-word column mixing. -/
def mixColumns (st : AesState) : AesState :=
  ⟨mixColumnsWord st.s0, mixColumnsWord st.s1, mixColumnsWord st.s2, mixColumnsWord st.s3⟩

/-- `invMixColumns` of aes.ts. -/
def invMixColumns (st : AesState) : AesState :=
  ⟨invMixColumnsWord st.s0, invMixColumnsWord st.s1, invMixColumnsWord st.s2, invMixColumnsWord st.s3⟩

/-- `state[i] ^= w[round*4+i]` of aes.ts (AddRoundKey; stores coerce mod 2^32). -/
def addRoundKey (w : List Nat) (round : Nat) (st : AesState) : AesState :=
  ⟨u32 (st.s0 ^^^ w.getD (round * 4) 0), u32 (st.s1 ^^^ w.getD (round * 4 + 1) 0),
   u32 (st.s2 ^^^ w.getD (round * 4 + 2) 0), u32 (st.s3 ^^^ w.getD (round * 4 + 3) 0)⟩

/-- RotWord of the key expansion: `((temp << 8) | (temp >>> 24)) >>> 0`. -/
def rotWordCore (t : Nat) : Nat := u32 ((t <<< 8) ||| (t >>> 24))

/-- The key-expansion loop of `keyExpansion` in aes.ts, from word index `i`
with `fuel` words still to generate. -/
def keyExpansionGo (nk : Nat) (w : List Nat) (i : Nat) : Nat → List Nat
  | 0 => w
  | fuel + 1 =>
    let temp := w.getD (i - 1) 0
    let temp :=
      if i % nk = 0 then
        (subWordCore (rotWordCore temp)) ^^^ (RCON.getD (i / nk - 1) 0 <<< 24)
      else if 6 < nk ∧ i % nk = 4 then
        subWordCore temp
      else temp
    keyExpansionGo nk (w ++ [u32 (w.getD (i - nk) 0 ^^^ temp)]) (i + 1) fuel

/-- `keyExpansion` of aes.ts: expand a 16/24/32-byte key into `4*(nr+1)` words. -/
def keyExpansion (key : List Nat) : List Nat :=
  let nk := key.length / 4
  let nr := nk + 6
  let w := (List.range nk).map fun i =>
    u32 (pack4 (key.getD (4 * i) 0) (key.getD (4 * i + 1) 0)
               (key.getD (4 * i + 2) 0) (key.getD (4 * i + 3) 0))
  keyExpansionGo nk w nk (4 * (nr + 1) - nk)

/-- Load 16 input bytes into the four state words (`state[i] = ...` of aes.ts). -/
def bytesToState (input : List Nat) : AesState :=
  ⟨u32 (pack4 (input.getD 0 0) (input.getD 1 0) (input.getD 2 0) (input.getD 3 0)),
   u32 (pack4 (input.getD 4 0) (input.getD 5 0) (input.getD 6 0) (input.getD 7 0)),
   u32 (pack4 (input.getD 8 0) (input.getD 9 0) (input.getD 10 0) (input.getD 11 0)),
   u32 (pack4 (input.getD 12 0) (input.getD 13 0) (input.getD 14 0) (input.getD 15 0))⟩

/-- Serialize the state back to 16 output bytes (`output[4*i+j] = ...` of aes.ts). -/
def stateToBytes (st : AesState) : List Nat :=
  [(st.s0 >>> 24) &&& 0xff, (st.s0 >>> 16) &&& 0xff, (st.s0 >>> 8) &&& 0xff, st.s0 &&& 0xff,
   (st.s1 >>> 24) &&& 0xff, (st.s1 >>> 16) &&& 0xff, (st.s1 >>> 8) &&& 0xff, st.s1 &&& 0xff,
   (st.s2 >>> 24) &&& 0xff, (st.s2 >>> 16) &&& 0xff, (st.s2 >>> 8) &&& 0xff, st.s2 &&& 0xff,
   (st.s3 >>> 24) &&& 0xff, (st.s3 >>> 16) &&& 0xff, (st.s3 >>> 8) &&& 0xff, st.s3 &&& 0xff]

/-- The middle rounds 1..nr-1 of `aesBlockEncrypt` (SubBytes, ShiftRows,
MixColumns, AddRoundKey), starting at round `r` for `fuel` rounds. -/
def encRounds (w : List Nat) (st : AesState) (r : Nat) : Nat → AesState
  | 0 => st
  | fuel + 1 => encRounds w (addRoundKey w r (mixColumns (shiftRows (subBytes st)))) (r + 1) fuel

/-- `aesBlockEncrypt` of aes.ts: the single-block AES transform. -/
def aesBlockEncrypt (input : List Nat) (w : List Nat) : List Nat :=
  let nr := w.length / 4 - 1
  let st := addRoundKey w 0 (bytesToState input)
  let st := encRounds w st 1 (nr - 1)
  let st := addRoundKey w nr (shiftRows (subBytes st))
  stateToBytes st

/-- The middle rounds nr-1..1 of `aesBlockDecrypt` (InvShiftRows, InvSubBytes,
AddRoundKey, InvMixColumns); with `fuel` rounds left, the next round index used
is `r + fuel - 1`, so the rounds run from `r + fuel0 - 1` down to `r`. -/
def decRounds (w : List Nat) (st : AesState) (r : Nat) : Nat → AesState
  | 0 => st
  | fuel + 1 =>
    decRounds w (invMixColumns (addRoundKey w (r + fuel) (invSubBytes (invShiftRows st)))) r fuel

/-- `aesBlockDecrypt` of aes.ts. -/
def aesBlockDecrypt (input : List Nat) (w : List Nat) : List Nat :=
  let nr := w.length / 4 - 1
  let st := addRoundKey w nr (bytesToState input)
  let st := decRounds w st 1 (nr - 1)
  let st := addRoundKey w 0 (invSubBytes (invShiftRows st))
  stateToBytes st

/-! ## Word/byte arithmetic lemmas -/

theorem u32_lt (x : Nat) : u32 x < 4294967296 := Nat.mod_lt _ (by norm_num)

theorem u32_eq {x : Nat} (h : x < 4294967296) : u32 x = x := Nat.mod_eq_of_lt h

theorem u8_eq {x : Nat} (h : x < 256) : u8 x = x := Nat.mod_eq_of_lt h

theorem and255 (x : Nat) : x &&& 255 = x % 256 := by
  have h : (255 : Nat) = 2 ^ 8 - 1 := by norm_num
  rw [h, Nat.and_pow_two_sub_one_eq_mod]

theorem byte_lt (x k : Nat) : (x >>> k) &&& 255 < 256 := by
  rw [and255]
  exact Nat.mod_lt _ (by norm_num)

theorem and255_lt (x : Nat) : x &&& 255 < 256 := by
  rw [and255]
  exact Nat.mod_lt _ (by norm_num)

theorem pack4_eq {b1 b2 b3 : Nat} (b0 : Nat) (h1 : b1 < 256) (h2 : b2 < 256) (h3 : b3 < 256) :
    pack4 b0 b1 b2 b3 = b0 * 16777216 + b1 * 65536 + b2 * 256 + b3 := by
  unfold pack4
  rw [Nat.shiftLeft_eq, Nat.shiftLeft_eq, Nat.shiftLeft_eq, Nat.or_assoc, Nat.or_assoc]
  have e3 : b2 * 2 ^ 8 ||| b3 = b2 * 2 ^ 8 + b3 := by
    rw [Nat.mul_comm b2]
    exact (Nat.mul_add_lt_is_or (by norm_num [h3]) b2).symm
  rw [e3]
  have e2 : b1 * 2 ^ 16 ||| (b2 * 2 ^ 8 + b3) = b1 * 2 ^ 16 + (b2 * 2 ^ 8 + b3) := by
    rw [Nat.mul_comm b1]
    refine (Nat.mul_add_lt_is_or ?_ b1).symm
    norm_num
    omega
  rw [e2]
  have e1 : b0 * 2 ^ 24 ||| (b1 * 2 ^ 16 + (b2 * 2 ^ 8 + b3)) =
      b0 * 2 ^ 24 + (b1 * 2 ^ 16 + (b2 * 2 ^ 8 + b3)) := by
    rw [Nat.mul_comm b0]
    refine (Nat.mul_add_lt_is_or ?_ b0).symm
    norm_num
    omega
  rw [e1]
  norm_num
  omega

theorem pack4_lt {b0 b1 b2 b3 : Nat} (h0 : b0 < 256) (h1 : b1 < 256) (h2 : b2 < 256)
    (h3 : b3 < 256) : pack4 b0 b1 b2 b3 < 4294967296 := by
  rw [pack4_eq b0 h1 h2 h3]
  omega

theorem pack4_byte0 {b0 b1 b2 b3 : Nat} (h0 : b0 < 256) (h1 : b1 < 256) (h2 : b2 < 256)
    (h3 : b3 < 256) : (pack4 b0 b1 b2 b3 >>> 24) &&& 255 = b0 := by
  rw [pack4_eq b0 h1 h2 h3, and255, Nat.shiftRight_eq_div_pow]
  have h : (2 : Nat) ^ 24 = 16777216 := by norm_num
  rw [h]
  omega

theorem pack4_byte1 {b0 b1 b2 b3 : Nat} (h0 : b0 < 256) (h1 : b1 < 256) (h2 : b2 < 256)
    (h3 : b3 < 256) : (pack4 b0 b1 b2 b3 >>> 16) &&& 255 = b1 := by
  rw [pack4_eq b0 h1 h2 h3, and255, Nat.shiftRight_eq_div_pow]
  have h : (2 : Nat) ^ 16 = 65536 := by norm_num
  rw [h]
  omega

theorem pack4_byte2 {b0 b1 b2 b3 : Nat} (h0 : b0 < 256) (h1 : b1 < 256) (h2 : b2 < 256)
    (h3 : b3 < 256) : (pack4 b0 b1 b2 b3 >>> 8) &&& 255 = b2 := by
  rw [pack4_eq b0 h1 h2 h3, and255, Nat.shiftRight_eq_div_pow]
  have h : (2 : Nat) ^ 8 = 256 := by norm_num
  rw [h]
  omega

theorem pack4_byte3 {b0 b1 b2 b3 : Nat} (h0 : b0 < 256) (h1 : b1 < 256) (h2 : b2 < 256)
    (h3 : b3 < 256) : pack4 b0 b1 b2 b3 &&& 255 = b3 := by
  rw [pack4_eq b0 h1 h2 h3, and255]
  omega

theorem pack4_unpack {w : Nat} (h : w < 4294967296) :
    pack4 ((w >>> 24) &&& 255) ((w >>> 16) &&& 255) ((w >>> 8) &&& 255) (w &&& 255) = w := by
  rw [pack4_eq _ (byte_lt w 16) (byte_lt w 8) (and255_lt w), and255, and255, and255, and255,
    Nat.shiftRight_eq_div_pow, Nat.shiftRight_eq_div_pow, Nat.shiftRight_eq_div_pow]
  have h24 : (2 : Nat) ^ 24 = 16777216 := by norm_num
  have h16 : (2 : Nat) ^ 16 = 65536 := by norm_num
  have h8 : (2 : Nat) ^ 8 = 256 := by norm_num
  rw [h24, h16, h8]
  omega

theorem and_hi_mask (x m k : Nat) : x &&& (m <<< k) = ((x >>> k) &&& m) <<< k := by
  apply Nat.eq_of_testBit_eq
  intro i
  simp only [Nat.testBit_and, Nat.testBit_shiftLeft, Nat.testBit_shiftRight]
  by_cases h : k ≤ i
  · have e : k + (i - k) = i := by omega
    simp [ge_iff_le, h, e, Bool.and_comm, Bool.and_left_comm]
  · simp [ge_iff_le, h]

theorem mask_hi (x : Nat) : x &&& 4278190080 = ((x >>> 24) &&& 255) <<< 24 := by
  have h : (4278190080 : Nat) = 255 <<< 24 := by
    rw [Nat.shiftLeft_eq]
  rw [h, and_hi_mask]

theorem mask_mid1 (x : Nat) : x &&& 16711680 = ((x >>> 16) &&& 255) <<< 16 := by
  have h : (16711680 : Nat) = 255 <<< 16 := by
    rw [Nat.shiftLeft_eq]
  rw [h, and_hi_mask]

theorem mask_mid2 (x : Nat) : x &&& 65280 = ((x >>> 8) &&& 255) <<< 8 := by
  have h : (65280 : Nat) = 255 <<< 8 := by
    rw [Nat.shiftLeft_eq]
  rw [h, and_hi_mask]

/-! ## S-box and GF(2^8) facts -/

set_option maxRecDepth 2048 in
theorem sbox_lt : ∀ i : Fin 256, SBOX.getD i.val 0 < 256 := by decide

set_option maxRecDepth 2048 in
theorem inv_sbox_lt : ∀ i : Fin 256, INV_SBOX.getD i.val 0 < 256 := by decide

set_option maxRecDepth 2048 in
theorem inv_sbox_sbox : ∀ i : Fin 256, INV_SBOX.getD (SBOX.getD i.val 0) 0 = i.val := by decide

theorem sbox_lt' {i : Nat} (h : i < 256) : SBOX.getD i 0 < 256 := sbox_lt ⟨i, h⟩

theorem inv_sbox_lt' {i : Nat} (h : i < 256) : INV_SBOX.getD i 0 < 256 := inv_sbox_lt ⟨i, h⟩

theorem inv_sbox_sbox' {i : Nat} (h : i < 256) : INV_SBOX.getD (SBOX.getD i 0) 0 = i :=
  inv_sbox_sbox ⟨i, h⟩

theorem gmulGo_lt : ∀ (n p a b : Nat), p < 256 → a < 256 → gmulGo p a b n < 256 := by
  intro n
  induction n with
  | zero => intro p a b hp _; simpa [gmulGo] using hp
  | succ n ih =>
    intro p a b hp ha
    simp only [gmulGo]
    apply ih
    · split
      · exact @Nat.xor_lt_two_pow _ _ 8 hp ha
      · exact hp
    · split
      · exact @Nat.xor_lt_two_pow _ _ 8 (and255_lt _) (by norm_num)
      · exact and255_lt _

theorem gmul_lt {a : Nat} (b : Nat) (ha : a < 256) : gmul a b < 256 :=
  gmulGo_lt 8 0 a b (by norm_num) ha

theorem xorFour (p q a c : Nat) : (p ^^^ q) ^^^ (a ^^^ c) = (p ^^^ a) ^^^ (q ^^^ c) := by
  simp only [Nat.xor_assoc]
  congr 1
  rw [← Nat.xor_assoc, Nat.xor_comm q a, Nat.xor_assoc]

theorem shiftLeft_one_xor (a c : Nat) : (a ^^^ c) <<< 1 = (a <<< 1) ^^^ (c <<< 1) := by
  apply Nat.eq_of_testBit_eq
  intro i
  simp only [Nat.testBit_shiftLeft, Nat.testBit_xor]
  by_cases h : 1 ≤ i
  · simp [ge_iff_le, h]
  · simp [ge_iff_le, h]

theorem and128_cases (a : Nat) : a &&& 128 = 0 ∨ a &&& 128 = 128 := by
  have h : (128 : Nat) = 2 ^ 7 := by norm_num
  rw [h, Nat.and_two_pow]
  cases a.testBit 7 <;> simp

theorem gmulGo_succ (p a b n : Nat) : gmulGo p a b (n + 1) =
    gmulGo (if b &&& 1 ≠ 0 then p ^^^ a else p)
      (if a &&& 128 ≠ 0 then ((a <<< 1) &&& 255) ^^^ 27 else (a <<< 1) &&& 255)
      (b >>> 1) n := rfl

theorem gmulGo_linear : ∀ (n p q a c b : Nat),
    gmulGo (p ^^^ q) (a ^^^ c) b n = gmulGo p a b n ^^^ gmulGo q c b n := by
  intro n
  induction n with
  | zero => intro p q a c b; rfl
  | succ n ih =>
    intro p q a c b
    rw [gmulGo_succ, gmulGo_succ, gmulGo_succ]
    have hps : (if b &&& 1 ≠ 0 then (p ^^^ q) ^^^ (a ^^^ c) else p ^^^ q)
        = (if b &&& 1 ≠ 0 then p ^^^ a else p) ^^^ (if b &&& 1 ≠ 0 then q ^^^ c else q) := by
      split
      · exact xorFour p q a c
      · rfl
    have hxor : ((a ^^^ c) <<< 1) &&& 255 = ((a <<< 1) &&& 255) ^^^ ((c <<< 1) &&& 255) := by
      rw [shiftLeft_one_xor, Nat.and_xor_distrib_right]
    have h128 : (a ^^^ c) &&& 128 = (a &&& 128) ^^^ (c &&& 128) := Nat.and_xor_distrib_right
    have has : (if (a ^^^ c) &&& 128 ≠ 0 then (((a ^^^ c) <<< 1) &&& 255) ^^^ 27
          else ((a ^^^ c) <<< 1) &&& 255)
        = (if a &&& 128 ≠ 0 then ((a <<< 1) &&& 255) ^^^ 27 else (a <<< 1) &&& 255)
          ^^^ (if c &&& 128 ≠ 0 then ((c <<< 1) &&& 255) ^^^ 27 else (c <<< 1) &&& 255) := by
      rcases and128_cases a with ha | ha <;> rcases and128_cases c with hc | hc
      · simp only [h128, ha, hc, hxor]
        norm_num
      · simp only [h128, ha, hc, hxor]
        norm_num [Nat.xor_assoc]
      · simp only [h128, ha, hc, hxor]
        norm_num
        calc ((a <<< 1) &&& 255 ^^^ ((c <<< 1) &&& 255)) ^^^ 27
            = (a <<< 1) &&& 255 ^^^ (((c <<< 1) &&& 255) ^^^ 27) := by rw [Nat.xor_assoc]
          _ = (a <<< 1) &&& 255 ^^^ (27 ^^^ ((c <<< 1) &&& 255)) := by rw [Nat.xor_comm (((c <<< 1) &&& 255)) 27]
          _ = ((a <<< 1) &&& 255 ^^^ 27) ^^^ ((c <<< 1) &&& 255) := by rw [Nat.xor_assoc]
      · simp only [h128, ha, hc, hxor]
        norm_num
        calc (a <<< 1) &&& 255 ^^^ ((c <<< 1) &&& 255)
            = ((a <<< 1) &&& 255 ^^^ (c <<< 1) &&& 255) ^^^ (27 ^^^ 27) := by simp
          _ = ((a <<< 1) &&& 255 ^^^ 27) ^^^ ((c <<< 1) &&& 255 ^^^ 27) := xorFour _ _ _ _
    rw [hps, has]
    exact ih _ _ _ _ _

theorem gmul_linear (a c b : Nat) : gmul (a ^^^ c) b = gmul a b ^^^ gmul c b := by
  have h : (0 : Nat) = 0 ^^^ 0 := rfl
  unfold gmul
  rw [h]
  exact gmulGo_linear 8 0 0 a c b

theorem gmulGo_zero : ∀ n b, gmulGo 0 0 b n = 0 := by
  intro n
  induction n with
  | zero => intro b; rfl
  | succ n ih =>
    intro b
    rw [gmulGo_succ]
    simp only [Nat.xor_self]
    norm_num
    exact ih _

theorem gmul_zero (b : Nat) : gmul 0 b = 0 := gmulGo_zero 8 b

/-- Byte-level view of the first `mixColumns` output formula (`d0` in aes.ts). -/
def mixD0 (s0 s1 s2 s3 : Nat) : Nat := gmul s0 2 ^^^ gmul s1 3 ^^^ s2 ^^^ s3

/-- Byte-level view of `d1` of `mixColumns`. -/
def mixD1 (s0 s1 s2 s3 : Nat) : Nat := s0 ^^^ gmul s1 2 ^^^ gmul s2 3 ^^^ s3

/-- Byte-level view of `d2` of `mixColumns`. -/
def mixD2 (s0 s1 s2 s3 : Nat) : Nat := s0 ^^^ s1 ^^^ gmul s2 2 ^^^ gmul s3 3

/-- Byte-level view of `d3` of `mixColumns`. -/
def mixD3 (s0 s1 s2 s3 : Nat) : Nat := gmul s0 3 ^^^ s1 ^^^ s2 ^^^ gmul s3 2

/-- Byte-level view of `d0` of `invMixColumns`. -/
def invMixD0 (s0 s1 s2 s3 : Nat) : Nat := gmul s0 14 ^^^ gmul s1 11 ^^^ gmul s2 13 ^^^ gmul s3 9

/-- Byte-level view of `d1` of `invMixColumns`. -/
def invMixD1 (s0 s1 s2 s3 : Nat) : Nat := gmul s0 9 ^^^ gmul s1 14 ^^^ gmul s2 11 ^^^ gmul s3 13

/-- Byte-level view of `d2` of `invMixColumns`. -/
def invMixD2 (s0 s1 s2 s3 : Nat) : Nat := gmul s0 13 ^^^ gmul s1 9 ^^^ gmul s2 14 ^^^ gmul s3 11

/-- Byte-level view of `d3` of `invMixColumns`. -/
def invMixD3 (s0 s1 s2 s3 : Nat) : Nat := gmul s0 11 ^^^ gmul s1 13 ^^^ gmul s2 9 ^^^ gmul s3 14

/-- All four `invMixColumns` byte formulas together. -/
def invMixTup (s0 s1 s2 s3 : Nat) : Nat × Nat × Nat × Nat :=
  (invMixD0 s0 s1 s2 s3, invMixD1 s0 s1 s2 s3, invMixD2 s0 s1 s2 s3, invMixD3 s0 s1 s2 s3)

set_option maxRecDepth 4096 in
theorem mix_basis0 : ∀ v : Fin 256,
    invMixTup (mixD0 v.val 0 0 0) (mixD1 v.val 0 0 0) (mixD2 v.val 0 0 0) (mixD3 v.val 0 0 0)
      = (v.val, 0, 0, 0) := by decide

set_option maxRecDepth 4096 in
theorem mix_basis1 : ∀ v : Fin 256,
    invMixTup (mixD0 0 v.val 0 0) (mixD1 0 v.val 0 0) (mixD2 0 v.val 0 0) (mixD3 0 v.val 0 0)
      = (0, v.val, 0, 0) := by decide

set_option maxRecDepth 4096 in
theorem mix_basis2 : ∀ v : Fin 256,
    invMixTup (mixD0 0 0 v.val 0) (mixD1 0 0 v.val 0) (mixD2 0 0 v.val 0) (mixD3 0 0 v.val 0)
      = (0, 0, v.val, 0) := by decide

set_option maxRecDepth 4096 in
theorem mix_basis3 : ∀ v : Fin 256,
    invMixTup (mixD0 0 0 0 v.val) (mixD1 0 0 0 v.val) (mixD2 0 0 0 v.val) (mixD3 0 0 0 v.val)
      = (0, 0, 0, v.val) := by decide

theorem invMixD0_linear4 (x1 x2 x3 x4 y1 y2 y3 y4 z1 z2 z3 z4 w1 w2 w3 w4 : Nat) :
    invMixD0 (x1 ^^^ x2 ^^^ x3 ^^^ x4) (y1 ^^^ y2 ^^^ y3 ^^^ y4) (z1 ^^^ z2 ^^^ z3 ^^^ z4)
      (w1 ^^^ w2 ^^^ w3 ^^^ w4)
      = invMixD0 x1 y1 z1 w1 ^^^ invMixD0 x2 y2 z2 w2 ^^^ invMixD0 x3 y3 z3 w3 ^^^
        invMixD0 x4 y4 z4 w4 := by
  simp only [invMixD0, gmul_linear]
  ac_rfl

theorem invMixD1_linear4 (x1 x2 x3 x4 y1 y2 y3 y4 z1 z2 z3 z4 w1 w2 w3 w4 : Nat) :
    invMixD1 (x1 ^^^ x2 ^^^ x3 ^^^ x4) (y1 ^^^ y2 ^^^ y3 ^^^ y4) (z1 ^^^ z2 ^^^ z3 ^^^ z4)
      (w1 ^^^ w2 ^^^ w3 ^^^ w4)
      = invMixD1 x1 y1 z1 w1 ^^^ invMixD1 x2 y2 z2 w2 ^^^ invMixD1 x3 y3 z3 w3 ^^^
        invMixD1 x4 y4 z4 w4 := by
  simp only [invMixD1, gmul_linear]
  ac_rfl

theorem invMixD2_linear4 (x1 x2 x3 x4 y1 y2 y3 y4 z1 z2 z3 z4 w1 w2 w3 w4 : Nat) :
    invMixD2 (x1 ^^^ x2 ^^^ x3 ^^^ x4) (y1 ^^^ y2 ^^^ y3 ^^^ y4) (z1 ^^^ z2 ^^^ z3 ^^^ z4)
      (w1 ^^^ w2 ^^^ w3 ^^^ w4)
      = invMixD2 x1 y1 z1 w1 ^^^ invMixD2 x2 y2 z2 w2 ^^^ invMixD2 x3 y3 z3 w3 ^^^
        invMixD2 x4 y4 z4 w4 := by
  simp only [invMixD2, gmul_linear]
  ac_rfl

theorem invMixD3_linear4 (x1 x2 x3 x4 y1 y2 y3 y4 z1 z2 z3 z4 w1 w2 w3 w4 : Nat) :
    invMixD3 (x1 ^^^ x2 ^^^ x3 ^^^ x4) (y1 ^^^ y2 ^^^ y3 ^^^ y4) (z1 ^^^ z2 ^^^ z3 ^^^ z4)
      (w1 ^^^ w2 ^^^ w3 ^^^ w4)
      = invMixD3 x1 y1 z1 w1 ^^^ invMixD3 x2 y2 z2 w2 ^^^ invMixD3 x3 y3 z3 w3 ^^^
        invMixD3 x4 y4 z4 w4 := by
  simp only [invMixD3, gmul_linear]
  ac_rfl

theorem invmix_mix_bytes {b0 b1 b2 b3 : Nat} (h0 : b0 < 256) (h1 : b1 < 256) (h2 : b2 < 256)
    (h3 : b3 < 256) :
    invMixTup (mixD0 b0 b1 b2 b3) (mixD1 b0 b1 b2 b3) (mixD2 b0 b1 b2 b3) (mixD3 b0 b1 b2 b3)
      = (b0, b1, b2, b3) := by
  have e0 : mixD0 b0 b1 b2 b3
      = mixD0 b0 0 0 0 ^^^ mixD0 0 b1 0 0 ^^^ mixD0 0 0 b2 0 ^^^ mixD0 0 0 0 b3 := by
    simp [mixD0, gmul_zero]
  have e1 : mixD1 b0 b1 b2 b3
      = mixD1 b0 0 0 0 ^^^ mixD1 0 b1 0 0 ^^^ mixD1 0 0 b2 0 ^^^ mixD1 0 0 0 b3 := by
    simp [mixD1, gmul_zero]
  have e2 : mixD2 b0 b1 b2 b3
      = mixD2 b0 0 0 0 ^^^ mixD2 0 b1 0 0 ^^^ mixD2 0 0 b2 0 ^^^ mixD2 0 0 0 b3 := by
    simp [mixD2, gmul_zero]
  have e3 : mixD3 b0 b1 b2 b3
      = mixD3 b0 0 0 0 ^^^ mixD3 0 b1 0 0 ^^^ mixD3 0 0 b2 0 ^^^ mixD3 0 0 0 b3 := by
    simp [mixD3, gmul_zero]
  have B0 := mix_basis0 ⟨b0, h0⟩
  have B1 := mix_basis1 ⟨b1, h1⟩
  have B2 := mix_basis2 ⟨b2, h2⟩
  have B3 := mix_basis3 ⟨b3, h3⟩
  simp only [invMixTup, Prod.mk.injEq] at B0 B1 B2 B3
  simp only [invMixTup, Prod.mk.injEq]
  refine ⟨?_, ?_, ?_, ?_⟩
  · rw [e0, e1, e2, e3, invMixD0_linear4, B0.1, B1.1, B2.1, B3.1]
    simp
  · rw [e0, e1, e2, e3, invMixD1_linear4, B0.2.1, B1.2.1, B2.2.1, B3.2.1]
    simp
  · rw [e0, e1, e2, e3, invMixD2_linear4, B0.2.2.1, B1.2.2.1, B2.2.2.1, B3.2.2.1]
    simp
  · rw [e0, e1, e2, e3, invMixD3_linear4, B0.2.2.2, B1.2.2.2, B2.2.2.2, B3.2.2.2]
    simp

/-! ## State-level inverse lemmas -/

/-- All four state words fit in 32 bits. -/
def StLt (st : AesState) : Prop :=
  st.s0 < 4294967296 ∧ st.s1 < 4294967296 ∧ st.s2 < 4294967296 ∧ st.s3 < 4294967296

/-- Every word of an expanded key (and the `Uint32Array` default 0) fits in 32 bits. -/
def WB (w : List Nat) : Prop := ∀ i, w.getD i 0 < 4294967296

theorem mixColumnsWord_eq (s : Nat) : mixColumnsWord s =
    u32 (pack4 (mixD0 ((s >>> 24) &&& 255) ((s >>> 16) &&& 255) ((s >>> 8) &&& 255) (s &&& 255))
               (mixD1 ((s >>> 24) &&& 255) ((s >>> 16) &&& 255) ((s >>> 8) &&& 255) (s &&& 255))
               (mixD2 ((s >>> 24) &&& 255) ((s >>> 16) &&& 255) ((s >>> 8) &&& 255) (s &&& 255))
               (mixD3 ((s >>> 24) &&& 255) ((s >>> 16) &&& 255) ((s >>> 8) &&& 255) (s &&& 255))) :=
  rfl

theorem invMixColumnsWord_eq (s : Nat) : invMixColumnsWord s =
    u32 (pack4 (invMixD0 ((s >>> 24) &&& 255) ((s >>> 16) &&& 255) ((s >>> 8) &&& 255) (s &&& 255))
               (invMixD1 ((s >>> 24) &&& 255) ((s >>> 16) &&& 255) ((s >>> 8) &&& 255) (s &&& 255))
               (invMixD2 ((s >>> 24) &&& 255) ((s >>> 16) &&& 255) ((s >>> 8) &&& 255) (s &&& 255))
               (invMixD3 ((s >>> 24) &&& 255) ((s >>> 16) &&& 255) ((s >>> 8) &&& 255) (s &&& 255))) :=
  rfl

theorem mixD0_lt {b0 b1 b2 b3 : Nat} (h0 : b0 < 256) (h1 : b1 < 256) (h2 : b2 < 256)
    (h3 : b3 < 256) : mixD0 b0 b1 b2 b3 < 256 :=
  @Nat.xor_lt_two_pow _ _ 8 (@Nat.xor_lt_two_pow _ _ 8
    (@Nat.xor_lt_two_pow _ _ 8 (gmul_lt 2 h0) (gmul_lt 3 h1)) h2) h3

theorem mixD1_lt {b0 b1 b2 b3 : Nat} (h0 : b0 < 256) (h1 : b1 < 256) (h2 : b2 < 256)
    (h3 : b3 < 256) : mixD1 b0 b1 b2 b3 < 256 :=
  @Nat.xor_lt_two_pow _ _ 8 (@Nat.xor_lt_two_pow _ _ 8
    (@Nat.xor_lt_two_pow _ _ 8 h0 (gmul_lt 2 h1)) (gmul_lt 3 h2)) h3

theorem mixD2_lt {b0 b1 b2 b3 : Nat} (h0 : b0 < 256) (h1 : b1 < 256) (h2 : b2 < 256)
    (h3 : b3 < 256) : mixD2 b0 b1 b2 b3 < 256 :=
  @Nat.xor_lt_two_pow _ _ 8 (@Nat.xor_lt_two_pow _ _ 8
    (@Nat.xor_lt_two_pow _ _ 8 h0 h1) (gmul_lt 2 h2)) (gmul_lt 3 h3)

theorem mixD3_lt {b0 b1 b2 b3 : Nat} (h0 : b0 < 256) (h1 : b1 < 256) (h2 : b2 < 256)
    (h3 : b3 < 256) : mixD3 b0 b1 b2 b3 < 256 :=
  @Nat.xor_lt_two_pow _ _ 8 (@Nat.xor_lt_two_pow _ _ 8
    (@Nat.xor_lt_two_pow _ _ 8 (gmul_lt 3 h0) h1) h2) (gmul_lt 2 h3)

theorem invMix_mix_word {s : Nat} (h : s < 4294967296) :
    invMixColumnsWord (mixColumnsWord s) = s := by
  have hb0 : (s >>> 24) &&& 255 < 256 := byte_lt _ _
  have hb1 : (s >>> 16) &&& 255 < 256 := byte_lt _ _
  have hb2 : (s >>> 8) &&& 255 < 256 := byte_lt _ _
  have hb3 : s &&& 255 < 256 := and255_lt _
  have m0 := mixD0_lt hb0 hb1 hb2 hb3
  have m1 := mixD1_lt hb0 hb1 hb2 hb3
  have m2 := mixD2_lt hb0 hb1 hb2 hb3
  have m3 := mixD3_lt hb0 hb1 hb2 hb3
  have H := invmix_mix_bytes hb0 hb1 hb2 hb3
  simp only [invMixTup, Prod.mk.injEq] at H
  obtain ⟨H0, H1, H2, H3⟩ := H
  rw [mixColumnsWord_eq, u32_eq (pack4_lt m0 m1 m2 m3), invMixColumnsWord_eq,
    pack4_byte0 m0 m1 m2 m3, pack4_byte1 m0 m1 m2 m3, pack4_byte2 m0 m1 m2 m3,
    pack4_byte3 m0 m1 m2 m3, H0, H1, H2, H3, u32_eq (pack4_lt hb0 hb1 hb2 hb3),
    pack4_unpack h]

theorem invMixColumns_mixColumns {st : AesState} (h : StLt st) :
    invMixColumns (mixColumns st) = st := by
  obtain ⟨s0, s1, s2, s3⟩ := st
  obtain ⟨h0, h1, h2, h3⟩ := h
  simp only [mixColumns, invMixColumns]
  rw [invMix_mix_word h0, invMix_mix_word h1, invMix_mix_word h2, invMix_mix_word h3]

theorem subWordCore_lt (t : Nat) : subWordCore t < 4294967296 :=
  pack4_lt (sbox_lt' (byte_lt _ _)) (sbox_lt' (byte_lt _ _)) (sbox_lt' (byte_lt _ _))
    (sbox_lt' (and255_lt _))

theorem invSub_sub_word {s : Nat} (h : s < 4294967296) :
    invSubWordCore (u32 (subWordCore s)) = s := by
  have hb0 : (s >>> 24) &&& 255 < 256 := byte_lt _ _
  have hb1 : (s >>> 16) &&& 255 < 256 := byte_lt _ _
  have hb2 : (s >>> 8) &&& 255 < 256 := byte_lt _ _
  have hb3 : s &&& 255 < 256 := and255_lt _
  have q0 := sbox_lt' hb0
  have q1 := sbox_lt' hb1
  have q2 := sbox_lt' hb2
  have q3 := sbox_lt' hb3
  show invSubWordCore (u32 (pack4 _ _ _ _)) = s
  rw [u32_eq (pack4_lt q0 q1 q2 q3)]
  unfold invSubWordCore
  rw [pack4_byte0 q0 q1 q2 q3, pack4_byte1 q0 q1 q2 q3, pack4_byte2 q0 q1 q2 q3,
    pack4_byte3 q0 q1 q2 q3, inv_sbox_sbox' hb0, inv_sbox_sbox' hb1, inv_sbox_sbox' hb2,
    inv_sbox_sbox' hb3, pack4_unpack h]

theorem invSubBytes_subBytes {st : AesState} (h : StLt st) :
    invSubBytes (subBytes st) = st := by
  obtain ⟨s0, s1, s2, s3⟩ := st
  obtain ⟨h0, h1, h2, h3⟩ := h
  simp only [subBytes, invSubBytes]
  rw [u32_eq (subWordCore_lt s0), u32_eq (subWordCore_lt s1), u32_eq (subWordCore_lt s2),
    u32_eq (subWordCore_lt s3)]
  have e : ∀ s : Nat, s < 4294967296 → u32 (invSubWordCore (subWordCore s)) = s := by
    intro s hs
    have := invSub_sub_word hs
    rw [u32_eq (subWordCore_lt s)] at this
    rw [this, u32_eq hs]
  rw [e s0 h0, e s1 h1, e s2 h2, e s3 h3]

theorem shiftRows_eq (st : AesState) : shiftRows st =
    ⟨u32 (pack4 ((st.s0 >>> 24) &&& 255) ((st.s1 >>> 16) &&& 255) ((st.s2 >>> 8) &&& 255) (st.s3 &&& 255)),
     u32 (pack4 ((st.s1 >>> 24) &&& 255) ((st.s2 >>> 16) &&& 255) ((st.s3 >>> 8) &&& 255) (st.s0 &&& 255)),
     u32 (pack4 ((st.s2 >>> 24) &&& 255) ((st.s3 >>> 16) &&& 255) ((st.s0 >>> 8) &&& 255) (st.s1 &&& 255)),
     u32 (pack4 ((st.s3 >>> 24) &&& 255) ((st.s0 >>> 16) &&& 255) ((st.s1 >>> 8) &&& 255) (st.s2 &&& 255))⟩ := by
  simp only [shiftRows, mask_hi, mask_mid1, mask_mid2]
  rfl

theorem invShiftRows_eq (st : AesState) : invShiftRows st =
    ⟨u32 (pack4 ((st.s0 >>> 24) &&& 255) ((st.s3 >>> 16) &&& 255) ((st.s2 >>> 8) &&& 255) (st.s1 &&& 255)),
     u32 (pack4 ((st.s1 >>> 24) &&& 255) ((st.s0 >>> 16) &&& 255) ((st.s3 >>> 8) &&& 255) (st.s2 &&& 255)),
     u32 (pack4 ((st.s2 >>> 24) &&& 255) ((st.s1 >>> 16) &&& 255) ((st.s0 >>> 8) &&& 255) (st.s3 &&& 255)),
     u32 (pack4 ((st.s3 >>> 24) &&& 255) ((st.s2 >>> 16) &&& 255) ((st.s1 >>> 8) &&& 255) (st.s0 &&& 255))⟩ := by
  simp only [invShiftRows, mask_hi, mask_mid1, mask_mid2]
  rfl

theorem invShiftRows_shiftRows {st : AesState} (h : StLt st) :
    invShiftRows (shiftRows st) = st := by
  obtain ⟨s0, s1, s2, s3⟩ := st
  obtain ⟨h0, h1, h2, h3⟩ := h
  have b00 : (s0 >>> 24) &&& 255 < 256 := byte_lt _ _
  have b01 : (s0 >>> 16) &&& 255 < 256 := byte_lt _ _
  have b02 : (s0 >>> 8) &&& 255 < 256 := byte_lt _ _
  have b03 : s0 &&& 255 < 256 := and255_lt _
  have b10 : (s1 >>> 24) &&& 255 < 256 := byte_lt _ _
  have b11 : (s1 >>> 16) &&& 255 < 256 := byte_lt _ _
  have b12 : (s1 >>> 8) &&& 255 < 256 := byte_lt _ _
  have b13 : s1 &&& 255 < 256 := and255_lt _
  have b20 : (s2 >>> 24) &&& 255 < 256 := byte_lt _ _
  have b21 : (s2 >>> 16) &&& 255 < 256 := byte_lt _ _
  have b22 : (s2 >>> 8) &&& 255 < 256 := byte_lt _ _
  have b23 : s2 &&& 255 < 256 := and255_lt _
  have b30 : (s3 >>> 24) &&& 255 < 256 := byte_lt _ _
  have b31 : (s3 >>> 16) &&& 255 < 256 := byte_lt _ _
  have b32 : (s3 >>> 8) &&& 255 < 256 := byte_lt _ _
  have b33 : s3 &&& 255 < 256 := and255_lt _
  rw [shiftRows_eq]
  simp only
  rw [invShiftRows_eq]
  simp only
  rw [u32_eq (pack4_lt b00 b11 b22 b33), u32_eq (pack4_lt b10 b21 b32 b03),
    u32_eq (pack4_lt b20 b31 b02 b13), u32_eq (pack4_lt b30 b01 b12 b23)]
  rw [pack4_byte0 b00 b11 b22 b33, pack4_byte1 b00 b11 b22 b33, pack4_byte2 b00 b11 b22 b33,
    pack4_byte3 b00 b11 b22 b33]
  rw [pack4_byte0 b10 b21 b32 b03, pack4_byte1 b10 b21 b32 b03, pack4_byte2 b10 b21 b32 b03,
    pack4_byte3 b10 b21 b32 b03]
  rw [pack4_byte0 b20 b31 b02 b13, pack4_byte1 b20 b31 b02 b13, pack4_byte2 b20 b31 b02 b13,
    pack4_byte3 b20 b31 b02 b13]
  rw [pack4_byte0 b30 b01 b12 b23, pack4_byte1 b30 b01 b12 b23, pack4_byte2 b30 b01 b12 b23,
    pack4_byte3 b30 b01 b12 b23]
  rw [u32_eq (pack4_lt b00 b01 b02 b03), u32_eq (pack4_lt b10 b11 b12 b13),
    u32_eq (pack4_lt b20 b21 b22 b23), u32_eq (pack4_lt b30 b31 b32 b33)]
  rw [pack4_unpack h0, pack4_unpack h1, pack4_unpack h2, pack4_unpack h3]

theorem addRoundKey_addRoundKey {w : List Nat} (r : Nat) {st : AesState} (h : StLt st)
    (hw : WB w) : addRoundKey w r (addRoundKey w r st) = st := by
  obtain ⟨s0, s1, s2, s3⟩ := st
  obtain ⟨h0, h1, h2, h3⟩ := h
  have p : (4294967296 : Nat) = 2 ^ 32 := by norm_num
  have e : ∀ s k : Nat, s < 4294967296 → k < 4294967296 → u32 (u32 (s ^^^ k) ^^^ k) = s := by
    intro s k hs hk
    have hx : s ^^^ k < 4294967296 := by
      rw [p] at hs hk ⊢
      exact Nat.xor_lt_two_pow hs hk
    rw [u32_eq hx, Nat.xor_cancel_right, u32_eq hs]
  simp only [addRoundKey]
  rw [e s0 _ h0 (hw _), e s1 _ h1 (hw _), e s2 _ h2 (hw _), e s3 _ h3 (hw _)]

theorem StLt_subBytes (st : AesState) : StLt (subBytes st) :=
  ⟨u32_lt _, u32_lt _, u32_lt _, u32_lt _⟩

theorem StLt_invSubBytes (st : AesState) : StLt (invSubBytes st) :=
  ⟨u32_lt _, u32_lt _, u32_lt _, u32_lt _⟩

theorem StLt_shiftRows (st : AesState) : StLt (shiftRows st) :=
  ⟨u32_lt _, u32_lt _, u32_lt _, u32_lt _⟩

theorem StLt_invShiftRows (st : AesState) : StLt (invShiftRows st) :=
  ⟨u32_lt _, u32_lt _, u32_lt _, u32_lt _⟩

theorem mixColumnsWord_lt (s : Nat) : mixColumnsWord s < 4294967296 := by
  rw [mixColumnsWord_eq]
  exact u32_lt _

theorem StLt_mixColumns (st : AesState) : StLt (mixColumns st) :=
  ⟨mixColumnsWord_lt _, mixColumnsWord_lt _, mixColumnsWord_lt _, mixColumnsWord_lt _⟩

theorem invMixColumnsWord_lt (s : Nat) : invMixColumnsWord s < 4294967296 := by
  rw [invMixColumnsWord_eq]
  exact u32_lt _

theorem StLt_invMixColumns (st : AesState) : StLt (invMixColumns st) :=
  ⟨invMixColumnsWord_lt _, invMixColumnsWord_lt _, invMixColumnsWord_lt _, invMixColumnsWord_lt _⟩

theorem StLt_addRoundKey (w : List Nat) (r : Nat) (st : AesState) :
    StLt (addRoundKey w r st) := ⟨u32_lt _, u32_lt _, u32_lt _, u32_lt _⟩

theorem StLt_bytesToState (l : List Nat) : StLt (bytesToState l) :=
  ⟨u32_lt _, u32_lt _, u32_lt _, u32_lt _⟩

theorem StLt_encRounds (w : List Nat) : ∀ (fuel : Nat) (st : AesState) (r : Nat), StLt st →
    StLt (encRounds w st r fuel) := by
  intro fuel
  induction fuel with
  | zero => intro st r h; exact h
  | succ n ih => intro st r h; exact ih _ _ (StLt_addRoundKey _ _ _)

theorem encRounds_step (w : List Nat) (st : AesState) (r fuel : Nat) :
    encRounds w st r (fuel + 1)
      = encRounds w (addRoundKey w r (mixColumns (shiftRows (subBytes st)))) (r + 1) fuel := rfl

theorem encRounds_succ (w : List Nat) : ∀ (fuel : Nat) (st : AesState) (r : Nat),
    encRounds w st r (fuel + 1)
      = addRoundKey w (r + fuel) (mixColumns (shiftRows (subBytes (encRounds w st r fuel)))) := by
  intro fuel
  induction fuel with
  | zero => intro st r; simp [encRounds]
  | succ n ih =>
    intro st r
    rw [encRounds_step, ih]
    have e : r + 1 + n = r + (n + 1) := by omega
    rw [e, ← encRounds_step]

theorem decRounds_succ (w : List Nat) (st : AesState) (r fuel : Nat) :
    decRounds w st r (fuel + 1)
      = decRounds w (invMixColumns (addRoundKey w (r + fuel) (invSubBytes (invShiftRows st))))
          r fuel := rfl

theorem decRounds_encRounds (w : List Nat) (hw : WB w) : ∀ (fuel : Nat) (st : AesState) (r : Nat),
    StLt st →
    decRounds w (shiftRows (subBytes (encRounds w st r fuel))) r fuel
      = shiftRows (subBytes st) := by
  intro fuel
  induction fuel with
  | zero => intro st r _; rfl
  | succ n ih =>
    intro st r h
    rw [encRounds_succ, decRounds_succ, invShiftRows_shiftRows (StLt_subBytes _),
      invSubBytes_subBytes (StLt_addRoundKey _ _ _),
      addRoundKey_addRoundKey _ (StLt_mixColumns _) hw,
      invMixColumns_mixColumns (StLt_shiftRows _)]
    exact ih st r h

theorem bytesToState_stateToBytes {st : AesState} (h : StLt st) :
    bytesToState (stateToBytes st) = st := by
  obtain ⟨s0, s1, s2, s3⟩ := st
  obtain ⟨h0, h1, h2, h3⟩ := h
  simp only [stateToBytes, bytesToState, List.getD_cons_zero, List.getD_cons_succ]
  rw [u32_eq (pack4_lt (byte_lt _ _) (byte_lt _ _) (byte_lt _ _) (and255_lt _)),
    u32_eq (pack4_lt (byte_lt _ _) (byte_lt _ _) (byte_lt _ _) (and255_lt _)),
    u32_eq (pack4_lt (byte_lt _ _) (byte_lt _ _) (byte_lt _ _) (and255_lt _)),
    u32_eq (pack4_lt (byte_lt _ _) (byte_lt _ _) (byte_lt _ _) (and255_lt _)),
    pack4_unpack h0, pack4_unpack h1, pack4_unpack h2, pack4_unpack h3]

theorem stateToBytes_bytesToState_list {l : List Nat} (hlen : l.length = 16)
    (hb : ∀ x ∈ l, x < 256) : stateToBytes (bytesToState l) = l := by
  rcases l with _ | ⟨a0, l⟩
  · simp at hlen
  rcases l with _ | ⟨a1, l⟩
  · simp at hlen
  rcases l with _ | ⟨a2, l⟩
  · simp at hlen
  rcases l with _ | ⟨a3, l⟩
  · simp at hlen
  rcases l with _ | ⟨a4, l⟩
  · simp at hlen
  rcases l with _ | ⟨a5, l⟩
  · simp at hlen
  rcases l with _ | ⟨a6, l⟩
  · simp at hlen
  rcases l with _ | ⟨a7, l⟩
  · simp at hlen
  rcases l with _ | ⟨a8, l⟩
  · simp at hlen
  rcases l with _ | ⟨a9, l⟩
  · simp at hlen
  rcases l with _ | ⟨a10, l⟩
  · simp at hlen
  rcases l with _ | ⟨a11, l⟩
  · simp at hlen
  rcases l with _ | ⟨a12, l⟩
  · simp at hlen
  rcases l with _ | ⟨a13, l⟩
  · simp at hlen
  rcases l with _ | ⟨a14, l⟩
  · simp at hlen
  rcases l with _ | ⟨a15, l⟩
  · simp at hlen
  rcases l with _ | ⟨a16, l⟩
  swap
  · simp at hlen
  have h0 : a0 < 256 := hb a0 (by simp)
  have h1 : a1 < 256 := hb a1 (by simp)
  have h2 : a2 < 256 := hb a2 (by simp)
  have h3 : a3 < 256 := hb a3 (by simp)
  have h4 : a4 < 256 := hb a4 (by simp)
  have h5 : a5 < 256 := hb a5 (by simp)
  have h6 : a6 < 256 := hb a6 (by simp)
  have h7 : a7 < 256 := hb a7 (by simp)
  have h8 : a8 < 256 := hb a8 (by simp)
  have h9 : a9 < 256 := hb a9 (by simp)
  have h10 : a10 < 256 := hb a10 (by simp)
  have h11 : a11 < 256 := hb a11 (by simp)
  have h12 : a12 < 256 := hb a12 (by simp)
  have h13 : a13 < 256 := hb a13 (by simp)
  have h14 : a14 < 256 := hb a14 (by simp)
  have h15 : a15 < 256 := hb a15 (by simp)
  simp only [bytesToState, List.getD_cons_zero, List.getD_cons_succ]
  simp only [stateToBytes]
  rw [u32_eq (pack4_lt h0 h1 h2 h3), u32_eq (pack4_lt h4 h5 h6 h7),
    u32_eq (pack4_lt h8 h9 h10 h11), u32_eq (pack4_lt h12 h13 h14 h15)]
  rw [pack4_byte0 h0 h1 h2 h3, pack4_byte1 h0 h1 h2 h3, pack4_byte2 h0 h1 h2 h3,
    pack4_byte3 h0 h1 h2 h3]
  rw [pack4_byte0 h4 h5 h6 h7, pack4_byte1 h4 h5 h6 h7, pack4_byte2 h4 h5 h6 h7,
    pack4_byte3 h4 h5 h6 h7]
  rw [pack4_byte0 h8 h9 h10 h11, pack4_byte1 h8 h9 h10 h11, pack4_byte2 h8 h9 h10 h11,
    pack4_byte3 h8 h9 h10 h11]
  rw [pack4_byte0 h12 h13 h14 h15, pack4_byte1 h12 h13 h14 h15, pack4_byte2 h12 h13 h14 h15,
    pack4_byte3 h12 h13 h14 h15]

theorem getD_lt_of_forall {l : List Nat} {c : Nat} (hc : 0 < c) (hl : ∀ x ∈ l, x < c)
    (i : Nat) : l.getD i 0 < c := by
  rw [List.getD_eq_getElem?_getD]
  cases h : l[i]? with
  | none => simpa using hc
  | some a => simpa using hl a (List.getElem?_mem h)

theorem keyExpansionGo_mem (nk : Nat) : ∀ (fuel : Nat) (w : List Nat) (i : Nat),
    (∀ x ∈ w, x < 4294967296) → ∀ x ∈ keyExpansionGo nk w i fuel, x < 4294967296 := by
  intro fuel
  induction fuel with
  | zero => intro w i h; exact h
  | succ n ih =>
    intro w i h
    refine ih _ _ ?_
    intro x hx
    rcases List.mem_append.mp hx with hx | hx
    · exact h x hx
    · simp at hx
      rw [hx]
      exact u32_lt _

theorem keyExpansion_WB (key : List Nat) : WB (keyExpansion key) := by
  intro i
  refine getD_lt_of_forall (by norm_num) ?_ i
  unfold keyExpansion
  refine keyExpansionGo_mem _ _ _ _ ?_
  intro x hx
  obtain ⟨j, _, rfl⟩ := List.mem_map.mp hx
  exact u32_lt _

theorem aesBlockEncrypt_eq (input w : List Nat) :
    aesBlockEncrypt input w
      = stateToBytes (addRoundKey w (w.length / 4 - 1) (shiftRows (subBytes
          (encRounds w (addRoundKey w 0 (bytesToState input)) 1 (w.length / 4 - 1 - 1))))) := rfl

theorem aesBlockDecrypt_eq (input w : List Nat) :
    aesBlockDecrypt input w
      = stateToBytes (addRoundKey w 0 (invSubBytes (invShiftRows
          (decRounds w (addRoundKey w (w.length / 4 - 1) (bytesToState input)) 1
            (w.length / 4 - 1 - 1))))) := rfl

theorem aesBlockDecrypt_aesBlockEncrypt {input w : List Nat} (hw : WB w)
    (hlen : input.length = 16) (hin : ∀ x ∈ input, x < 256) :
    aesBlockDecrypt (aesBlockEncrypt input w) w = input := by
  rw [aesBlockEncrypt_eq, aesBlockDecrypt_eq,
    bytesToState_stateToBytes (StLt_addRoundKey _ _ _),
    addRoundKey_addRoundKey _ (StLt_shiftRows _) hw,
    decRounds_encRounds w hw _ _ _ (StLt_addRoundKey _ _ _),
    invShiftRows_shiftRows (StLt_subBytes _),
    invSubBytes_subBytes (StLt_addRoundKey _ _ _),
    addRoundKey_addRoundKey _ (StLt_bytesToState _) hw]
  exact stateToBytes_bytesToState_list hlen hin

/-! ## Codec utilities

`bytesToBase64` / `base64ToBytes` embed the helpers of rc4.ts (the aes.ts
encoder uses the platform `btoa`, which realizes the same standard Base64).
JS strings are modelled as lists of Unicode scalar values; `stringToUtf8Bytes`
and `utf8BytesToString` model the platform `TextEncoder` / `TextDecoder` used
by the sources (standard UTF-8; the decoder's recovery on invalid input is
simplified to emitting U+FFFD, which no theorem below exercises). -/

/-- Char codes of the standard Base64 alphabet string `chars` of rc4.ts. -/
def b64Chars : List Nat :=
  "ABCDEFGHIJKLMNOPQRSTUVWXYZabcdefghijklmnopqrstuvwxyz0123456789+/".data.map Char.toNat

/-- The `lookup` table of `base64ToBytes`: index of a char code in the
alphabet, 0 for codes never written (Uint8Array default). -/
def b64Lookup (c : Nat) : Nat := if c ∈ b64Chars then b64Chars.indexOf c else 0

/-- `bytesToBase64` of rc4.ts: 3 bytes → 4 chars, `=`-padded (char code 61). -/
def bytesToBase64 : List Nat → List Nat
  | [] => []
  | [b1] =>
    [b64Chars.getD (b1 >>> 2) 0, b64Chars.getD (((b1 &&& 3) <<< 4) ||| (0 >>> 4)) 0, 61, 61]
  | [b1, b2] =>
    [b64Chars.getD (b1 >>> 2) 0, b64Chars.getD (((b1 &&& 3) <<< 4) ||| (b2 >>> 4)) 0,
     b64Chars.getD (((b2 &&& 15) <<< 2) ||| (0 >>> 6)) 0, 61]
  | b1 :: b2 :: b3 :: rest =>
    b64Chars.getD (b1 >>> 2) 0 :: b64Chars.getD (((b1 &&& 3) <<< 4) ||| (b2 >>> 4)) 0 ::
    b64Chars.getD (((b2 &&& 15) <<< 2) ||| (b3 >>> 6)) 0 :: b64Chars.getD (b3 &&& 63) 0 ::
    bytesToBase64 rest

/-- The `replace(/[=]+$/, '')` step of `base64ToBytes`: strip trailing `=`. -/
def stripEq (l : List Nat) : List Nat := (l.reverse.dropWhile (· == 61)).reverse

/-- Decode loop of `base64ToBytes` of rc4.ts, 4 chars → 3 bytes; the trailing
1-char case writes past the `floor(0.75 * len)`-byte buffer, so nothing is kept. -/
def base64ToBytesGo : List Nat → List Nat
  | [] => []
  | [_] => []
  | [c1, c2] => [(b64Lookup c1 <<< 2) ||| (b64Lookup c2 >>> 4)]
  | [c1, c2, c3] =>
    [(b64Lookup c1 <<< 2) ||| (b64Lookup c2 >>> 4),
     ((b64Lookup c2 &&& 15) <<< 4) ||| (b64Lookup c3 >>> 2)]
  | c1 :: c2 :: c3 :: c4 :: rest =>
    ((b64Lookup c1 <<< 2) ||| (b64Lookup c2 >>> 4)) ::
    (((b64Lookup c2 &&& 15) <<< 4) ||| (b64Lookup c3 >>> 2)) ::
    (((b64Lookup c3 &&& 3) <<< 6) ||| (b64Lookup c4 &&& 63)) :: base64ToBytesGo rest

/-- `base64ToBytes` of rc4.ts. -/
def base64ToBytes (l : List Nat) : List Nat := base64ToBytesGo (stripEq l)

/-- A Unicode scalar value (what each position of a well-formed JS string
holds after surrogate-pair combination). -/
def isScalar (c : Nat) : Prop := c < 1114112 ∧ ¬(55296 ≤ c ∧ c < 57344)

/-- A well-formed Unicode text: every element a scalar value. -/
def WfText (m : List Nat) : Prop := ∀ c ∈ m, isScalar c

/-- Modelled from the spec: the platform `TextEncoder` used by
`stringToUtf8Bytes` (standard UTF-8 for one scalar value). -/
def utf8EncodeChar (c : Nat) : List Nat :=
  if c < 128 then [c]
  else if c < 2048 then [192 + c / 64, 128 + c % 64]
  else if c < 65536 then [224 + c / 4096, 128 + c / 64 % 64, 128 + c % 64]
  else [240 + c / 262144, 128 + c / 4096 % 64, 128 + c / 64 % 64, 128 + c % 64]

/-- `stringToUtf8Bytes` (TextEncoder.encode): UTF-8 bytes of the text. -/
def stringToUtf8Bytes : List Nat → List Nat
  | [] => []
  | c :: rest => utf8EncodeChar c ++ stringToUtf8Bytes rest

/-- Modelled from the spec: the platform `TextDecoder` used by
`utf8BytesToString` (standard UTF-8 decoding; on invalid input it emits
U+FFFD = 65533 and resynchronizes one byte later). -/
def utf8BytesToString : List Nat → List Nat
  | [] => []
  | b0 :: rest =>
    if b0 < 128 then b0 :: utf8BytesToString rest
    else if 194 ≤ b0 ∧ b0 < 224 then
      if 1 ≤ rest.length then
        if 128 ≤ rest.headD 0 ∧ rest.headD 0 < 192 then
          ((b0 - 192) * 64 + (rest.headD 0 - 128)) :: utf8BytesToString rest.tail
        else 65533 :: utf8BytesToString rest
      else [65533]
    else if 224 ≤ b0 ∧ b0 < 240 then
      if 2 ≤ rest.length then
        if (128 ≤ rest.headD 0 ∧ rest.headD 0 < 192) ∧
            (128 ≤ rest.tail.headD 0 ∧ rest.tail.headD 0 < 192) then
          ((b0 - 224) * 4096 + (rest.headD 0 - 128) * 64 + (rest.tail.headD 0 - 128)) ::
            utf8BytesToString rest.tail.tail
        else 65533 :: utf8BytesToString rest
      else 65533 :: utf8BytesToString rest
    else if 240 ≤ b0 ∧ b0 < 245 then
      if 3 ≤ rest.length then
        if (128 ≤ rest.headD 0 ∧ rest.headD 0 < 192) ∧
            (128 ≤ rest.tail.headD 0 ∧ rest.tail.headD 0 < 192) ∧
            (128 ≤ rest.tail.tail.headD 0 ∧ rest.tail.tail.headD 0 < 192) then
          ((b0 - 240) * 262144 + (rest.headD 0 - 128) * 4096 +
            (rest.tail.headD 0 - 128) * 64 + (rest.tail.tail.headD 0 - 128)) ::
            utf8BytesToString rest.tail.tail.tail
        else 65533 :: utf8BytesToString rest
      else 65533 :: utf8BytesToString rest
    else 65533 :: utf8BytesToString rest
  termination_by l => l.length
  decreasing_by all_goals (simp only [List.length_tail, List.length_cons]; omega)

/-! ## AES padding and modes of operation (aes.ts) -/

/-- `pkcs7Pad` of aes.ts. -/
def pkcs7Pad (data : List Nat) : List Nat :=
  let padLen := 16 - data.length % 16
  data ++ List.replicate padLen padLen

/-- `pkcs7Unpad` of aes.ts: empty data is returned unchanged; otherwise the
final byte is the padding length, validated strictly. -/
def pkcs7Unpad (data : List Nat) : Except String (List Nat) :=
  if data.length = 0 then Except.ok data
  else
    let padLen := data.getD (data.length - 1) 0
    if padLen = 0 ∨ padLen > 16 then Except.error "Invalid PKCS#7 padding."
    else if (List.range padLen).all (fun i => data.getD (data.length - 1 - i) 0 == padLen) then
      Except.ok (data.take (data.length - padLen))
    else Except.error "Invalid PKCS#7 padding bytes."

/-- `xorBlocks` of aes.ts: 16 bytes, `out[i] = a[i] ^ b[i]`. -/
def xorBlocks (a b : List Nat) : List Nat :=
  (List.range 16).map fun i => u8 (a.getD i 0 ^^^ b.getD i 0)

/-- Loop of `modeCBCEncrypt` of aes.ts. -/
def modeCBCEncryptGo (w : List Nat) : List Nat → List Nat → List Nat
  | _, [] => []
  | prev, d :: ds =>
    let block := (d :: ds).take 16
    let inputBlock := xorBlocks block prev
    let encryptedBlock := aesBlockEncrypt inputBlock w
    encryptedBlock ++ modeCBCEncryptGo w encryptedBlock ((d :: ds).drop 16)
  termination_by _ data => data.length
  decreasing_by simp; omega

/-- `modeCBCEncrypt` of aes.ts. -/
def modeCBCEncrypt (plaintext key iv : List Nat) : List Nat :=
  modeCBCEncryptGo (keyExpansion key) iv (pkcs7Pad plaintext)

/-- Loop of `modeCBCDecrypt` of aes.ts. -/
def modeCBCDecryptGo (w : List Nat) : List Nat → List Nat → List Nat
  | _, [] => []
  | prev, d :: ds =>
    let block := (d :: ds).take 16
    let decryptedBlock := aesBlockDecrypt block w
    let plainBlock := xorBlocks decryptedBlock prev
    plainBlock ++ modeCBCDecryptGo w block ((d :: ds).drop 16)
  termination_by _ data => data.length
  decreasing_by simp; omega

/-- `modeCBCDecrypt` of aes.ts: length check, block decryption, strict unpad. -/
def modeCBCDecrypt (ciphertext key iv : List Nat) : Except String (List Nat) :=
  if ciphertext.length % 16 ≠ 0 then Except.error "Invalid ciphertext length for CBC."
  else pkcs7Unpad (modeCBCDecryptGo (keyExpansion key) iv ciphertext)

/-- Counter increment of `modeCTREncrypt`: `counter[k]++` from byte 15
toward byte 0, stopping when a byte does not wrap to 0 (list reversed). -/
def incCounterRev : List Nat → List Nat
  | [] => []
  | b :: rest =>
    let b' := u8 (b + 1)
    if b' ≠ 0 then b' :: rest else b' :: incCounterRev rest

/-- Big-endian counter increment of `modeCTREncrypt` of aes.ts. -/
def incCounter (counter : List Nat) : List Nat := (incCounterRev counter.reverse).reverse

/-- Loop of `modeCTREncrypt` of aes.ts. -/
def modeCTREncryptGo (w : List Nat) : List Nat → List Nat → List Nat
  | _, [] => []
  | counter, d :: ds =>
    let keyStream := aesBlockEncrypt counter w
    List.zipWith (fun x k => u8 (x ^^^ k)) ((d :: ds).take 16) keyStream
      ++ modeCTREncryptGo w (incCounter counter) ((d :: ds).drop 16)
  termination_by _ data => data.length
  decreasing_by simp; omega

/-- `modeCTREncrypt` of aes.ts (also serves as CTR decryption). -/
def modeCTREncrypt (data key iv : List Nat) : List Nat :=
  modeCTREncryptGo (keyExpansion key) iv data

/-- Loop of `modeOFBEncrypt` of aes.ts. -/
def modeOFBEncryptGo (w : List Nat) : List Nat → List Nat → List Nat
  | _, [] => []
  | feedback, d :: ds =>
    let keyStream := aesBlockEncrypt feedback w
    List.zipWith (fun x k => u8 (x ^^^ k)) ((d :: ds).take 16) keyStream
      ++ modeOFBEncryptGo w keyStream ((d :: ds).drop 16)
  termination_by _ data => data.length
  decreasing_by simp; omega

/-- `modeOFBEncrypt` of aes.ts (also serves as OFB decryption). -/
def modeOFBEncrypt (data key iv : List Nat) : List Nat :=
  modeOFBEncryptGo (keyExpansion key) iv data

/-- The three supported mode names of aes.ts. -/
inductive AesMode where
  | CBC : AesMode
  | CTR : AesMode
  | OFB : AesMode
deriving DecidableEq

/-- `validateKeyAndIV` of aes.ts. -/
def validateKeyAndIV (key iv : List Nat) : Except String Unit :=
  if ¬(key.length = 16 ∨ key.length = 24 ∨ key.length = 32) then
    Except.error "Invalid key length. Must be 16, 24, or 32."
  else if iv.length ≠ 16 then Except.error "Invalid IV length. Must be 16."
  else Except.ok ()

/-- `aesEncrypt` of aes.ts, for the three supported modes; the plaintext, key
and IV are JS strings (scalar-value lists). -/
def aesEncrypt (plaintext key iv : List Nat) (mode : AesMode) : Except String (List Nat) :=
  let keyBytes := stringToUtf8Bytes key
  let ivBytes := stringToUtf8Bytes iv
  let plainBytes := stringToUtf8Bytes plaintext
  match validateKeyAndIV keyBytes ivBytes with
  | Except.error e => Except.error e
  | Except.ok _ =>
    let encryptedBytes :=
      match mode with
      | AesMode.CBC => modeCBCEncrypt plainBytes keyBytes ivBytes
      | AesMode.CTR => modeCTREncrypt plainBytes keyBytes ivBytes
      | AesMode.OFB => modeOFBEncrypt plainBytes keyBytes ivBytes
    Except.ok (bytesToBase64 encryptedBytes)

/-- `aesDecrypt` of aes.ts, for the three supported modes; the ciphertext is
the Base64 character sequence returned by `aesEncrypt`. -/
def aesDecrypt (ciphertext key iv : List Nat) (mode : AesMode) : Except String (List Nat) :=
  let keyBytes := stringToUtf8Bytes key
  let ivBytes := stringToUtf8Bytes iv
  let cipherBytes := base64ToBytes ciphertext
  match validateKeyAndIV keyBytes ivBytes with
  | Except.error e => Except.error e
  | Except.ok _ =>
    let r :=
      match mode with
      | AesMode.CBC => modeCBCDecrypt cipherBytes keyBytes ivBytes
      | AesMode.CTR => Except.ok (modeCTREncrypt cipherBytes keyBytes ivBytes)
      | AesMode.OFB => Except.ok (modeOFBEncrypt cipherBytes keyBytes ivBytes)
    match r with
    | Except.error e => Except.error e
    | Except.ok decryptedBytes => Except.ok (utf8BytesToString decryptedBytes)

/-! ## Base64 round-trip -/

set_option maxRecDepth 2048 in
theorem b64_lookup_enc : ∀ e : Fin 64, b64Lookup (b64Chars.getD e.val 0) = e.val := by decide

set_option maxRecDepth 2048 in
theorem b64_enc_ne_eq : ∀ e : Fin 64, (b64Chars.getD e.val 0 == 61) = false := by decide

theorem b64_lookup_enc' {e : Nat} (h : e < 64) : b64Lookup (b64Chars.getD e 0) = e :=
  b64_lookup_enc ⟨e, h⟩

theorem b64_enc_ne_eq' {e : Nat} (h : e < 64) : (b64Chars.getD e 0 == 61) = false :=
  b64_enc_ne_eq ⟨e, h⟩

set_option maxRecDepth 2048 in
theorem b64_enc_ne_eq2 : ∀ e : Fin 64, (b64Chars[e.val]?.getD 0 == 61) = false := by decide

theorem b64_enc_ne_eq2' {e : Nat} (h : e < 64) : (b64Chars[e]?.getD 0 == 61) = false :=
  b64_enc_ne_eq2 ⟨e, h⟩

theorem shl_shr_cancel (x k : Nat) : (x <<< k) >>> k = x := by
  rw [Nat.shiftLeft_eq, Nat.shiftRight_eq_div_pow]
  exact Nat.mul_div_cancel x (Nat.two_pow_pos k)

theorem shl_or_shr {y : Nat} (x k : Nat) (hy : y < 2 ^ k) : ((x <<< k) ||| y) >>> k = x := by
  rw [Nat.shiftLeft_eq, Nat.shiftRight_eq_div_pow, Nat.mul_comm x, ← Nat.mul_add_lt_is_or hy x,
    Nat.mul_add_div (Nat.two_pow_pos k), Nat.div_eq_of_lt hy, Nat.add_zero]

theorem shl_or_and {y : Nat} (x k : Nat) (hy : y < 2 ^ k) :
    ((x <<< k) ||| y) &&& (2 ^ k - 1) = y := by
  rw [Nat.shiftLeft_eq, Nat.mul_comm x, ← Nat.mul_add_lt_is_or hy x,
    Nat.and_pow_two_sub_one_eq_mod, Nat.mul_add_mod, Nat.mod_eq_of_lt hy]

theorem or_split (x k : Nat) : ((x >>> k) <<< k) ||| (x &&& (2 ^ k - 1)) = x := by
  rw [Nat.shiftLeft_eq, Nat.shiftRight_eq_div_pow, Nat.and_pow_two_sub_one_eq_mod,
    Nat.mul_comm, ← Nat.mul_add_lt_is_or (Nat.mod_lt _ (Nat.two_pow_pos k)) _,
    Nat.div_add_mod]

theorem and_lt_pow (x k : Nat) : x &&& (2 ^ k - 1) < 2 ^ k := by
  rw [Nat.and_pow_two_sub_one_eq_mod]
  exact Nat.mod_lt _ (Nat.two_pow_pos k)

theorem dropWhile_eq_self_of_neg {p : Nat → Bool} {l : List Nat}
    (h : ∀ a ∈ l, p a = false) : l.dropWhile p = l := by
  cases l with
  | nil => rfl
  | cons a t =>
    rw [List.dropWhile_cons]
    simp [h a (by simp)]

theorem stripEq_append {xs ys : List Nat} (hx : ∀ x ∈ xs, (x == 61) = false) :
    stripEq (xs ++ ys) = xs ++ stripEq ys := by
  unfold stripEq
  rw [List.reverse_append, List.dropWhile_append]
  split
  · next he =>
    have h1 : List.dropWhile (· == 61) ys.reverse = [] := by
      simpa [List.isEmpty_iff] using he
    rw [dropWhile_eq_self_of_neg (by intro a ha; exact hx a (by simpa using ha)), h1]
    simp
  · rw [List.reverse_append]
    simp

theorem shr2_lt {x : Nat} (h : x < 256) : x >>> 2 < 64 := by
  rw [Nat.shiftRight_eq_div_pow]
  have e : (2 : Nat) ^ 2 = 4 := by norm_num
  rw [e]
  omega

theorem shr4_lt {x : Nat} (h : x < 256) : x >>> 4 < 16 := by
  rw [Nat.shiftRight_eq_div_pow]
  have e : (2 : Nat) ^ 4 = 16 := by norm_num
  rw [e]
  omega

theorem shr6_lt {x : Nat} (h : x < 256) : x >>> 6 < 4 := by
  rw [Nat.shiftRight_eq_div_pow]
  have e : (2 : Nat) ^ 6 = 64 := by norm_num
  rw [e]
  omega

theorem and3_lt (x : Nat) : x &&& 3 < 4 := by
  have e : (3 : Nat) = 2 ^ 2 - 1 := by norm_num
  rw [e]
  exact and_lt_pow x 2

theorem and15_lt (x : Nat) : x &&& 15 < 16 := by
  have e : (15 : Nat) = 2 ^ 4 - 1 := by norm_num
  rw [e]
  exact and_lt_pow x 4

theorem and63_lt (x : Nat) : x &&& 63 < 64 := by
  have e : (63 : Nat) = 2 ^ 6 - 1 := by norm_num
  rw [e]
  exact and_lt_pow x 6

theorem e2_lt {b1 b2 : Nat} (h2 : b2 < 256) : ((b1 &&& 3) <<< 4) ||| (b2 >>> 4) < 64 := by
  have e : (64 : Nat) = 2 ^ 6 := by norm_num
  rw [e]
  refine Nat.or_lt_two_pow ?_ ?_
  · rw [Nat.shiftLeft_eq]
    have := and3_lt b1
    have e4 : (2 : Nat) ^ 4 = 16 := by norm_num
    have e6 : (2 : Nat) ^ 6 = 64 := by norm_num
    rw [e4, e6]
    omega
  · have := shr4_lt h2
    omega

theorem e3_lt {b2 b3 : Nat} (h3 : b3 < 256) : ((b2 &&& 15) <<< 2) ||| (b3 >>> 6) < 64 := by
  have e : (64 : Nat) = 2 ^ 6 := by norm_num
  rw [e]
  refine Nat.or_lt_two_pow ?_ ?_
  · rw [Nat.shiftLeft_eq]
    have := and15_lt b2
    have e2 : (2 : Nat) ^ 2 = 4 := by norm_num
    have e6 : (2 : Nat) ^ 6 = 64 := by norm_num
    rw [e2, e6]
    omega
  · have := shr6_lt h3
    omega

theorem b64_byte1 {b1 b2 : Nat} (h2 : b2 < 256) :
    ((b1 >>> 2) <<< 2) ||| ((((b1 &&& 3) <<< 4) ||| (b2 >>> 4)) >>> 4) = b1 := by
  rw [shl_or_shr _ 4 (by simpa using shr4_lt h2)]
  have e : (3 : Nat) = 2 ^ 2 - 1 := by norm_num
  rw [e, or_split]

theorem b64_byte2 {b1 b2 b3 : Nat} (h2 : b2 < 256) (h3 : b3 < 256) :
    (((((b1 &&& 3) <<< 4) ||| (b2 >>> 4)) &&& 15) <<< 4)
      ||| ((((b2 &&& 15) <<< 2) ||| (b3 >>> 6)) >>> 2) = b2 := by
  have e15 : (15 : Nat) = 2 ^ 4 - 1 := by norm_num
  rw [show ((((b1 &&& 3) <<< 4) ||| (b2 >>> 4)) &&& 15)
      = ((((b1 &&& 3) <<< 4) ||| (b2 >>> 4)) &&& (2 ^ 4 - 1)) from by rw [← e15],
    shl_or_and _ 4 (by simpa using shr4_lt h2),
    shl_or_shr _ 2 (by simpa using shr6_lt h3), e15, or_split]

theorem b64_byte3 {b2 b3 : Nat} (h3 : b3 < 256) :
    (((((b2 &&& 15) <<< 2) ||| (b3 >>> 6)) &&& 3) <<< 6) ||| ((b3 &&& 63) &&& 63) = b3 := by
  have e3 : (3 : Nat) = 2 ^ 2 - 1 := by norm_num
  have e63 : (63 : Nat) = 2 ^ 6 - 1 := by norm_num
  rw [show ((((b2 &&& 15) <<< 2) ||| (b3 >>> 6)) &&& 3)
      = ((((b2 &&& 15) <<< 2) ||| (b3 >>> 6)) &&& (2 ^ 2 - 1)) from by rw [← e3],
    shl_or_and _ 2 (by simpa using shr6_lt h3), Nat.and_assoc]
  have : (63 : Nat) &&& 63 = 63 := rfl
  rw [this, e63, or_split]

theorem base64_roundtrip_go : ∀ (n : Nat) (l : List Nat), l.length ≤ n → (∀ x ∈ l, x < 256) →
    base64ToBytes (bytesToBase64 l) = l := by
  intro n
  induction n with
  | zero =>
    intro l hl _
    rcases l with _ | ⟨b, l⟩
    · rfl
    · simp at hl
  | succ n ih =>
    intro l hl hb
    rcases l with _ | ⟨b1, _ | ⟨b2, _ | ⟨b3, rest⟩⟩⟩
    · rfl
    · have hb1 : b1 < 256 := hb b1 (by simp)
      have he1 : b1 >>> 2 < 64 := shr2_lt hb1
      have he2 : (b1 &&& 3) <<< 4 < 64 := by
        have h0 : ((b1 &&& 3) <<< 4) ||| (0 >>> 4) < 64 := e2_lt (by norm_num)
        simpa using h0
      unfold base64ToBytes
      simp only [bytesToBase64, Nat.zero_shiftRight, Nat.or_zero]
      have hs : stripEq [b64Chars.getD (b1 >>> 2) 0, b64Chars.getD ((b1 &&& 3) <<< 4) 0, 61, 61]
          = [b64Chars.getD (b1 >>> 2) 0, b64Chars.getD ((b1 &&& 3) <<< 4) 0] := by
        unfold stripEq
        simp [List.dropWhile, b64_enc_ne_eq' he2, b64_enc_ne_eq2' he2]
      rw [hs]
      simp only [base64ToBytesGo, b64_lookup_enc' he1, b64_lookup_enc' he2]
      rw [shl_shr_cancel]
      have e : (3 : Nat) = 2 ^ 2 - 1 := by norm_num
      rw [e, or_split]
    · have hb1 : b1 < 256 := hb b1 (by simp)
      have hb2 : b2 < 256 := hb b2 (by simp)
      have he1 : b1 >>> 2 < 64 := shr2_lt hb1
      have he2 : ((b1 &&& 3) <<< 4) ||| (b2 >>> 4) < 64 := e2_lt hb2
      have he3 : (b2 &&& 15) <<< 2 < 64 := by
        have h0 : ((b2 &&& 15) <<< 2) ||| (0 >>> 6) < 64 := e3_lt (by norm_num)
        simpa using h0
      unfold base64ToBytes
      simp only [bytesToBase64, Nat.zero_shiftRight, Nat.or_zero]
      have hs : stripEq [b64Chars.getD (b1 >>> 2) 0,
            b64Chars.getD (((b1 &&& 3) <<< 4) ||| (b2 >>> 4)) 0,
            b64Chars.getD ((b2 &&& 15) <<< 2) 0, 61]
          = [b64Chars.getD (b1 >>> 2) 0, b64Chars.getD (((b1 &&& 3) <<< 4) ||| (b2 >>> 4)) 0,
             b64Chars.getD ((b2 &&& 15) <<< 2) 0] := by
        unfold stripEq
        simp [List.dropWhile, b64_enc_ne_eq' he3, b64_enc_ne_eq2' he3]
      rw [hs]
      simp only [base64ToBytesGo, b64_lookup_enc' he1, b64_lookup_enc' he2, b64_lookup_enc' he3]
      rw [b64_byte1 hb2]
      have e15 : (15 : Nat) = 2 ^ 4 - 1 := by norm_num
      rw [shl_shr_cancel,
        show ((((b1 &&& 3) <<< 4) ||| (b2 >>> 4)) &&& 15)
          = ((((b1 &&& 3) <<< 4) ||| (b2 >>> 4)) &&& (2 ^ 4 - 1)) from by rw [← e15],
        shl_or_and _ 4 (by simpa using shr4_lt hb2), e15, or_split]
    · have hb1 : b1 < 256 := hb b1 (by simp)
      have hb2 : b2 < 256 := hb b2 (by simp)
      have hb3 : b3 < 256 := hb b3 (by simp)
      have he1 : b1 >>> 2 < 64 := shr2_lt hb1
      have he2 : ((b1 &&& 3) <<< 4) ||| (b2 >>> 4) < 64 := e2_lt hb2
      have he3 : ((b2 &&& 15) <<< 2) ||| (b3 >>> 6) < 64 := e3_lt hb3
      have he4 : b3 &&& 63 < 64 := and63_lt b3
      unfold base64ToBytes
      simp only [bytesToBase64]
      have ha : b64Chars.getD (b1 >>> 2) 0 :: b64Chars.getD (((b1 &&& 3) <<< 4) ||| (b2 >>> 4)) 0
            :: b64Chars.getD (((b2 &&& 15) <<< 2) ||| (b3 >>> 6)) 0
            :: b64Chars.getD (b3 &&& 63) 0 :: bytesToBase64 rest
          = [b64Chars.getD (b1 >>> 2) 0, b64Chars.getD (((b1 &&& 3) <<< 4) ||| (b2 >>> 4)) 0,
             b64Chars.getD (((b2 &&& 15) <<< 2) ||| (b3 >>> 6)) 0,
             b64Chars.getD (b3 &&& 63) 0] ++ bytesToBase64 rest := rfl
      rw [ha, stripEq_append ?hchars]
      case hchars =>
        intro x hx
        simp only [List.mem_cons, List.not_mem_nil, or_false] at hx
        rcases hx with rfl | rfl | rfl | rfl
        · exact b64_enc_ne_eq' he1
        · exact b64_enc_ne_eq' he2
        · exact b64_enc_ne_eq' he3
        · exact b64_enc_ne_eq' he4
      simp only [List.cons_append, List.nil_append, base64ToBytesGo, b64_lookup_enc' he1,
        b64_lookup_enc' he2, b64_lookup_enc' he3, b64_lookup_enc' he4]
      rw [b64_byte1 hb2, b64_byte2 hb2 hb3, b64_byte3 hb3]
      have hr : base64ToBytes (bytesToBase64 rest) = rest := by
        refine ih rest ?_ ?_
        · simp at hl
          omega
        · intro x hx
          exact hb x (by simp [hx])
      unfold base64ToBytes at hr
      simpa using hr

theorem base64_roundtrip {l : List Nat} (hb : ∀ x ∈ l, x < 256) :
    base64ToBytes (bytesToBase64 l) = l :=
  base64_roundtrip_go l.length l (Nat.le_refl _) hb

/-! ## UTF-8 round-trip -/

theorem utf8EncodeChar_lt {c : Nat} (h : c < 1114112) : ∀ b ∈ utf8EncodeChar c, b < 256 := by
  unfold utf8EncodeChar
  by_cases h1 : c < 128
  · simp only [if_pos h1]
    intro b hb
    simp only [List.mem_singleton] at hb
    omega
  · by_cases h2 : c < 2048
    · simp only [if_neg h1, if_pos h2]
      intro b hb
      simp only [List.mem_cons, List.not_mem_nil, or_false] at hb
      rcases hb with rfl | rfl <;> omega
    · by_cases h3 : c < 65536
      · simp only [if_neg h1, if_neg h2, if_pos h3]
        intro b hb
        simp only [List.mem_cons, List.not_mem_nil, or_false] at hb
        rcases hb with rfl | rfl | rfl <;> omega
      · simp only [if_neg h1, if_neg h2, if_neg h3]
        intro b hb
        simp only [List.mem_cons, List.not_mem_nil, or_false] at hb
        rcases hb with rfl | rfl | rfl | rfl <;> omega

theorem stringToUtf8Bytes_lt {m : List Nat} (h : WfText m) :
    ∀ b ∈ stringToUtf8Bytes m, b < 256 := by
  induction m with
  | nil => intro b hb; simp [stringToUtf8Bytes] at hb
  | cons c rest ih =>
    intro b hb
    unfold stringToUtf8Bytes at hb
    rcases List.mem_append.mp hb with hb | hb
    · exact utf8EncodeChar_lt (h c (by simp)).1 b hb
    · exact ih (fun x hx => h x (by simp [hx])) b hb

set_option maxRecDepth 8192 in
theorem utf8_roundtrip_char {c : Nat} (h : isScalar c) (rest : List Nat) :
    utf8BytesToString (utf8EncodeChar c ++ rest) = c :: utf8BytesToString rest := by
  obtain ⟨hlt, hsur⟩ := h
  unfold utf8EncodeChar
  by_cases h1 : c < 128
  · rw [if_pos h1]
    simp only [List.cons_append, List.nil_append]
    rw [utf8BytesToString.eq_def]
    simp only [if_pos h1]
  · by_cases h2 : c < 2048
    · rw [if_neg h1, if_pos h2]
      simp only [List.cons_append, List.nil_append]
      rw [utf8BytesToString.eq_def]
      simp only [if_neg (show ¬(192 + c / 64 < 128) by omega)]
      rw [if_pos (show 194 ≤ 192 + c / 64 ∧ 192 + c / 64 < 224 by omega)]
      simp only [List.headD_cons, List.tail_cons, List.length_cons]
      rw [if_pos (show 1 ≤ rest.length + 1 by omega)]
      rw [if_pos (show 128 ≤ 128 + c % 64 ∧ 128 + c % 64 < 192 by omega)]
      congr 1
      omega
    · by_cases h3 : c < 65536
      · rw [if_neg h1, if_neg h2, if_pos h3]
        simp only [List.cons_append, List.nil_append]
        rw [utf8BytesToString.eq_def]
        simp only [if_neg (show ¬(224 + c / 4096 < 128) by omega)]
        rw [if_neg (show ¬(194 ≤ 224 + c / 4096 ∧ 224 + c / 4096 < 224) by omega)]
        rw [if_pos (show 224 ≤ 224 + c / 4096 ∧ 224 + c / 4096 < 240 by omega)]
        simp only [List.headD_cons, List.tail_cons, List.length_cons]
        rw [if_pos (show 2 ≤ rest.length + 1 + 1 by omega)]
        rw [if_pos (show (128 ≤ 128 + c / 64 % 64 ∧ 128 + c / 64 % 64 < 192)
              ∧ (128 ≤ 128 + c % 64 ∧ 128 + c % 64 < 192) by omega)]
        congr 1
        omega
      · rw [if_neg h1, if_neg h2, if_neg h3]
        simp only [List.cons_append, List.nil_append]
        rw [utf8BytesToString.eq_def]
        simp only [if_neg (show ¬(240 + c / 262144 < 128) by omega)]
        rw [if_neg (show ¬(194 ≤ 240 + c / 262144 ∧ 240 + c / 262144 < 224) by omega)]
        rw [if_neg (show ¬(224 ≤ 240 + c / 262144 ∧ 240 + c / 262144 < 240) by omega)]
        rw [if_pos (show 240 ≤ 240 + c / 262144 ∧ 240 + c / 262144 < 245 by omega)]
        simp only [List.headD_cons, List.tail_cons, List.length_cons]
        rw [if_pos (show 3 ≤ rest.length + 1 + 1 + 1 by omega)]
        rw [if_pos (show (128 ≤ 128 + c / 4096 % 64 ∧ 128 + c / 4096 % 64 < 192)
              ∧ (128 ≤ 128 + c / 64 % 64 ∧ 128 + c / 64 % 64 < 192)
              ∧ (128 ≤ 128 + c % 64 ∧ 128 + c % 64 < 192) by omega)]
        congr 1
        omega

theorem utf8_roundtrip {m : List Nat} (h : WfText m) :
    utf8BytesToString (stringToUtf8Bytes m) = m := by
  induction m with
  | nil => rw [show stringToUtf8Bytes [] = [] from rfl, utf8BytesToString.eq_def]
  | cons c rest ih =>
    unfold stringToUtf8Bytes
    rw [utf8_roundtrip_char (h c (by simp)), ih (fun x hx => h x (by simp [hx]))]

/-! ## PKCS#7 and block-list facts -/

theorem pkcs7Pad_length (data : List Nat) :
    (pkcs7Pad data).length = data.length + (16 - data.length % 16) := by
  simp [pkcs7Pad]

theorem pkcs7Pad_mod (data : List Nat) : (pkcs7Pad data).length % 16 = 0 := by
  rw [pkcs7Pad_length]
  omega

theorem pkcs7Pad_lt {data : List Nat} (hb : ∀ x ∈ data, x < 256) :
    ∀ x ∈ pkcs7Pad data, x < 256 := by
  intro x hx
  unfold pkcs7Pad at hx
  rcases List.mem_append.mp hx with hx | hx
  · exact hb x hx
  · have := List.eq_of_mem_replicate hx
    omega

theorem getD_append_right' {l l' : List Nat} {n : Nat} (h : l.length ≤ n) :
    (l ++ l').getD n 0 = l'.getD (n - l.length) 0 := by
  rw [List.getD_eq_getElem?_getD, List.getD_eq_getElem?_getD, List.getElem?_append_right h]

theorem getD_replicate' {n m v : Nat} (h : m < n) : (List.replicate n v).getD m 0 = v := by
  rw [List.getD_eq_getElem?_getD, List.getElem?_replicate_of_lt h]
  rfl

theorem pkcs7Unpad_pad (data : List Nat) : pkcs7Unpad (pkcs7Pad data) = Except.ok data := by
  have hlen := pkcs7Pad_length data
  have hpl1 : 1 ≤ 16 - data.length % 16 := by omega
  have hpl2 : 16 - data.length % 16 ≤ 16 := by omega
  unfold pkcs7Unpad
  rw [if_neg (by omega)]
  have hlast : (pkcs7Pad data).getD ((pkcs7Pad data).length - 1) 0 = 16 - data.length % 16 := by
    unfold pkcs7Pad
    rw [getD_append_right' (by simp [pkcs7Pad_length] at hlen ⊢; omega)]
    refine getD_replicate' ?_
    simp
    omega
  rw [hlast, if_neg (by omega)]
  rw [if_pos ?hall]
  case hall =>
    refine List.all_eq_true.mpr ?_
    intro i hi
    rw [List.mem_range] at hi
    refine beq_iff_eq.mpr ?_
    unfold pkcs7Pad
    rw [getD_append_right' (by simp [pkcs7Pad_length] at hlen ⊢; omega)]
    refine Eq.trans (getD_replicate' ?_) rfl
    simp
    omega
  congr 1
  have e : pkcs7Pad data
      = data ++ List.replicate (16 - data.length % 16) (16 - data.length % 16) := rfl
  rw [show (pkcs7Pad data).length - (16 - data.length % 16) = data.length from by omega, e]
  exact List.take_left' rfl

theorem xorBlocks_length (a b : List Nat) : (xorBlocks a b).length = 16 := by
  simp [xorBlocks]

theorem xorBlocks_lt (a b : List Nat) : ∀ x ∈ xorBlocks a b, x < 256 := by
  intro x hx
  unfold xorBlocks at hx
  obtain ⟨i, _, rfl⟩ := List.mem_map.mp hx
  exact Nat.mod_lt _ (by norm_num)

theorem getD_map_range {f : Nat → Nat} {i n : Nat} (h : i < n) :
    ((List.range n).map f).getD i 0 = f i := by
  rw [List.getD_eq_getElem?_getD, List.getElem?_map, List.getElem?_range h]
  rfl

theorem range16_map_getD {l : List Nat} (h : l.length = 16) :
    (List.range 16).map (fun i => l.getD i 0) = l := by
  rcases l with _ | ⟨a0, l⟩
  · simp at h
  rcases l with _ | ⟨a1, l⟩
  · simp at h
  rcases l with _ | ⟨a2, l⟩
  · simp at h
  rcases l with _ | ⟨a3, l⟩
  · simp at h
  rcases l with _ | ⟨a4, l⟩
  · simp at h
  rcases l with _ | ⟨a5, l⟩
  · simp at h
  rcases l with _ | ⟨a6, l⟩
  · simp at h
  rcases l with _ | ⟨a7, l⟩
  · simp at h
  rcases l with _ | ⟨a8, l⟩
  · simp at h
  rcases l with _ | ⟨a9, l⟩
  · simp at h
  rcases l with _ | ⟨a10, l⟩
  · simp at h
  rcases l with _ | ⟨a11, l⟩
  · simp at h
  rcases l with _ | ⟨a12, l⟩
  · simp at h
  rcases l with _ | ⟨a13, l⟩
  · simp at h
  rcases l with _ | ⟨a14, l⟩
  · simp at h
  rcases l with _ | ⟨a15, l⟩
  · simp at h
  rcases l with _ | ⟨a16, l⟩
  swap
  · simp at h
  rfl

theorem xorBlocks_xorBlocks {a p : List Nat} (ha : a.length = 16) (hab : ∀ x ∈ a, x < 256)
    (hpb : ∀ x ∈ p, x < 256) : xorBlocks (xorBlocks a p) p = a := by
  have e : xorBlocks (xorBlocks a p) p = (List.range 16).map (fun i => a.getD i 0) := by
    unfold xorBlocks
    refine List.map_congr_left ?_
    intro i hi
    rw [List.mem_range] at hi
    rw [getD_map_range hi]
    have hax : a.getD i 0 < 256 := getD_lt_of_forall (by norm_num) hab i
    have hpx : p.getD i 0 < 256 := getD_lt_of_forall (by norm_num) hpb i
    have hu : u8 (a.getD i 0 ^^^ p.getD i 0) = a.getD i 0 ^^^ p.getD i 0 := by
      refine Nat.mod_eq_of_lt ?_
      exact @Nat.xor_lt_two_pow _ _ 8 hax hpx
    rw [hu, Nat.xor_cancel_right]
    exact Nat.mod_eq_of_lt hax
  rw [e, range16_map_getD ha]

theorem aesBlockEncrypt_length (l w : List Nat) : (aesBlockEncrypt l w).length = 16 := rfl

theorem stateToBytes_lt (st : AesState) : ∀ x ∈ stateToBytes st, x < 256 := by
  intro x hx
  unfold stateToBytes at hx
  simp only [List.mem_cons, List.not_mem_nil, or_false] at hx
  rcases hx with rfl | rfl | rfl | rfl | rfl | rfl | rfl | rfl | rfl | rfl | rfl | rfl | rfl
    | rfl | rfl | rfl
  all_goals first
    | exact byte_lt _ _
    | exact and255_lt _

theorem aesBlockEncrypt_lt (l w : List Nat) : ∀ x ∈ aesBlockEncrypt l w, x < 256 := by
  rw [aesBlockEncrypt_eq]
  exact stateToBytes_lt _

/-! ## Mode round-trips -/

theorem modeCBCEncryptGo_cons (w prev : List Nat) (d : Nat) (ds : List Nat) :
    modeCBCEncryptGo w prev (d :: ds)
      = aesBlockEncrypt (xorBlocks ((d :: ds).take 16) prev) w
        ++ modeCBCEncryptGo w (aesBlockEncrypt (xorBlocks ((d :: ds).take 16) prev) w)
            ((d :: ds).drop 16) := by
  rw [modeCBCEncryptGo]

theorem modeCBCEncryptGo_nil (w prev : List Nat) : modeCBCEncryptGo w prev [] = [] := by
  rw [modeCBCEncryptGo]

theorem modeCBCDecryptGo_nil (w prev : List Nat) : modeCBCDecryptGo w prev [] = [] := by
  rw [modeCBCDecryptGo]

theorem modeCBCDecryptGo_block (w prev B rest : List Nat) (hB : B.length = 16) :
    modeCBCDecryptGo w prev (B ++ rest)
      = xorBlocks (aesBlockDecrypt B w) prev ++ modeCBCDecryptGo w B rest := by
  rcases B with _ | ⟨b, B'⟩
  · simp at hB
  rw [List.cons_append, modeCBCDecryptGo, ← List.cons_append, List.take_left' hB,
    List.drop_left' hB]

theorem modeCBC_go_roundtrip (w : List Nat) (hw : WB w) : ∀ (n : Nat) (data prev : List Nat),
    data.length ≤ n → data.length % 16 = 0 → (∀ x ∈ data, x < 256) → (∀ x ∈ prev, x < 256) →
    modeCBCDecryptGo w prev (modeCBCEncryptGo w prev data) = data := by
  intro n
  induction n with
  | zero =>
    intro data prev hn _ _ _
    rcases data with _ | ⟨d, ds⟩
    · rw [modeCBCEncryptGo_nil, modeCBCDecryptGo_nil]
    · simp at hn
  | succ n ih =>
    intro data prev hn hmod hdb hpb
    rcases data with _ | ⟨d, ds⟩
    · rw [modeCBCEncryptGo_nil, modeCBCDecryptGo_nil]
    have hlen16 : 16 ≤ (d :: ds).length := by
      rcases Nat.lt_or_ge (d :: ds).length 16 with h | h
      · exfalso
        have : (d :: ds).length = 0 := by omega
        simp at this
      · exact h
    have hBlen : ((d :: ds).take 16).length = 16 := by
      rw [List.length_take]
      omega
    have hBlt : ∀ x ∈ (d :: ds).take 16, x < 256 := fun x hx => hdb x (List.take_subset _ _ hx)
    rw [modeCBCEncryptGo_cons, modeCBCDecryptGo_block _ _ _ _ (aesBlockEncrypt_length _ _),
      aesBlockDecrypt_aesBlockEncrypt hw (xorBlocks_length _ _) (xorBlocks_lt _ _),
      xorBlocks_xorBlocks hBlen hBlt hpb]
    rw [ih ((d :: ds).drop 16) _
      (by simp only [List.length_drop, List.length_cons] at hn hlen16 ⊢; omega)
      (by simp only [List.length_drop, List.length_cons] at hmod hlen16 ⊢; omega)
      (fun x hx => hdb x (List.drop_subset _ _ hx)) (aesBlockEncrypt_lt _ _)]
    exact List.take_append_drop 16 (d :: ds)

theorem modeCBCEncryptGo_length (w : List Nat) : ∀ (n : Nat) (data prev : List Nat),
    data.length ≤ n → data.length % 16 = 0 →
    (modeCBCEncryptGo w prev data).length = data.length := by
  intro n
  induction n with
  | zero =>
    intro data prev hn _
    rcases data with _ | ⟨d, ds⟩
    · rw [modeCBCEncryptGo_nil]
    · simp at hn
  | succ n ih =>
    intro data prev hn hmod
    rcases data with _ | ⟨d, ds⟩
    · rw [modeCBCEncryptGo_nil]
    have hlen16 : 16 ≤ (d :: ds).length := by
      rcases Nat.lt_or_ge (d :: ds).length 16 with h | h
      · exfalso
        have : (d :: ds).length = 0 := by omega
        simp at this
      · exact h
    rw [modeCBCEncryptGo_cons]
    rw [List.length_append, aesBlockEncrypt_length,
      ih ((d :: ds).drop 16) _
        (by simp only [List.length_drop, List.length_cons] at hn hlen16 ⊢; omega)
        (by simp only [List.length_drop, List.length_cons] at hmod hlen16 ⊢; omega)]
    rw [List.length_drop]
    omega

theorem modeCBCEncryptGo_lt (w : List Nat) : ∀ (n : Nat) (data prev : List Nat),
    data.length ≤ n → ∀ x ∈ modeCBCEncryptGo w prev data, x < 256 := by
  intro n
  induction n with
  | zero =>
    intro data prev hn
    rcases data with _ | ⟨d, ds⟩
    · intro x hx
      rw [modeCBCEncryptGo_nil] at hx
      simp at hx
    · simp at hn
  | succ n ih =>
    intro data prev hn x hx
    rcases data with _ | ⟨d, ds⟩
    · rw [modeCBCEncryptGo_nil] at hx
      simp at hx
    rw [modeCBCEncryptGo_cons] at hx
    rcases List.mem_append.mp hx with hx | hx
    · exact aesBlockEncrypt_lt _ _ x hx
    · exact ih ((d :: ds).drop 16) _
        (by simp only [List.length_drop, List.length_cons] at hn ⊢; omega) x hx

theorem modeCTREncryptGo_nil (w counter : List Nat) : modeCTREncryptGo w counter [] = [] := by
  rw [modeCTREncryptGo]

theorem modeCTREncryptGo_cons (w counter : List Nat) (d : Nat) (ds : List Nat) :
    modeCTREncryptGo w counter (d :: ds)
      = List.zipWith (fun x k => u8 (x ^^^ k)) ((d :: ds).take 16) (aesBlockEncrypt counter w)
        ++ modeCTREncryptGo w (incCounter counter) ((d :: ds).drop 16) := by
  rw [modeCTREncryptGo]

theorem modeOFBEncryptGo_nil (w feedback : List Nat) : modeOFBEncryptGo w feedback [] = [] := by
  rw [modeOFBEncryptGo]

theorem modeOFBEncryptGo_cons (w feedback : List Nat) (d : Nat) (ds : List Nat) :
    modeOFBEncryptGo w feedback (d :: ds)
      = List.zipWith (fun x k => u8 (x ^^^ k)) ((d :: ds).take 16) (aesBlockEncrypt feedback w)
        ++ modeOFBEncryptGo w (aesBlockEncrypt feedback w) ((d :: ds).drop 16) := by
  rw [modeOFBEncryptGo]

theorem zip_u8xor_cancel : ∀ (a k : List Nat), a.length ≤ k.length → (∀ x ∈ a, x < 256) →
    (∀ x ∈ k, x < 256) →
    List.zipWith (fun x y => u8 (x ^^^ y)) (List.zipWith (fun x y => u8 (x ^^^ y)) a k) k = a := by
  intro a
  induction a with
  | nil => intro k _ _ _; simp
  | cons x xs ih =>
    intro k hlen hab hkb
    rcases k with _ | ⟨y, ys⟩
    · simp at hlen
    simp only [List.zipWith_cons_cons]
    have hx : x < 256 := hab x (by simp)
    have hy : y < 256 := hkb y (by simp)
    have h1 : u8 (x ^^^ y) = x ^^^ y := Nat.mod_eq_of_lt (@Nat.xor_lt_two_pow _ _ 8 hx hy)
    rw [h1, Nat.xor_cancel_right, u8_eq hx,
      ih ys (by simpa using hlen) (fun z hz => hab z (by simp [hz]))
        (fun z hz => hkb z (by simp [hz]))]

theorem zip_u8xor_lt : ∀ (a k : List Nat), ∀ x ∈ List.zipWith (fun x y => u8 (x ^^^ y)) a k,
    x < 256 := by
  intro a
  induction a with
  | nil => intro k x hx; simp at hx
  | cons z zs ih =>
    intro k x hx
    rcases k with _ | ⟨y, ys⟩
    · simp at hx
    simp only [List.zipWith_cons_cons, List.mem_cons] at hx
    rcases hx with rfl | hx
    · exact Nat.mod_lt _ (by norm_num)
    · exact ih ys x hx

theorem zip_u8xor_take16 (data ks : List Nat) (hks : ks.length = 16)
    (hd : ∀ x ∈ data, x < 256) (hk : ∀ x ∈ ks, x < 256) :
    List.zipWith (fun x y => u8 (x ^^^ y))
        (List.zipWith (fun x y => u8 (x ^^^ y)) (data.take 16) ks) ks = data.take 16 := by
  refine zip_u8xor_cancel _ _ ?_ (fun x hx => hd x (List.take_subset _ _ hx)) hk
  rw [List.length_take, hks]
  omega

theorem ctr_chunk_shape {Z R : List Nat} (hZ1 : 1 ≤ Z.length) (hZ16 : Z.length ≤ 16)
    (hR : R = [] ∨ Z.length = 16) : (Z ++ R).take 16 = Z ∧ (Z ++ R).drop 16 = R := by
  rcases hR with rfl | h16
  · rw [List.append_nil]
    constructor
    · exact List.take_of_length_le hZ16
    · exact List.drop_eq_nil_of_le hZ16
  · constructor
    · exact List.take_left' h16
    · exact List.drop_left' h16

theorem modeCTR_go_involution (w : List Nat) : ∀ (n : Nat) (data counter : List Nat),
    data.length ≤ n → (∀ x ∈ data, x < 256) →
    modeCTREncryptGo w counter (modeCTREncryptGo w counter data) = data := by
  intro n
  induction n with
  | zero =>
    intro data counter hn _
    rcases data with _ | ⟨d, ds⟩
    · rw [modeCTREncryptGo_nil, modeCTREncryptGo_nil]
    · simp at hn
  | succ n ih =>
    intro data counter hn hdb
    rcases data with _ | ⟨d, ds⟩
    · rw [modeCTREncryptGo_nil, modeCTREncryptGo_nil]
    rw [modeCTREncryptGo_cons]
    set ks := aesBlockEncrypt counter w with hks
    set Z := List.zipWith (fun x k => u8 (x ^^^ k)) ((d :: ds).take 16) ks with hZ
    set R := modeCTREncryptGo w (incCounter counter) ((d :: ds).drop 16) with hR
    have hkslen : ks.length = 16 := aesBlockEncrypt_length _ _
    have hZlen : Z.length = min 16 (d :: ds).length := by
      rw [hZ, List.length_zipWith, List.length_take, hkslen]
      omega
    have hZ1 : 1 ≤ Z.length := by
      rw [hZlen]
      simp only [List.length_cons]
      omega
    have hZ16 : Z.length ≤ 16 := by
      rw [hZlen]
      omega
    have hshape : (Z ++ R).take 16 = Z ∧ (Z ++ R).drop 16 = R := by
      refine ctr_chunk_shape hZ1 hZ16 ?_
      rcases Nat.lt_or_ge (d :: ds).length 16 with h | h
      · left
        rw [hR, List.drop_eq_nil_of_le (by omega), modeCTREncryptGo_nil]
      · right
        rw [hZlen]
        omega
    rcases hZZ : Z with _ | ⟨z, Z'⟩
    · rw [hZZ] at hZ1
      simp at hZ1
    rw [← hZZ]
    have hcons : Z ++ R = (z :: Z') ++ R := by rw [hZZ]
    rw [hcons, List.cons_append, modeCTREncryptGo_cons, ← List.cons_append, ← hcons,
      hshape.1, hshape.2, ← hks, hZ,
      zip_u8xor_take16 _ _ hkslen hdb (aesBlockEncrypt_lt _ _),
      ih ((d :: ds).drop 16) (incCounter counter)
        (by simp only [List.length_drop, List.length_cons] at hn ⊢; omega)
        (fun x hx => hdb x (List.drop_subset _ _ hx))]
    exact List.take_append_drop 16 (d :: ds)

theorem modeOFB_go_involution (w : List Nat) : ∀ (n : Nat) (data feedback : List Nat),
    data.length ≤ n → (∀ x ∈ data, x < 256) →
    modeOFBEncryptGo w feedback (modeOFBEncryptGo w feedback data) = data := by
  intro n
  induction n with
  | zero =>
    intro data feedback hn _
    rcases data with _ | ⟨d, ds⟩
    · rw [modeOFBEncryptGo_nil, modeOFBEncryptGo_nil]
    · simp at hn
  | succ n ih =>
    intro data feedback hn hdb
    rcases data with _ | ⟨d, ds⟩
    · rw [modeOFBEncryptGo_nil, modeOFBEncryptGo_nil]
    rw [modeOFBEncryptGo_cons]
    set ks := aesBlockEncrypt feedback w with hks
    set Z := List.zipWith (fun x k => u8 (x ^^^ k)) ((d :: ds).take 16) ks with hZ
    set R := modeOFBEncryptGo w ks ((d :: ds).drop 16) with hR
    have hkslen : ks.length = 16 := aesBlockEncrypt_length _ _
    have hZlen : Z.length = min 16 (d :: ds).length := by
      rw [hZ, List.length_zipWith, List.length_take, hkslen]
      omega
    have hZ1 : 1 ≤ Z.length := by
      rw [hZlen]
      simp only [List.length_cons]
      omega
    have hZ16 : Z.length ≤ 16 := by
      rw [hZlen]
      omega
    have hshape : (Z ++ R).take 16 = Z ∧ (Z ++ R).drop 16 = R := by
      refine ctr_chunk_shape hZ1 hZ16 ?_
      rcases Nat.lt_or_ge (d :: ds).length 16 with h | h
      · left
        rw [hR, List.drop_eq_nil_of_le (by omega), modeOFBEncryptGo_nil]
      · right
        rw [hZlen]
        omega
    rcases hZZ : Z with _ | ⟨z, Z'⟩
    · rw [hZZ] at hZ1
      simp at hZ1
    rw [← hZZ]
    have hcons : Z ++ R = (z :: Z') ++ R := by rw [hZZ]
    rw [hcons, List.cons_append, modeOFBEncryptGo_cons, ← List.cons_append, ← hcons,
      hshape.1, hshape.2, ← hks, hZ,
      zip_u8xor_take16 _ _ hkslen hdb (aesBlockEncrypt_lt _ _),
      ih ((d :: ds).drop 16) ks
        (by simp only [List.length_drop, List.length_cons] at hn ⊢; omega)
        (fun x hx => hdb x (List.drop_subset _ _ hx))]
    exact List.take_append_drop 16 (d :: ds)

theorem modeCTREncryptGo_lt (w : List Nat) : ∀ (n : Nat) (data counter : List Nat),
    data.length ≤ n → ∀ x ∈ modeCTREncryptGo w counter data, x < 256 := by
  intro n
  induction n with
  | zero =>
    intro data counter hn x hx
    rcases data with _ | ⟨d, ds⟩
    · rw [modeCTREncryptGo_nil] at hx
      simp at hx
    · simp at hn
  | succ n ih =>
    intro data counter hn x hx
    rcases data with _ | ⟨d, ds⟩
    · rw [modeCTREncryptGo_nil] at hx
      simp at hx
    rw [modeCTREncryptGo_cons] at hx
    rcases List.mem_append.mp hx with hx | hx
    · exact zip_u8xor_lt _ _ x hx
    · exact ih ((d :: ds).drop 16) _
        (by simp only [List.length_drop, List.length_cons] at hn ⊢; omega) x hx

theorem modeOFBEncryptGo_lt (w : List Nat) : ∀ (n : Nat) (data feedback : List Nat),
    data.length ≤ n → ∀ x ∈ modeOFBEncryptGo w feedback data, x < 256 := by
  intro n
  induction n with
  | zero =>
    intro data feedback hn x hx
    rcases data with _ | ⟨d, ds⟩
    · rw [modeOFBEncryptGo_nil] at hx
      simp at hx
    · simp at hn
  | succ n ih =>
    intro data feedback hn x hx
    rcases data with _ | ⟨d, ds⟩
    · rw [modeOFBEncryptGo_nil] at hx
      simp at hx
    rw [modeOFBEncryptGo_cons] at hx
    rcases List.mem_append.mp hx with hx | hx
    · exact zip_u8xor_lt _ _ x hx
    · exact ih ((d :: ds).drop 16) _
        (by simp only [List.length_drop, List.length_cons] at hn ⊢; omega) x hx

theorem modeCBC_roundtrip (plain key iv : List Nat) (hp : ∀ x ∈ plain, x < 256)
    (hi : ∀ x ∈ iv, x < 256) :
    modeCBCDecrypt (modeCBCEncrypt plain key iv) key iv = Except.ok plain := by
  have hlen : (modeCBCEncrypt plain key iv).length % 16 = 0 := by
    unfold modeCBCEncrypt
    rw [modeCBCEncryptGo_length _ (pkcs7Pad plain).length _ _ (Nat.le_refl _) (pkcs7Pad_mod _)]
    exact pkcs7Pad_mod _
  unfold modeCBCDecrypt
  rw [if_neg (by omega)]
  unfold modeCBCEncrypt
  rw [modeCBC_go_roundtrip (keyExpansion key) (keyExpansion_WB key) (pkcs7Pad plain).length _ _
    (Nat.le_refl _) (pkcs7Pad_mod _) (pkcs7Pad_lt hp) hi]
  exact pkcs7Unpad_pad plain

theorem modeCTR_roundtrip (data key iv : List Nat) (hd : ∀ x ∈ data, x < 256) :
    modeCTREncrypt (modeCTREncrypt data key iv) key iv = data := by
  unfold modeCTREncrypt
  exact modeCTR_go_involution _ data.length _ _ (Nat.le_refl _) hd

theorem modeOFB_roundtrip (data key iv : List Nat) (hd : ∀ x ∈ data, x < 256) :
    modeOFBEncrypt (modeOFBEncrypt data key iv) key iv = data := by
  unfold modeOFBEncrypt
  exact modeOFB_go_involution _ data.length _ _ (Nat.le_refl _) hd

theorem validateKeyAndIV_ok {key iv : List Nat}
    (hk : key.length = 16 ∨ key.length = 24 ∨ key.length = 32) (hi : iv.length = 16) :
    validateKeyAndIV key iv = Except.ok () := by
  unfold validateKeyAndIV
  rw [if_neg (not_not_intro hk), if_neg (not_not_intro hi)]

theorem aesEncrypt_CBC {M key iv : List Nat}
    (hv : validateKeyAndIV (stringToUtf8Bytes key) (stringToUtf8Bytes iv) = Except.ok ()) :
    aesEncrypt M key iv AesMode.CBC = Except.ok (bytesToBase64 (modeCBCEncrypt
      (stringToUtf8Bytes M) (stringToUtf8Bytes key) (stringToUtf8Bytes iv))) := by
  unfold aesEncrypt
  dsimp only
  rw [hv]

theorem aesEncrypt_CTR {M key iv : List Nat}
    (hv : validateKeyAndIV (stringToUtf8Bytes key) (stringToUtf8Bytes iv) = Except.ok ()) :
    aesEncrypt M key iv AesMode.CTR = Except.ok (bytesToBase64 (modeCTREncrypt
      (stringToUtf8Bytes M) (stringToUtf8Bytes key) (stringToUtf8Bytes iv))) := by
  unfold aesEncrypt
  dsimp only
  rw [hv]

theorem aesEncrypt_OFB {M key iv : List Nat}
    (hv : validateKeyAndIV (stringToUtf8Bytes key) (stringToUtf8Bytes iv) = Except.ok ()) :
    aesEncrypt M key iv AesMode.OFB = Except.ok (bytesToBase64 (modeOFBEncrypt
      (stringToUtf8Bytes M) (stringToUtf8Bytes key) (stringToUtf8Bytes iv))) := by
  unfold aesEncrypt
  dsimp only
  rw [hv]

theorem aesDecrypt_CBC {ct key iv : List Nat} {plain : List Nat}
    (hv : validateKeyAndIV (stringToUtf8Bytes key) (stringToUtf8Bytes iv) = Except.ok ())
    (hd : modeCBCDecrypt (base64ToBytes ct) (stringToUtf8Bytes key) (stringToUtf8Bytes iv)
      = Except.ok plain) :
    aesDecrypt ct key iv AesMode.CBC = Except.ok (utf8BytesToString plain) := by
  unfold aesDecrypt
  dsimp only
  rw [hv, hd]

theorem aesDecrypt_CTR {ct key iv : List Nat}
    (hv : validateKeyAndIV (stringToUtf8Bytes key) (stringToUtf8Bytes iv) = Except.ok ()) :
    aesDecrypt ct key iv AesMode.CTR = Except.ok (utf8BytesToString (modeCTREncrypt
      (base64ToBytes ct) (stringToUtf8Bytes key) (stringToUtf8Bytes iv))) := by
  unfold aesDecrypt
  dsimp only
  rw [hv]

theorem aesDecrypt_OFB {ct key iv : List Nat}
    (hv : validateKeyAndIV (stringToUtf8Bytes key) (stringToUtf8Bytes iv) = Except.ok ()) :
    aesDecrypt ct key iv AesMode.OFB = Except.ok (utf8BytesToString (modeOFBEncrypt
      (base64ToBytes ct) (stringToUtf8Bytes key) (stringToUtf8Bytes iv))) := by
  unfold aesDecrypt
  dsimp only
  rw [hv]

/-! ## Claim C1 -/

/-- C1: for every key string whose UTF-8 encoding is exactly 16, 24, or 32
bytes, every IV string whose UTF-8 encoding is exactly 16 bytes, every mode in
CBC/CTR/OFB, and every well-formed Unicode message M,
`aesDecrypt (aesEncrypt M key iv mode) key iv mode` returns M. -/
theorem aes_encrypt_decrypt_roundtrip (M key iv : List Nat) (mode : AesMode)
    (hM : WfText M) (hkey : WfText key) (hiv : WfText iv)
    (hkl : (stringToUtf8Bytes key).length = 16 ∨ (stringToUtf8Bytes key).length = 24 ∨
      (stringToUtf8Bytes key).length = 32)
    (hivl : (stringToUtf8Bytes iv).length = 16) :
    (aesEncrypt M key iv mode).bind (fun ct => aesDecrypt ct key iv mode) = Except.ok M := by
  have hv := validateKeyAndIV_ok hkl hivl
  have hpb := stringToUtf8Bytes_lt hM
  have hib := stringToUtf8Bytes_lt hiv
  cases mode with
  | CBC =>
    rw [aesEncrypt_CBC hv]
    have henc_lt : ∀ x ∈ modeCBCEncrypt (stringToUtf8Bytes M) (stringToUtf8Bytes key)
        (stringToUtf8Bytes iv), x < 256 := by
      unfold modeCBCEncrypt
      exact modeCBCEncryptGo_lt _ (pkcs7Pad (stringToUtf8Bytes M)).length _ _ (Nat.le_refl _)
    have hd : modeCBCDecrypt (base64ToBytes (bytesToBase64 (modeCBCEncrypt
          (stringToUtf8Bytes M) (stringToUtf8Bytes key) (stringToUtf8Bytes iv))))
          (stringToUtf8Bytes key) (stringToUtf8Bytes iv)
        = Except.ok (stringToUtf8Bytes M) := by
      rw [base64_roundtrip henc_lt]
      exact modeCBC_roundtrip _ _ _ hpb hib
    show aesDecrypt _ key iv AesMode.CBC = _
    rw [aesDecrypt_CBC hv hd, utf8_roundtrip hM]
  | CTR =>
    rw [aesEncrypt_CTR hv]
    have henc_lt : ∀ x ∈ modeCTREncrypt (stringToUtf8Bytes M) (stringToUtf8Bytes key)
        (stringToUtf8Bytes iv), x < 256 := by
      unfold modeCTREncrypt
      exact modeCTREncryptGo_lt _ (stringToUtf8Bytes M).length _ _ (Nat.le_refl _)
    show aesDecrypt _ key iv AesMode.CTR = _
    rw [aesDecrypt_CTR hv, base64_roundtrip henc_lt, modeCTR_roundtrip _ _ _ hpb,
      utf8_roundtrip hM]
  | OFB =>
    rw [aesEncrypt_OFB hv]
    have henc_lt : ∀ x ∈ modeOFBEncrypt (stringToUtf8Bytes M) (stringToUtf8Bytes key)
        (stringToUtf8Bytes iv), x < 256 := by
      unfold modeOFBEncrypt
      exact modeOFBEncryptGo_lt _ (stringToUtf8Bytes M).length _ _ (Nat.le_refl _)
    show aesDecrypt _ key iv AesMode.OFB = _
    rw [aesDecrypt_OFB hv, base64_roundtrip henc_lt, modeOFB_roundtrip _ _ _ hpb,
      utf8_roundtrip hM]

/-- Witness for C1 at a concrete message, key, IV and mode. -/
theorem aes_encrypt_decrypt_roundtrip_witness :
    (aesEncrypt [104, 105] (List.replicate 16 107) (List.replicate 16 105) AesMode.CBC).bind
      (fun ct => aesDecrypt ct (List.replicate 16 107) (List.replicate 16 105) AesMode.CBC)
      = Except.ok [104, 105] :=
  aes_encrypt_decrypt_roundtrip [104, 105] (List.replicate 16 107) (List.replicate 16 105)
    AesMode.CBC (by unfold WfText isScalar; decide) (by unfold WfText isScalar; decide)
    (by unfold WfText isScalar; decide) (by decide) (by decide)

/-! ## Claim C2 -/

set_option maxRecDepth 100000 in
/-- C2: the single-block AES-128 transform (keyExpansion then aesBlockEncrypt)
maps the FIPS-197 key 000102...0f and plaintext block 00112233...eeff to the
ciphertext block 69c4e0d86a7b0430d8cdb78070b4c55a. -/
theorem aes128_known_answer :
    aesBlockEncrypt
      [0x00, 0x11, 0x22, 0x33, 0x44, 0x55, 0x66, 0x77,
       0x88, 0x99, 0xaa, 0xbb, 0xcc, 0xdd, 0xee, 0xff]
      (keyExpansion
        [0x00, 0x01, 0x02, 0x03, 0x04, 0x05, 0x06, 0x07,
         0x08, 0x09, 0x0a, 0x0b, 0x0c, 0x0d, 0x0e, 0x0f])
      = [0x69, 0xc4, 0xe0, 0xd8, 0x6a, 0x7b, 0x04, 0x30,
         0xd8, 0xcd, 0xb7, 0x80, 0x70, 0xb4, 0xc5, 0x5a] := by
  decide

/-! ## Claim C7 -/

set_option maxRecDepth 100000 in
/-- C7: for every valid AES key and 16-byte IV, the CTR and OFB drivers agree
on inputs of at most 16 bytes; on a 32-byte input their outputs agree on the
first block and differ on the second. -/
theorem ctr_ofb_agreement :
    (∀ (key iv data : List Nat),
        key.length = 16 ∨ key.length = 24 ∨ key.length = 32 → iv.length = 16 →
        data.length ≤ 16 → modeCTREncrypt data key iv = modeOFBEncrypt data key iv) ∧
    (modeCTREncrypt (List.replicate 32 0) (List.replicate 16 0) (List.replicate 16 0)).take 16
      = (modeOFBEncrypt (List.replicate 32 0) (List.replicate 16 0) (List.replicate 16 0)).take 16
    ∧ (modeCTREncrypt (List.replicate 32 0) (List.replicate 16 0) (List.replicate 16 0)).drop 16
      ≠ (modeOFBEncrypt (List.replicate 32 0) (List.replicate 16 0) (List.replicate 16 0)).drop 16
    := by
  refine ⟨?_, ?_, ?_⟩
  · intro key iv data _ _ h
    unfold modeCTREncrypt modeOFBEncrypt
    rcases data with _ | ⟨d, ds⟩
    · rw [modeCTREncryptGo_nil, modeOFBEncryptGo_nil]
    · rw [modeCTREncryptGo_cons, modeOFBEncryptGo_cons,
        List.drop_eq_nil_of_le (by simpa using h), modeCTREncryptGo_nil, modeOFBEncryptGo_nil]
  all_goals (
    unfold modeCTREncrypt modeOFBEncrypt
    rw [show (List.replicate 32 (0 : Nat)) = 0 :: List.replicate 31 0 from rfl,
      modeCTREncryptGo_cons, modeOFBEncryptGo_cons,
      show ((0 :: List.replicate 31 (0 : Nat)).drop 16) = 0 :: List.replicate 15 0 from by decide,
      modeCTREncryptGo_cons, modeOFBEncryptGo_cons,
      show ((0 :: List.replicate 15 (0 : Nat)).drop 16) = ([] : List Nat) from by decide,
      modeCTREncryptGo_nil, modeOFBEncryptGo_nil]
    decide)

/-- Witness for C7 at a concrete key, IV and 3-byte input. -/
theorem ctr_ofb_agreement_witness :
    modeCTREncrypt [1, 2, 3] (List.replicate 16 0) (List.replicate 16 0)
      = modeOFBEncrypt [1, 2, 3] (List.replicate 16 0) (List.replicate 16 0) :=
  ctr_ofb_agreement.1 (List.replicate 16 0) (List.replicate 16 0) [1, 2, 3]
    (by decide) (by decide) (by decide)

/-! ## Claim C3 -/

theorem modeCBCDecryptGo_cons (w prev : List Nat) (d : Nat) (ds : List Nat) :
    modeCBCDecryptGo w prev (d :: ds)
      = xorBlocks (aesBlockDecrypt ((d :: ds).take 16) w) prev
        ++ modeCBCDecryptGo w ((d :: ds).take 16) ((d :: ds).drop 16) := by
  rw [modeCBCDecryptGo]

theorem modeCBCDecryptGo_length (w : List Nat) : ∀ (n : Nat) (data prev : List Nat),
    data.length ≤ n → data.length % 16 = 0 →
    (modeCBCDecryptGo w prev data).length = data.length := by
  intro n
  induction n with
  | zero =>
    intro data prev hn _
    rcases data with _ | ⟨d, ds⟩
    · rw [modeCBCDecryptGo_nil]
    · simp at hn
  | succ n ih =>
    intro data prev hn hmod
    rcases data with _ | ⟨d, ds⟩
    · rw [modeCBCDecryptGo_nil]
    have hlen16 : 16 ≤ (d :: ds).length := by
      rcases Nat.lt_or_ge (d :: ds).length 16 with h | h
      · exfalso
        have : (d :: ds).length = 0 := by omega
        simp at this
      · exact h
    rw [modeCBCDecryptGo_cons, List.length_append, xorBlocks_length,
      ih ((d :: ds).drop 16) _
        (by simp only [List.length_drop, List.length_cons] at hn hlen16 ⊢; omega)
        (by simp only [List.length_drop, List.length_cons] at hmod hlen16 ⊢; omega)]
    rw [List.length_drop]
    omega

/-- The intermediate byte sequence produced by the CBC block-decryption loop
inside `modeCBCDecrypt`, before `pkcs7Unpad` (the `output` array of the source). -/
def cbcDecryptedData (key iv cipher : List Nat) : List Nat :=
  modeCBCDecryptGo (keyExpansion key) iv cipher

/-- The candidate padding length read by `pkcs7Unpad`: the final byte of the
decrypted data. -/
def cbcPadLen (key iv cipher : List Nat) : Nat :=
  (cbcDecryptedData key iv cipher).getD ((cbcDecryptedData key iv cipher).length - 1) 0

/-- C3 (amended): for every key and IV and every NON-EMPTY ciphertext whose
length is a multiple of 16, CBC decryption returns an invalid-padding error
unless the final decrypted byte padLen satisfies 1 ≤ padLen ≤ 16 and the final
padLen decrypted bytes all equal padLen (the decrypted data is automatically
non-empty here); on success it returns the decrypted data with exactly padLen
bytes removed.  (An empty ciphertext, excluded here, is returned as an empty
result without any padding validation; see the counterexample.) -/
theorem cbc_padding_validation (key iv cipher : List Nat)
    (hmod : cipher.length % 16 = 0) (hne : cipher ≠ []) :
    (¬(1 ≤ cbcPadLen key iv cipher ∧ cbcPadLen key iv cipher ≤ 16 ∧
        ∀ i < cbcPadLen key iv cipher,
          (cbcDecryptedData key iv cipher).getD
            ((cbcDecryptedData key iv cipher).length - 1 - i) 0 = cbcPadLen key iv cipher) →
      modeCBCDecrypt cipher key iv = Except.error "Invalid PKCS#7 padding."
        ∨ modeCBCDecrypt cipher key iv = Except.error "Invalid PKCS#7 padding bytes.")
    ∧ ((1 ≤ cbcPadLen key iv cipher ∧ cbcPadLen key iv cipher ≤ 16 ∧
        ∀ i < cbcPadLen key iv cipher,
          (cbcDecryptedData key iv cipher).getD
            ((cbcDecryptedData key iv cipher).length - 1 - i) 0 = cbcPadLen key iv cipher) →
      modeCBCDecrypt cipher key iv
        = Except.ok ((cbcDecryptedData key iv cipher).take
            ((cbcDecryptedData key iv cipher).length - cbcPadLen key iv cipher))) := by
  have hDlen : (cbcDecryptedData key iv cipher).length = cipher.length :=
    modeCBCDecryptGo_length _ cipher.length _ _ (Nat.le_refl _) hmod
  have hcne : cipher.length ≠ 0 := by
    intro h
    exact hne (List.eq_nil_of_length_eq_zero h)
  have hDne : ¬((cbcDecryptedData key iv cipher).length = 0) := by
    rw [hDlen]
    exact hcne
  have hfold : modeCBCDecryptGo (keyExpansion key) iv cipher = cbcDecryptedData key iv cipher :=
    rfl
  unfold modeCBCDecrypt
  rw [if_neg (by omega)]
  unfold pkcs7Unpad
  rw [hfold, if_neg hDne]
  have hfoldp : (cbcDecryptedData key iv cipher).getD
      ((cbcDecryptedData key iv cipher).length - 1) 0 = cbcPadLen key iv cipher := rfl
  rw [hfoldp]
  have hiff : (((List.range (cbcPadLen key iv cipher)).all fun i =>
        (cbcDecryptedData key iv cipher).getD
          ((cbcDecryptedData key iv cipher).length - 1 - i) 0 == cbcPadLen key iv cipher) = true)
      ↔ (∀ i < cbcPadLen key iv cipher,
          (cbcDecryptedData key iv cipher).getD
            ((cbcDecryptedData key iv cipher).length - 1 - i) 0 = cbcPadLen key iv cipher) := by
    rw [List.all_eq_true]
    constructor
    · intro h i hi
      exact beq_iff_eq.mp (h i (List.mem_range.mpr hi))
    · intro h i hi
      exact beq_iff_eq.mpr (h i (List.mem_range.mp hi))
  by_cases hbad : cbcPadLen key iv cipher = 0 ∨ cbcPadLen key iv cipher > 16
  · rw [if_pos hbad]
    constructor
    · intro _
      left
      rfl
    · intro hgood
      exfalso
      omega
  · rw [if_neg hbad]
    by_cases hall : (((List.range (cbcPadLen key iv cipher)).all fun i =>
        (cbcDecryptedData key iv cipher).getD
          ((cbcDecryptedData key iv cipher).length - 1 - i) 0 == cbcPadLen key iv cipher) = true)
    · rw [if_pos hall]
      constructor
      · intro hng
        exfalso
        exact hng ⟨by omega, by omega, hiff.mp hall⟩
      · intro _
        rfl
    · rw [if_neg hall]
      constructor
      · intro _
        right
        rfl
      · intro hgood
        exfalso
        exact hall (hiff.mpr hgood.2.2)

/-- Witness for the amended C3 at a concrete non-empty ciphertext. -/
theorem cbc_padding_validation_witness :
    ((List.replicate 16 0 : List Nat).length % 16 = 0 ∧ (List.replicate 16 0 : List Nat) ≠ [])
    ∧ (¬(1 ≤ cbcPadLen (List.replicate 16 107) (List.replicate 16 105) (List.replicate 16 0) ∧
        cbcPadLen (List.replicate 16 107) (List.replicate 16 105) (List.replicate 16 0) ≤ 16 ∧
        ∀ i < cbcPadLen (List.replicate 16 107) (List.replicate 16 105) (List.replicate 16 0),
          (cbcDecryptedData (List.replicate 16 107) (List.replicate 16 105)
              (List.replicate 16 0)).getD
            ((cbcDecryptedData (List.replicate 16 107) (List.replicate 16 105)
              (List.replicate 16 0)).length - 1 - i) 0
            = cbcPadLen (List.replicate 16 107) (List.replicate 16 105) (List.replicate 16 0)) →
      modeCBCDecrypt (List.replicate 16 0) (List.replicate 16 107) (List.replicate 16 105)
          = Except.error "Invalid PKCS#7 padding."
        ∨ modeCBCDecrypt (List.replicate 16 0) (List.replicate 16 107) (List.replicate 16 105)
          = Except.error "Invalid PKCS#7 padding bytes.") :=
  ⟨⟨by decide, by decide⟩,
    (cbc_padding_validation (List.replicate 16 107) (List.replicate 16 105)
      (List.replicate 16 0) (by decide) (by decide)).1⟩

/-- C3 counterexample: the empty ciphertext has length 0 (a multiple of 16)
and decrypts to an empty result with no error, although the decrypted data is
empty, contradicting the claim that an invalid-padding error is thrown
whenever the decrypted data is not non-empty with valid padding. -/
theorem cbc_empty_ciphertext_ok :
    (([] : List Nat).length % 16 = 0)
    ∧ modeCBCDecrypt [] (List.replicate 16 107) (List.replicate 16 105) = Except.ok [] := by
  constructor
  · decide
  · unfold modeCBCDecrypt
    rw [if_neg (by decide), modeCBCDecryptGo_nil]
    rfl

/-! ## RC4 (src/lib/modern/rc4.ts) -/

/-- The destructuring swap `[s[i], s[j]] = [s[j], s[i]]` of rc4.ts on a
byte-array state. -/
def swapL (l : List Nat) (i j : Nat) : List Nat :=
  (l.set i (l.getD j 0)).set j (l.getD i 0)

/-- One iteration of the key-scheduling loop of `rc4`:
`j = (j + s[i] + key[i % key.length]) % 256` followed by the swap. -/
def ksaStep (key : List Nat) (sj : List Nat × Nat) (i : Nat) : List Nat × Nat :=
  (swapL sj.1 i ((sj.2 + sj.1.getD i 0 + key.getD (i % key.length) 0) % 256),
   (sj.2 + sj.1.getD i 0 + key.getD (i % key.length) 0) % 256)

/-- State and `j` after the KSA of `rc4`: `s` starts as `0..255`, `j` as 0,
and the scheduling loop runs for `i = 0..255`. -/
def rc4Init (key : List Nat) : List Nat × Nat :=
  (List.range 256).foldl (ksaStep key) (List.range 256, 0)

/-- One PRGA step of `rc4` on the triple `(s, i, j)`:
`i = (i + 1) % 256; j = (j + s[i]) % 256;` then the swap. -/
def prgaStep (t : List Nat × Nat × Nat) : List Nat × Nat × Nat :=
  (swapL t.1 ((t.2.1 + 1) % 256) ((t.2.2 + t.1.getD ((t.2.1 + 1) % 256) 0) % 256),
   (t.2.1 + 1) % 256,
   (t.2.2 + t.1.getD ((t.2.1 + 1) % 256) 0) % 256)

/-- The keystream byte `s[(s[i] + s[j]) % 256]` read from a PRGA triple. -/
def ksByte (t : List Nat × Nat × Nat) : Nat :=
  t.1.getD ((t.1.getD t.2.1 0 + t.1.getD t.2.2 0) % 256) 0

/-- The PRGA/XOR loop of `rc4`: for each input byte, advance the state one
step and store `input[k] ^ keyStreamByte` into the `Uint8Array` output. -/
def prgaGo : List Nat × Nat × Nat → List Nat → List Nat
  | _, [] => []
  | t, b :: rest => u8 (b ^^^ ksByte (prgaStep t)) :: prgaGo (prgaStep t) rest

/-- `rc4` of rc4.ts: KSA on the key, then the PRGA/XOR loop with `i = j = 0`. -/
def rc4 (key input : List Nat) : List Nat :=
  prgaGo ((rc4Init key).1, 0, 0) input

/-- `rc4Crypt` of rc4.ts.  `true` is `'encrypt'` (UTF-8 → RC4 → Base64),
`false` is `'decrypt'` (Base64 → RC4 → UTF-8, rejecting an empty decode of a
non-empty byte sequence). -/
def rc4Crypt (text key : List Nat) : Bool → Except String (List Nat)
  | true => Except.ok (bytesToBase64 (rc4 (stringToUtf8Bytes key) (stringToUtf8Bytes text)))
  | false =>
    if utf8BytesToString (rc4 (stringToUtf8Bytes key) (base64ToBytes text)) = [] ∧
        0 < (rc4 (stringToUtf8Bytes key) (base64ToBytes text)).length then
      Except.error "RC4 operation failed. Ensure key and input format are correct."
    else Except.ok (utf8BytesToString (rc4 (stringToUtf8Bytes key) (base64ToBytes text)))

theorem rc4Crypt_false (text key : List Nat) : rc4Crypt text key false =
    if utf8BytesToString (rc4 (stringToUtf8Bytes key) (base64ToBytes text)) = [] ∧
        0 < (rc4 (stringToUtf8Bytes key) (base64ToBytes text)).length then
      Except.error "RC4 operation failed. Ensure key and input format are correct."
    else Except.ok (utf8BytesToString (rc4 (stringToUtf8Bytes key) (base64ToBytes text))) := rfl

theorem swapL_lt {l : List Nat} {c : Nat} (hc : 0 < c) (h : ∀ x ∈ l, x < c) (i j : Nat) :
    ∀ x ∈ swapL l i j, x < c := by
  intro x hx
  unfold swapL at hx
  rcases List.mem_or_eq_of_mem_set hx with hx | rfl
  · rcases List.mem_or_eq_of_mem_set hx with hx | rfl
    · exact h x hx
    · exact getD_lt_of_forall hc h j
  · exact getD_lt_of_forall hc h i

theorem getD_cons_set_perm : ∀ (t : List Nat) (k a : Nat), k < t.length →
    List.Perm (t.getD k 0 :: t.set k a) (a :: t) := by
  intro t
  induction t with
  | nil => intro k a hk; simp at hk
  | cons h tl ih =>
    intro k a hk
    cases k with
    | zero =>
      simp only [List.getD_cons_zero, List.set_cons_zero]
      exact List.Perm.swap a h tl
    | succ k =>
      simp only [List.getD_cons_succ, List.set_cons_succ, List.length_cons] at *
      refine List.Perm.trans (List.Perm.swap h (tl.getD k 0) (tl.set k a)) ?_
      exact List.Perm.trans (List.Perm.cons h (ih k a (by omega))) (List.Perm.swap a h tl)

theorem swapL_perm : ∀ (l : List Nat) (i j : Nat), i < l.length → j < l.length →
    List.Perm (swapL l i j) l := by
  intro l
  induction l with
  | nil => intro i j hi _; simp at hi
  | cons h tl ih =>
    intro i j hi hj
    simp only [List.length_cons] at hi hj
    cases i with
    | zero =>
      cases j with
      | zero =>
        simp only [swapL, List.getD_cons_zero, List.set_cons_zero]
        exact List.Perm.refl _
      | succ k =>
        have e : swapL (h :: tl) 0 (k + 1) = tl.getD k 0 :: tl.set k h := by
          simp only [swapL, List.getD_cons_zero, List.getD_cons_succ, List.set_cons_zero,
            List.set_cons_succ]
        rw [e]
        exact getD_cons_set_perm tl k h (by omega)
    | succ m =>
      cases j with
      | zero =>
        have e : swapL (h :: tl) (m + 1) 0 = tl.getD m 0 :: tl.set m h := by
          simp only [swapL, List.getD_cons_zero, List.getD_cons_succ, List.set_cons_zero,
            List.set_cons_succ]
        rw [e]
        exact getD_cons_set_perm tl m h (by omega)
      | succ k =>
        have e : swapL (h :: tl) (m + 1) (k + 1) = h :: swapL tl m k := by
          simp only [swapL, List.getD_cons_succ, List.set_cons_succ]
        rw [e]
        exact List.Perm.cons h (ih m k (by omega) (by omega))

theorem perm_range_lt {s : List Nat} (h : List.Perm s (List.range 256)) :
    ∀ x ∈ s, x < 256 :=
  fun x hx => List.mem_range.mp (h.mem_iff.mp hx)

theorem foldl_ksa_perm (key : List Nat) : ∀ (l : List Nat) (s : List Nat) (j : Nat),
    (∀ i ∈ l, i < 256) → List.Perm s (List.range 256) →
    List.Perm ((l.foldl (ksaStep key) (s, j)).1) (List.range 256) := by
  intro l
  induction l with
  | nil => intro s j _ h; exact h
  | cons i rest ih =>
    intro s j hl h
    rw [List.foldl_cons]
    have hlen : s.length = 256 := by rw [h.length_eq, List.length_range]
    have hstep : ksaStep key (s, j) i =
        (swapL s i ((j + s.getD i 0 + key.getD (i % key.length) 0) % 256),
         (j + s.getD i 0 + key.getD (i % key.length) 0) % 256) := rfl
    rw [hstep]
    refine ih _ _ (fun x hx => hl x (by simp [hx])) ?_
    refine List.Perm.trans (swapL_perm _ _ _ ?_ ?_) h
    · rw [hlen]; exact hl i (by simp)
    · rw [hlen]; exact Nat.mod_lt _ (by norm_num)

theorem rc4Init_perm (key : List Nat) : List.Perm (rc4Init key).1 (List.range 256) := by
  unfold rc4Init
  exact foldl_ksa_perm key (List.range 256) (List.range 256) 0
    (fun i hi => List.mem_range.mp hi) (List.Perm.refl _)

theorem fst_mk3 (s : List Nat) (i j : Nat) : ((s, i, j) : List Nat × Nat × Nat).1 = s := rfl

theorem prgaStep_perm {t : List Nat × Nat × Nat}
    (h : List.Perm t.1 (List.range 256)) : List.Perm (prgaStep t).1 (List.range 256) := by
  have hlen : t.1.length = 256 := by rw [h.length_eq]; simp
  show List.Perm (swapL t.1 _ _) (List.range 256)
  refine List.Perm.trans (swapL_perm _ _ _ ?_ ?_) h
  · rw [hlen]; exact Nat.mod_lt _ (by norm_num)
  · rw [hlen]; exact Nat.mod_lt _ (by norm_num)

theorem prgaStep_lt {t : List Nat × Nat × Nat} (h : ∀ x ∈ t.1, x < 256) :
    ∀ x ∈ (prgaStep t).1, x < 256 :=
  swapL_lt (by norm_num) h _ _

theorem ksByte_lt {t : List Nat × Nat × Nat} (h : ∀ x ∈ t.1, x < 256) : ksByte t < 256 :=
  getD_lt_of_forall (by norm_num) h _

theorem prgaGo_nil (t : List Nat × Nat × Nat) : prgaGo t [] = [] := rfl

theorem prgaGo_cons (t : List Nat × Nat × Nat) (b : Nat) (rest : List Nat) :
    prgaGo t (b :: rest) = u8 (b ^^^ ksByte (prgaStep t)) :: prgaGo (prgaStep t) rest := rfl

theorem prgaGo_lt : ∀ (data : List Nat) (t : List Nat × Nat × Nat),
    ∀ x ∈ prgaGo t data, x < 256 := by
  intro data
  induction data with
  | nil => intro t x hx; rw [prgaGo_nil] at hx; simp at hx
  | cons b rest ih =>
    intro t x hx
    rw [prgaGo_cons] at hx
    rcases List.mem_cons.mp hx with rfl | hx
    · exact Nat.mod_lt _ (by norm_num)
    · exact ih (prgaStep t) x hx

theorem rc4_lt (key data : List Nat) : ∀ x ∈ rc4 key data, x < 256 :=
  prgaGo_lt data _

theorem prgaGo_prgaGo : ∀ (data : List Nat) (t : List Nat × Nat × Nat),
    (∀ x ∈ t.1, x < 256) → (∀ x ∈ data, x < 256) →
    prgaGo t (prgaGo t data) = data := by
  intro data
  induction data with
  | nil => intro t _ _; rfl
  | cons b rest ih =>
    intro t hs hd
    have hb : b < 256 := hd b (by simp)
    have hks : ksByte (prgaStep t) < 256 := ksByte_lt (prgaStep_lt hs)
    have hbx : b ^^^ ksByte (prgaStep t) < 256 := by
      have : b ^^^ ksByte (prgaStep t) < 2 ^ 8 :=
        Nat.xor_lt_two_pow (by omega) (by omega)
      omega
    rw [prgaGo_cons, prgaGo_cons, u8_eq hbx, Nat.xor_cancel_right, u8_eq hb,
      ih (prgaStep t) (prgaStep_lt hs) (fun x hx => hd x (by simp [hx]))]

theorem rc4_rc4 {key data : List Nat} (hd : ∀ x ∈ data, x < 256) :
    rc4 key (rc4 key data) = data := by
  unfold rc4
  refine prgaGo_prgaGo data ((rc4Init key).1, 0, 0) ?_ hd
  simp only [fst_mk3]
  exact perm_range_lt (rc4Init_perm key)

theorem iter_perm (t : List Nat × Nat × Nat) (h : List.Perm t.1 (List.range 256)) :
    ∀ n : Nat, List.Perm ((prgaStep^[n] t).1) (List.range 256) := by
  intro n
  induction n with
  | zero => rw [Function.iterate_zero_apply]; exact h
  | succ n ih =>
    rw [Function.iterate_succ_apply']
    exact prgaStep_perm ih

/-- C6: for every non-empty key `K` and well-formed message `M`,
`rc4Crypt(rc4Crypt(M, K, 'encrypt'), K, 'decrypt')` returns `M` (the encrypt
branch never throws, so the composition is stated through the produced
ciphertext), and `rc4Crypt` is deterministic: the embedding is a pure
function, so two invocations on the same inputs are equal. -/
theorem rc4_roundtrip (M K : List Nat) (hM : WfText M) (hK : WfText K)
    (hKne : K ≠ []) :
    (∃ C, rc4Crypt M K true = Except.ok C ∧ rc4Crypt C K false = Except.ok M) ∧
    rc4Crypt M K true = rc4Crypt M K true := by
  refine ⟨⟨bytesToBase64 (rc4 (stringToUtf8Bytes K) (stringToUtf8Bytes M)), rfl, ?_⟩, rfl⟩
  have hcond : ¬(M = [] ∧ 0 < (stringToUtf8Bytes M).length) := by
    rintro ⟨rfl, hlen⟩
    simp [stringToUtf8Bytes] at hlen
  rw [rc4Crypt_false, base64_roundtrip (rc4_lt _ _),
    rc4_rc4 (stringToUtf8Bytes_lt hM), utf8_roundtrip hM, if_neg hcond]

theorem rc4_roundtrip_witness :
    (∃ C, rc4Crypt [104, 105] [107] true = Except.ok C ∧
      rc4Crypt C [107] false = Except.ok [104, 105]) ∧
    rc4Crypt [104, 105] [107] true = rc4Crypt [104, 105] [107] true :=
  rc4_roundtrip [104, 105] [107] (by unfold WfText isScalar; decide)
    (by unfold WfText isScalar; decide) (by decide)

/-- C10: for every non-empty key, the RC4 state is a permutation of
`0..255` after the KSA, remains one after every PRGA step (each step is a
single two-entry swap), and hence every keystream byte read from the state
is a value below 256. -/
theorem rc4_state_permutation (key : List Nat) (_hk : key ≠ []) :
    List.Perm (rc4Init key).1 (List.range 256) ∧
    (∀ n : Nat, List.Perm ((prgaStep^[n] ((rc4Init key).1, 0, 0)).1) (List.range 256)) ∧
    (∀ n : Nat, ksByte (prgaStep^[n] ((rc4Init key).1, 0, 0)) < 256) := by
  have h0 : List.Perm (rc4Init key).1 (List.range 256) := rc4Init_perm key
  have hiter : ∀ n : Nat,
      List.Perm ((prgaStep^[n] ((rc4Init key).1, 0, 0)).1) (List.range 256) := by
    refine iter_perm _ ?_
    rw [fst_mk3]
    exact rc4Init_perm key
  exact ⟨h0, hiter, fun n => ksByte_lt (perm_range_lt (hiter n))⟩

theorem rc4_state_permutation_witness :
    ([107] : List Nat) ≠ [] ∧
    (List.Perm (rc4Init [107]).1 (List.range 256) ∧
     (∀ n : Nat, List.Perm ((prgaStep^[n] ((rc4Init [107]).1, 0, 0)).1) (List.range 256)) ∧
     (∀ n : Nat, ksByte (prgaStep^[n] ((rc4Init [107]).1, 0, 0)) < 256)) :=
  ⟨by decide, rc4_state_permutation [107] (by decide)⟩

/-! ## Hill cipher (hill.ts, helpers.ts, crypto.service.ts) -/


/-- A 3x3 integer key matrix (`number[][]` of helpers.ts, row major). -/
structure Matrix3 where
  m00 : Int
  m01 : Int
  m02 : Int
  m10 : Int
  m11 : Int
  m12 : Int
  m20 : Int
  m21 : Int
  m22 : Int

/-- `determinant3x3` of helpers.ts. -/
def determinant3x3 (m : Matrix3) : Int :=
  m.m00 * (m.m11 * m.m22 - m.m12 * m.m21) -
  m.m01 * (m.m10 * m.m22 - m.m12 * m.m20) +
  m.m02 * (m.m10 * m.m21 - m.m11 * m.m20)

/-- `modInverse` of helpers.ts: normalize `a` to `((a % m) + m) % m` (JS `%`
is the truncating remainder `Int.tmod`), then return the first `x` in
`1 .. m-1` with `(a * x) % m === 1`, and `-1` when none exists. -/
def modInverse (a m : Int) : Int :=
  match ((List.range m.toNat).drop 1).find?
      (fun x => ((a.tmod m + m).tmod m * (x : Int)).tmod m == 1) with
  | some x => (x : Int)
  | none => -1

/-- `adjugate3x3` of helpers.ts. -/
def adjugate3x3 (m : Matrix3) : Matrix3 :=
  ⟨m.m11 * m.m22 - m.m12 * m.m21,
   m.m02 * m.m21 - m.m01 * m.m22,
   m.m01 * m.m12 - m.m02 * m.m11,
   m.m12 * m.m20 - m.m10 * m.m22,
   m.m00 * m.m22 - m.m02 * m.m20,
   m.m02 * m.m10 - m.m00 * m.m12,
   m.m10 * m.m21 - m.m11 * m.m20,
   m.m01 * m.m20 - m.m00 * m.m21,
   m.m00 * m.m11 - m.m01 * m.m10⟩

/-- One cell of the `inverseMatrix` computation of `hillDecrypt`:
`(((cell * detInv) % 26) + 26) % 26`. -/
def matCellInv (k cell : Int) : Int := ((cell * k).tmod 26 + 26).tmod 26

/-- The `adj.map(row => row.map(cell => ...))` step of `hillDecrypt`. -/
def matMod26Mul (m : Matrix3) (k : Int) : Matrix3 :=
  ⟨matCellInv k m.m00, matCellInv k m.m01, matCellInv k m.m02,
   matCellInv k m.m10, matCellInv k m.m11, matCellInv k m.m12,
   matCellInv k m.m20, matCellInv k m.m21, matCellInv k m.m22⟩

/-- The `modDet` intermediate of `hillEncrypt`/`hillDecrypt`:
`((det % 26) + 26) % 26` with JS truncating `%`. -/
def modDet3 (m : Matrix3) : Int := ((determinant3x3 m).tmod 26 + 26).tmod 26

/-- Modelled from the spec: the platform `toUpperCase` restricted to ASCII
letters (only A-Z survives the following filter either way). -/
def upAscii (c : Nat) : Nat := if 97 ≤ c ∧ c ≤ 122 then c - 32 else c

/-- `cleanText` of hill.ts: uppercase, then keep only `A`-`Z`. -/
def cleanText (t : List Nat) : List Nat :=
  (t.map upAscii).filter (fun c => 65 ≤ c ∧ c ≤ 90)

/-- The `while (text.length % 3 !== 0) text += 'X'` padding loop of
`hillEncrypt` in closed form. -/
def padX (t : List Nat) : List Nat := t ++ List.replicate ((3 - t.length % 3) % 3) 88

/-- `processBlock` of hill.ts: matrix-vector product mod 26, re-encoded as
`A`-`Z` char codes. -/
def processBlock (b0 b1 b2 : Int) (m : Matrix3) : List Nat :=
  [(((m.m00 * b0 + m.m01 * b1 + m.m02 * b2).tmod 26 + 26).tmod 26).toNat + 65,
   (((m.m10 * b0 + m.m11 * b1 + m.m12 * b2).tmod 26 + 26).tmod 26).toNat + 65,
   (((m.m20 * b0 + m.m21 * b1 + m.m22 * b2).tmod 26 + 26).tmod 26).toNat + 65]

/-- The 3-char block loop shared by `hillEncrypt`/`hillDecrypt`
(`text.charCodeAt(i) - 65` per position).  A trailing incomplete block (only
reachable in `hillDecrypt`, whose input is not padded) would read `NaN` char
codes in JS and is out of scope of the claims; it contributes nothing here. -/
def hillBlocksGo (m : Matrix3) : List Nat → List Nat
  | c1 :: c2 :: c3 :: rest =>
    processBlock ((c1 : Int) - 65) ((c2 : Int) - 65) ((c3 : Int) - 65) m ++ hillBlocksGo m rest
  | _ => []

/-- `ERROR_NON_INVERTIBLE` of hill.ts. -/
def ERROR_NON_INVERTIBLE : String :=
  "Invalid key. The key must form a matrix that is mathematically invertible. Please try a different 9-letter key."

/-- `hillEncrypt` of hill.ts. -/
def hillEncrypt (plaintext : List Nat) (m : Matrix3) : Except String (List Nat) :=
  if modInverse (modDet3 m) 26 = -1 then Except.error ERROR_NON_INVERTIBLE
  else Except.ok (hillBlocksGo m (padX (cleanText plaintext)))

/-- `hillDecrypt` of hill.ts. -/
def hillDecrypt (ciphertext : List Nat) (m : Matrix3) : Except String (List Nat) :=
  if modInverse (modDet3 m) 26 = -1 then Except.error ERROR_NON_INVERTIBLE
  else Except.ok (hillBlocksGo
    (matMod26Mul (adjugate3x3 m) (modInverse (modDet3 m) 26)) (cleanText ciphertext))

/-- `keyToMatrix` of crypto.service.ts: `key.charCodeAt(i) - 65` filled row
major into a 3x3 matrix. -/
def keyToMatrix (k : List Nat) : Matrix3 :=
  ⟨(k.getD 0 0 : Int) - 65, (k.getD 1 0 : Int) - 65, (k.getD 2 0 : Int) - 65,
   (k.getD 3 0 : Int) - 65, (k.getD 4 0 : Int) - 65, (k.getD 5 0 : Int) - 65,
   (k.getD 6 0 : Int) - 65, (k.getD 7 0 : Int) - 65, (k.getD 8 0 : Int) - 65⟩

theorem tmod_lower (a : Int) {b : Int} (hb : 0 < b) : -b < a.tmod b := by
  cases a with
  | ofNat m =>
    have h0 : (0:Int) ≤ Int.ofNat m := by
      rw [← Int.ofNat_zero]
      exact Int.ofNat_le.mpr (Nat.zero_le m)
    have h := Int.tmod_nonneg b h0
    omega
  | negSucc m =>
    have h1 : Int.tmod (Int.negSucc m) b = -Int.tmod (Int.ofNat (m + 1)) b := by
      cases b with
      | ofNat n => rfl
      | negSucc n => rfl
    have h2 := Int.tmod_lt_of_pos (Int.ofNat (m + 1)) hb
    omega

theorem modDet3_bounds (m : Matrix3) : 0 ≤ modDet3 m ∧ modDet3 m < 26 := by
  unfold modDet3
  have h1 := tmod_lower (determinant3x3 m) (show (0:Int) < 26 by norm_num)
  have h3 : (0:Int) ≤ (determinant3x3 m).tmod 26 + 26 := by omega
  exact ⟨Int.tmod_nonneg 26 h3, Int.tmod_lt_of_pos _ (by norm_num)⟩

set_option maxRecDepth 8192 in
theorem modInverse26_gcd : ∀ d : Fin 26,
    (modInverse (d.val : Int) 26 = -1 ↔ Nat.gcd d.val 26 ≠ 1) := by decide

theorem int_gcd_nonneg_toNat {d : Int} (h0 : 0 ≤ d) :
    Int.gcd d 26 = Nat.gcd d.toNat 26 := by
  unfold Int.gcd
  congr 1 <;> omega

/-- C5: for a 3x3 key matrix with entries in `[0, 26)`, `hillEncrypt` and
`hillDecrypt` throw the non-invertible-key error exactly when
`gcd(det mod 26, 26) ≠ 1`; the matrix of the key `GYBNQKURP` is accepted and
the all-zero-except-diagonal-2 matrix is rejected. -/
theorem hill_noninvertible_key (m : Matrix3) (text : List Nat)
    (hm : ∀ x ∈ [m.m00, m.m01, m.m02, m.m10, m.m11, m.m12, m.m20, m.m21, m.m22],
      0 ≤ x ∧ x < 26) :
    (Int.gcd (modDet3 m) 26 ≠ 1 →
      hillEncrypt text m = Except.error ERROR_NON_INVERTIBLE ∧
      hillDecrypt text m = Except.error ERROR_NON_INVERTIBLE) ∧
    (Int.gcd (modDet3 m) 26 = 1 →
      (∃ ct, hillEncrypt text m = Except.ok ct) ∧
      (∃ pt, hillDecrypt text m = Except.ok pt)) ∧
    (∃ ct, hillEncrypt text (keyToMatrix [71, 89, 66, 78, 81, 75, 85, 82, 80]) = Except.ok ct) ∧
    hillEncrypt text (⟨2, 0, 0, 0, 2, 0, 0, 0, 2⟩ : Matrix3) = Except.error ERROR_NON_INVERTIBLE := by
  have hb := modDet3_bounds m
  have hlt : (modDet3 m).toNat < 26 := by omega
  have key : modInverse (((modDet3 m).toNat : Nat) : Int) 26 = -1 ↔
      Nat.gcd (modDet3 m).toNat 26 ≠ 1 := modInverse26_gcd ⟨(modDet3 m).toNat, hlt⟩
  rw [Int.toNat_of_nonneg hb.1] at key
  have hiff : modInverse (modDet3 m) 26 = -1 ↔ Int.gcd (modDet3 m) 26 ≠ 1 := by
    rw [int_gcd_nonneg_toNat hb.1]
    exact key
  refine ⟨?_, ?_, ?_, ?_⟩
  · intro hg
    have he : modInverse (modDet3 m) 26 = -1 := hiff.mpr hg
    constructor
    · unfold hillEncrypt; rw [if_pos he]
    · unfold hillDecrypt; rw [if_pos he]
  · intro hg
    have he : ¬(modInverse (modDet3 m) 26 = -1) := fun h => (hiff.mp h) hg
    constructor
    · exact ⟨hillBlocksGo m (padX (cleanText text)),
        by unfold hillEncrypt; rw [if_neg he]⟩
    · exact ⟨hillBlocksGo (matMod26Mul (adjugate3x3 m) (modInverse (modDet3 m) 26))
          (cleanText text),
        by unfold hillDecrypt; rw [if_neg he]⟩
  · exact ⟨hillBlocksGo (keyToMatrix [71, 89, 66, 78, 81, 75, 85, 82, 80])
        (padX (cleanText text)),
      by unfold hillEncrypt; rw [if_neg (by decide)]⟩
  · unfold hillEncrypt
    rw [if_pos (by decide)]

theorem hill_noninvertible_key_witness :
    (∀ x ∈ [(1:Int), 0, 0, 0, 1, 0, 0, 0, 1], 0 ≤ x ∧ x < 26) ∧
    ((Int.gcd (modDet3 (⟨1, 0, 0, 0, 1, 0, 0, 0, 1⟩ : Matrix3)) 26 ≠ 1 →
      hillEncrypt [] (⟨1, 0, 0, 0, 1, 0, 0, 0, 1⟩ : Matrix3) =
        Except.error ERROR_NON_INVERTIBLE ∧
      hillDecrypt [] (⟨1, 0, 0, 0, 1, 0, 0, 0, 1⟩ : Matrix3) =
        Except.error ERROR_NON_INVERTIBLE) ∧
    (Int.gcd (modDet3 (⟨1, 0, 0, 0, 1, 0, 0, 0, 1⟩ : Matrix3)) 26 = 1 →
      (∃ ct, hillEncrypt [] (⟨1, 0, 0, 0, 1, 0, 0, 0, 1⟩ : Matrix3) = Except.ok ct) ∧
      (∃ pt, hillDecrypt [] (⟨1, 0, 0, 0, 1, 0, 0, 0, 1⟩ : Matrix3) = Except.ok pt)) ∧
    (∃ ct, hillEncrypt [] (keyToMatrix [71, 89, 66, 78, 81, 75, 85, 82, 80]) =
      Except.ok ct) ∧
    hillEncrypt [] (⟨2, 0, 0, 0, 2, 0, 0, 0, 2⟩ : Matrix3) =
      Except.error ERROR_NON_INVERTIBLE) :=
  ⟨by decide, hill_noninvertible_key ⟨1, 0, 0, 0, 1, 0, 0, 0, 1⟩ [] (by decide)⟩

/-! ## Columnar transposition (columnar.ts) -/


/-- The `[...new Set(...)]` deduplication of `cleanKey`, keeping first
occurrences in insertion order (JS `Set` iteration order). -/
def dedupGo (seen : List Nat) : List Nat → List Nat
  | [] => []
  | c :: rest => if c ∈ seen then dedupGo seen rest else c :: dedupGo (c :: seen) rest

/-- `cleanKey` of columnar.ts: uppercase, keep `A`-`Z`, deduplicate. -/
def cleanKey (k : List Nat) : List Nat := dedupGo [] (cleanText k)

/-- The `sortedKey` of columnar.ts, reduced to its used `index` field:
`(char, index)` pairs sorted by character (`localeCompare` on distinct
uppercase `A`-`Z` letters is char-code order, modelled from the spec). -/
def sortedKeyIndices (cKey : List Nat) : List Nat :=
  ((cKey.enum.map (fun p => (p.2, p.1))).mergeSort (fun a b => decide (a.1 ≤ b.1))).map
    (fun p => p.2)

/-- `numCols = cKey.length`. -/
def numColsOf (key : List Nat) : Nat := (cleanKey key).length

/-- `numRows = Math.ceil(len / numCols)` on naturals. -/
def numRowsFor (len numCols : Nat) : Nat := (len + numCols - 1) / numCols

/-- `paddedText = plaintext.padEnd(numRows * numCols, 'x')` (char 120). -/
def paddedText (P : List Nat) (numCols : Nat) : List Nat :=
  P ++ List.replicate (numRowsFor P.length numCols * numCols - P.length) 120

/-- The ciphertext-building double loop of `columnarEncrypt`:
`grid[row][index]` is `paddedText[row * numCols + index]`. -/
def encGo (padded : List Nat) (numCols numRows : Nat) : List Nat → List Nat
  | [] => []
  | idx :: rest =>
    (List.range numRows).map (fun row => padded.getD (row * numCols + idx) 0) ++
      encGo padded numCols numRows rest

/-- `columnarEncrypt` of columnar.ts. -/
def columnarEncrypt (P key : List Nat) : List Nat :=
  encGo (paddedText P (numColsOf key)) (numColsOf key)
    (numRowsFor P.length (numColsOf key)) (sortedKeyIndices (cleanKey key))

/-- The inner row loop of `columnarDecrypt`:
`grid[row][index] = ciphertext[cipherIndex++]` for `row = r .. r+n-1`. -/
def writeColGo (idx : Nat) (C : List Nat) (ci : Nat) :
    Nat → Nat → List (List Nat) → List (List Nat)
  | _, 0, g => g
  | r, Nat.succ k, g =>
    writeColGo idx C ci (r + 1) k (g.set r ((g.getD r []).set idx (C.getD (ci + r) 0)))

/-- The outer loop of `columnarDecrypt` over the sorted key indices;
`cipherIndex` advances by `numRows` per column. -/
def decGo (C : List Nat) (numRows : Nat) : List Nat → Nat → List (List Nat) → List (List Nat)
  | [], _, g => g
  | idx :: rest, ci, g => decGo C numRows rest (ci + numRows) (writeColGo idx C ci 0 numRows g)

/-- `columnarDecrypt` of columnar.ts.  The initial grid of `''` cells is
modelled with placeholder `0`; the sorted indices are a permutation of all
columns, so every cell is overwritten before the final row-major read. -/
def columnarDecrypt (C key : List Nat) : Except String (List Nat) :=
  if C.length ≠ numColsOf key * numRowsFor C.length (numColsOf key) then
    Except.error "Invalid ciphertext length for the given key."
  else
    Except.ok ((decGo C (numRowsFor C.length (numColsOf key)) (sortedKeyIndices (cleanKey key)) 0
      (List.replicate (numRowsFor C.length (numColsOf key))
        (List.replicate (numColsOf key) 0))).flatten)

theorem getD_set_self' {α : Type} (l : List α) (i : Nat) (a d : α) (h : i < l.length) :
    (l.set i a).getD i d = a := by
  rw [List.getD_eq_getElem?_getD, List.getElem?_set]
  simp [h]

theorem getD_set_neq {α : Type} (l : List α) (i j : Nat) (a d : α) (h : i ≠ j) :
    (l.set i a).getD j d = l.getD j d := by
  rw [List.getD_eq_getElem?_getD, List.getElem?_set, if_neg h, ← List.getD_eq_getElem?_getD]

theorem writeColGo_length (idx : Nat) (C : List Nat) (ci : Nat) :
    ∀ (n r : Nat) (g : List (List Nat)), (writeColGo idx C ci r n g).length = g.length := by
  intro n
  induction n with
  | zero => intro r g; rfl
  | succ k ih =>
    intro r g
    show (writeColGo idx C ci (r + 1) k _).length = _
    rw [ih]
    simp

theorem writeColGo_row_length (idx : Nat) (C : List Nat) (ci : Nat) :
    ∀ (n r : Nat) (g : List (List Nat)) (row : Nat),
      ((writeColGo idx C ci r n g).getD row []).length = ((g.getD row []).length) := by
  intro n
  induction n with
  | zero => intro r g row; rfl
  | succ k ih =>
    intro r g row
    show ((writeColGo idx C ci (r + 1) k _).getD row []).length = _
    rw [ih]
    by_cases hr : r = row
    · subst hr
      by_cases hlen : r < g.length
      · rw [getD_set_self' _ _ _ _ hlen]
        simp
      · rw [List.set_eq_of_length_le (by omega)]
    · rw [getD_set_neq _ _ _ _ _ hr]

theorem writeColGo_row_out (idx : Nat) (C : List Nat) (ci : Nat) :
    ∀ (n r : Nat) (g : List (List Nat)) (row : Nat), (row < r ∨ r + n ≤ row) →
      (writeColGo idx C ci r n g).getD row [] = g.getD row [] := by
  intro n
  induction n with
  | zero => intro r g row _; rfl
  | succ k ih =>
    intro r g row hrow
    show (writeColGo idx C ci (r + 1) k _).getD row [] = _
    rw [ih _ _ row (by omega)]
    rw [getD_set_neq _ _ _ _ _ (by omega)]

theorem writeColGo_other (idx : Nat) (C : List Nat) (ci : Nat) :
    ∀ (n r : Nat) (g : List (List Nat)) (row col : Nat), col ≠ idx →
      ((writeColGo idx C ci r n g).getD row []).getD col 0 =
        (g.getD row []).getD col 0 := by
  intro n
  induction n with
  | zero => intro r g row col _; rfl
  | succ k ih =>
    intro r g row col hcol
    show ((writeColGo idx C ci (r + 1) k _).getD row []).getD col 0 = _
    rw [ih _ _ row col hcol]
    by_cases hr : r = row
    · subst hr
      by_cases hlen : r < g.length
      · rw [getD_set_self' _ _ _ _ hlen, getD_set_neq _ _ _ _ _ (fun h => hcol h.symm)]
      · rw [List.set_eq_of_length_le (by omega)]
    · rw [getD_set_neq _ _ _ _ _ hr]

theorem writeColGo_idx (idx : Nat) (C : List Nat) (ci : Nat) :
    ∀ (n r : Nat) (g : List (List Nat)) (row : Nat),
      r ≤ row → row < r + n → row < g.length → idx < (g.getD row []).length →
      ((writeColGo idx C ci r n g).getD row []).getD idx 0 = C.getD (ci + row) 0 := by
  intro n
  induction n with
  | zero => intro r g row h1 h2; omega
  | succ k ih =>
    intro r g row h1 h2 hrow hidx
    show ((writeColGo idx C ci (r + 1) k _).getD row []).getD idx 0 = _
    by_cases hr : r = row
    · subst hr
      rw [writeColGo_row_out _ _ _ _ _ _ _ (Or.inl (by omega))]
      rw [getD_set_self' _ _ _ _ hrow, getD_set_self' _ _ _ _ hidx]
    · refine ih (r + 1) _ row (by omega) (by omega) (by simpa using hrow) ?_
      rw [getD_set_neq _ _ _ _ _ hr]
      exact hidx

theorem decGo_length (C : List Nat) (nR : Nat) :
    ∀ (σs : List Nat) (ci : Nat) (g : List (List Nat)),
      (decGo C nR σs ci g).length = g.length := by
  intro σs
  induction σs with
  | nil => intro ci g; rfl
  | cons idx rest ih =>
    intro ci g
    show (decGo C nR rest _ _).length = _
    rw [ih, writeColGo_length]

theorem decGo_row_length (C : List Nat) (nR : Nat) :
    ∀ (σs : List Nat) (ci : Nat) (g : List (List Nat)) (row : Nat),
      ((decGo C nR σs ci g).getD row []).length = (g.getD row []).length := by
  intro σs
  induction σs with
  | nil => intro ci g row; rfl
  | cons idx rest ih =>
    intro ci g row
    show ((decGo C nR rest _ _).getD row []).length = _
    rw [ih, writeColGo_row_length]

theorem decGo_notmem (C : List Nat) (nR : Nat) :
    ∀ (σs : List Nat) (ci : Nat) (g : List (List Nat)) (row col : Nat), col ∉ σs →
      ((decGo C nR σs ci g).getD row []).getD col 0 = (g.getD row []).getD col 0 := by
  intro σs
  induction σs with
  | nil => intro ci g row col _; rfl
  | cons idx rest ih =>
    intro ci g row col hcol
    show ((decGo C nR rest _ _).getD row []).getD col 0 = _
    rw [ih _ _ row col (fun h => hcol (List.mem_cons_of_mem _ h)),
      writeColGo_other _ _ _ _ _ _ row col (fun h => hcol (h ▸ List.mem_cons_self idx rest))]

theorem decGo_mem (C : List Nat) (nR nC : Nat) :
    ∀ (σs : List Nat) (ci : Nat) (g : List (List Nat)) (row col : Nat),
      σs.Nodup → (∀ x ∈ σs, x < nC) → col ∈ σs → row < nR → row < g.length →
      (∀ i, i < g.length → (g.getD i []).length = nC) →
      ((decGo C nR σs ci g).getD row []).getD col 0 =
        C.getD (ci + List.indexOf col σs * nR + row) 0 := by
  intro σs
  induction σs with
  | nil => intro ci g row col _ _ hmem; simp at hmem
  | cons idx rest ih =>
    intro ci g row col hnd hlt hmem hrownR hrow hshape
    show ((decGo C nR rest _ _).getD row []).getD col 0 = _
    by_cases hc : col = idx
    · subst hc
      have hnotin : col ∉ rest := (List.nodup_cons.mp hnd).1
      rw [decGo_notmem _ _ _ _ _ row col hnotin]
      rw [writeColGo_idx _ _ _ _ _ _ row (by omega) (by omega) hrow ?_]
      · rw [List.indexOf_cons_self]
        simp
      · rw [hshape row hrow]
        exact hlt col (List.mem_cons_self _ _)
    · rw [List.indexOf_cons_ne _ (fun h => hc h.symm)]
      have hmem' : col ∈ rest := by
        rcases List.mem_cons.mp hmem with h | h
        · exact absurd h hc
        · exact h
      rw [ih (ci + nR) _ row col (List.nodup_cons.mp hnd).2
        (fun x hx => hlt x (List.mem_cons_of_mem _ hx)) hmem' hrownR
        (by rw [writeColGo_length]; exact hrow) ?_]
      · rw [Nat.succ_mul]
        congr 1
        omega
      · intro i hi
        rw [writeColGo_row_length]
        rw [writeColGo_length] at hi
        exact hshape i hi

theorem getD_append_left {l l' : List Nat} {n : Nat} (h : n < l.length) :
    (l ++ l').getD n 0 = l.getD n 0 :=
  List.getD_append l l' 0 n h

theorem encGo_length (padded : List Nat) (nC nR : Nat) :
    ∀ σs : List Nat, (encGo padded nC nR σs).length = σs.length * nR := by
  intro σs
  induction σs with
  | nil => simp [encGo]
  | cons idx rest ih =>
    show ((List.range nR).map _ ++ encGo padded nC nR rest).length = _
    rw [List.length_append, List.length_map, List.length_range, ih, List.length_cons,
      Nat.succ_mul]
    omega

theorem encGo_getD (padded : List Nat) (nC nR : Nat) :
    ∀ (σs : List Nat) (k row : Nat), k < σs.length → row < nR →
      (encGo padded nC nR σs).getD (k * nR + row) 0 =
        padded.getD (row * nC + σs.getD k 0) 0 := by
  intro σs
  induction σs with
  | nil => intro k row hk; simp at hk
  | cons idx rest ih =>
    intro k row hk hrow
    show ((List.range nR).map _ ++ encGo padded nC nR rest).getD _ 0 = _
    cases k with
    | zero =>
      rw [Nat.zero_mul, Nat.zero_add,
        getD_append_left (by rw [List.length_map, List.length_range]; exact hrow),
        getD_map_range hrow]
      rfl
    | succ k =>
      have hlen : ((List.range nR).map
          (fun row => padded.getD (row * nC + idx) 0)).length = nR := by
        rw [List.length_map, List.length_range]
      rw [getD_append_right' (by rw [hlen, Nat.succ_mul]; omega)]
      rw [hlen]
      have e : (k + 1) * nR + row - nR = k * nR + row := by
        rw [Nat.succ_mul]
        omega
      rw [e, ih k row (by simpa using hk) hrow]
      rfl

theorem flatten_eq (nC : Nat) : ∀ (g : List (List Nat)) (p : List Nat),
    (∀ i, i < g.length → (g.getD i []).length = nC) →
    p.length = g.length * nC →
    (∀ i c, i < g.length → c < nC → (g.getD i []).getD c 0 = p.getD (i * nC + c) 0) →
    g.flatten = p := by
  intro g
  induction g with
  | nil =>
    intro p _ hlen _
    simp only [List.length_nil, Nat.zero_mul] at hlen
    rw [List.flatten_nil]
    exact (List.length_eq_zero.mp hlen).symm
  | cons row rest ih =>
    intro p hshape hlen hcell
    have hrowlen : row.length = nC := hshape 0 (by simp)
    have hplen : nC ≤ p.length := by
      rw [hlen, List.length_cons, Nat.succ_mul]
      omega
    rw [List.flatten_cons]
    have hrow : row = p.take nC := by
      refine List.ext_getElem (by rw [List.length_take]; omega) ?_
      intro i h1 h2
      have hi : i < nC := by omega
      have e1 : row[i] = row.getD i 0 := by
        rw [List.getD_eq_getElem?_getD, List.getElem?_eq_getElem h1]
        rfl
      have e2 : (p.take nC)[i] = p.getD i 0 := by
        rw [List.getD_eq_getElem?_getD, ← List.getElem?_take_of_lt hi,
          List.getElem?_eq_getElem h2]
        rfl
      rw [e1, e2]
      have := hcell 0 i (by simp) hi
      simpa using this
    have hrest : rest.flatten = p.drop nC := by
      refine ih (p.drop nC) ?_ ?_ ?_
      · intro i hi
        have := hshape (i + 1) (by simp; omega)
        simpa using this
      · rw [List.length_drop, hlen, List.length_cons, Nat.succ_mul]
        omega
      · intro i c hi hc
        have := hcell (i + 1) c (by simp; omega) hc
        simp only [List.getD_cons_succ] at this
        rw [this]
        rw [List.getD_eq_getElem?_getD, List.getD_eq_getElem?_getD, List.getElem?_drop]
        congr 2
        rw [Nat.succ_mul]
        omega
    rw [hrow, hrest, List.take_append_drop]

theorem sortedKeyIndices_perm (ck : List Nat) :
    (sortedKeyIndices ck).Perm (List.range ck.length) := by
  unfold sortedKeyIndices
  have h1 := (List.mergeSort_perm (ck.enum.map (fun p => (p.2, p.1)))
    (fun a b => decide (a.1 ≤ b.1))).map (fun p : Nat × Nat => p.2)
  have h2 : (ck.enum.map (fun p : Nat × Nat => (p.2, p.1))).map (fun p : Nat × Nat => p.2) =
      List.range ck.length := by
    rw [List.map_map]
    have e2 : ((fun p : Nat × Nat => p.2) ∘ (fun p : Nat × Nat => (p.2, p.1))) =
        Prod.fst := rfl
    rw [e2, List.enum_map_fst]
  rw [h2] at h1
  exact h1

theorem dedupGo_eq_nil : ∀ (l seen : List Nat), dedupGo seen l = [] ↔ ∀ x ∈ l, x ∈ seen := by
  intro l
  induction l with
  | nil => intro seen; simp [dedupGo]
  | cons c rest ih =>
    intro seen
    unfold dedupGo
    by_cases hc : c ∈ seen
    · rw [if_pos hc, ih seen]
      constructor
      · intro h x hx
        rcases List.mem_cons.mp hx with rfl | hx
        · exact hc
        · exact h x hx
      · intro h x hx
        exact h x (List.mem_cons_of_mem _ hx)
    · rw [if_neg hc]
      constructor
      · intro h; exact absurd h (List.cons_ne_nil _ _)
      · intro h
        exact absurd (h c (List.mem_cons_self _ _)) hc

theorem numRowsFor_mod_zero {c len : Nat} (hc : 0 < c) (h : len % c = 0) :
    numRowsFor len c = len / c := by
  unfold numRowsFor
  have h2 := Nat.div_add_mod len c
  have e : len + c - 1 = (c - 1) + c * (len / c) := by omega
  rw [e, Nat.add_mul_div_left _ _ hc, Nat.div_eq_of_lt (by omega)]
  omega

theorem numRowsFor_mod_pos {c len : Nat} (hc : 0 < c) (h : len % c ≠ 0) :
    numRowsFor len c = len / c + 1 := by
  unfold numRowsFor
  have h2 := Nat.div_add_mod len c
  have hr := Nat.mod_lt len hc
  have e : len + c - 1 = (len % c - 1) + c * (len / c + 1) := by
    rw [Nat.mul_succ]
    omega
  rw [e, Nat.add_mul_div_left _ _ hc, Nat.div_eq_of_lt (by omega)]
  omega

theorem mul_numRows_eq {c len : Nat} (hc : 0 < c) (h : len % c = 0) :
    c * numRowsFor len c = len := by
  rw [numRowsFor_mod_zero hc h]
  have h2 := Nat.div_add_mod len c
  omega

theorem mul_numRows_ne {c len : Nat} (hc : 0 < c) (h : len % c ≠ 0) :
    len ≠ c * numRowsFor len c := by
  rw [numRowsFor_mod_pos hc h, Nat.mul_succ]
  have h2 := Nat.div_add_mod len c
  have hr := Nat.mod_lt len hc
  omega

theorem numRowsFor_exact {c n : Nat} (hc : 0 < c) : numRowsFor (c * n) c = n := by
  rw [numRowsFor_mod_zero hc (by simp), Nat.mul_div_cancel_left _ hc]

theorem len_le_mul {c len : Nat} (hc : 0 < c) : len ≤ numRowsFor len c * c := by
  have h2 := Nat.div_add_mod len c
  have hcm : len / c * c = c * (len / c) := Nat.mul_comm _ _
  by_cases h : len % c = 0
  · rw [numRowsFor_mod_zero hc h]
    omega
  · rw [numRowsFor_mod_pos hc h, Nat.succ_mul]
    have hr := Nat.mod_lt len hc
    omega

theorem pad_count {c len : Nat} (hc : 0 < c) :
    numRowsFor len c * c - len = (c - len % c) % c := by
  have h2 := Nat.div_add_mod len c
  have hcm : len / c * c = c * (len / c) := Nat.mul_comm _ _
  by_cases h : len % c = 0
  · rw [numRowsFor_mod_zero hc h, h, Nat.sub_zero, Nat.mod_self]
    omega
  · rw [numRowsFor_mod_pos hc h, Nat.succ_mul]
    have hr := Nat.mod_lt len hc
    rw [Nat.mod_eq_of_lt (by omega)]
    omega

theorem paddedText_length {c : Nat} (hc : 0 < c) (P : List Nat) :
    (paddedText P c).length = numRowsFor P.length c * c := by
  unfold paddedText
  rw [List.length_append, List.length_replicate]
  have := @len_le_mul c P.length hc
  omega

theorem getD_replicate_of_lt {α : Type} {n m : Nat} {v d : α} (h : m < n) :
    (List.replicate n v).getD m d = v := by
  rw [List.getD_eq_getElem?_getD, List.getElem?_replicate, if_pos h]
  rfl

/-- C8: for every key with at least one alphabetic character,
`columnarDecrypt` of `columnarEncrypt` returns the plaintext right-padded
with `'x'` to the next multiple of the deduplicated key length, and
`columnarDecrypt` throws the invalid-length error on every ciphertext whose
length is not such a multiple. -/
theorem columnar_roundtrip (P key : List Nat) (hk : cleanText key ≠ []) :
    columnarDecrypt (columnarEncrypt P key) key =
      Except.ok (P ++ List.replicate
        ((numColsOf key - P.length % numColsOf key) % numColsOf key) 120) ∧
    ∀ C : List Nat, C.length % numColsOf key ≠ 0 →
      columnarDecrypt C key = Except.error "Invalid ciphertext length for the given key." := by
  have hck : cleanKey key ≠ [] := by
    intro h
    unfold cleanKey at h
    rcases List.exists_mem_of_ne_nil _ hk with ⟨x, hx⟩
    exact absurd ((dedupGo_eq_nil _ _).mp h x hx) (List.not_mem_nil x)
  have hc : 0 < numColsOf key := by
    unfold numColsOf
    exact List.length_pos.mpr hck
  have hσ := sortedKeyIndices_perm (cleanKey key)
  have hσlen : (sortedKeyIndices (cleanKey key)).length = numColsOf key := by
    rw [hσ.length_eq, List.length_range]
    rfl
  constructor
  · unfold columnarDecrypt columnarEncrypt
    have hClen : (encGo (paddedText P (numColsOf key)) (numColsOf key)
        (numRowsFor P.length (numColsOf key)) (sortedKeyIndices (cleanKey key))).length =
        numColsOf key * numRowsFor P.length (numColsOf key) := by
      rw [encGo_length, hσlen]
    rw [hClen, numRowsFor_exact hc, if_neg (by omega)]
    congr 1
    have hpad : paddedText P (numColsOf key) =
        P ++ List.replicate
          ((numColsOf key - P.length % numColsOf key) % numColsOf key) 120 := by
      unfold paddedText
      rw [pad_count hc]
    rw [← hpad]
    refine flatten_eq (numColsOf key) _ (paddedText P (numColsOf key)) ?_ ?_ ?_
    · intro i hi
      rw [decGo_row_length]
      rw [decGo_length, List.length_replicate] at hi
      rw [getD_replicate_of_lt hi, List.length_replicate]
    · rw [paddedText_length hc, decGo_length, List.length_replicate]
    · intro i c hi hcnC
      rw [decGo_length, List.length_replicate] at hi
      have hmem : c ∈ sortedKeyIndices (cleanKey key) := by
        rw [hσ.mem_iff, List.mem_range]
        exact hcnC
    -- cell value
      rw [decGo_mem _ _ (numColsOf key) _ _ _ _ _
        (hσ.nodup_iff.mpr (List.nodup_range _))
        (fun x hx => by
          have := hσ.mem_iff.mp hx
          rw [List.mem_range] at this
          exact this)
        hmem hi (by rw [List.length_replicate]; exact hi)
        (fun j hj => by
          rw [List.length_replicate] at hj
          rw [getD_replicate_of_lt hj, List.length_replicate])]
      have hkidx : List.indexOf c (sortedKeyIndices (cleanKey key)) <
          (sortedKeyIndices (cleanKey key)).length :=
        List.indexOf_lt_length.mpr hmem
      have hval : (sortedKeyIndices (cleanKey key)).getD
          (List.indexOf c (sortedKeyIndices (cleanKey key))) 0 = c := by
        rw [List.getD_eq_getElem?_getD, List.getElem?_eq_getElem hkidx]
        show (sortedKeyIndices (cleanKey key))[List.indexOf c (sortedKeyIndices (cleanKey key))] = c
        exact List.getElem_indexOf hkidx
      rw [Nat.zero_add, encGo_getD _ _ _ _ _ _ hkidx hi, hval]
  · intro C hCmod
    unfold columnarDecrypt
    rw [if_pos (mul_numRows_ne hc hCmod)]

theorem columnar_roundtrip_witness :
    cleanText [75] ≠ [] ∧
    (columnarDecrypt (columnarEncrypt [104, 105] [75]) [75] =
      Except.ok ([104, 105] ++ List.replicate
        ((numColsOf [75] - [104, 105].length % numColsOf [75]) % numColsOf [75]) 120) ∧
    ∀ C : List Nat, C.length % numColsOf [75] ≠ 0 →
      columnarDecrypt C [75] = Except.error "Invalid ciphertext length for the given key.") :=
  ⟨by decide, columnar_roundtrip [104, 105] [75] (by decide)⟩

/-! ## HMAC-SHA256 (hmac.ts) -/

/-- The eight 32-bit working registers / hash state of the hmac.ts `sha256`
(`a b c d e f g hh` resp. `h[0] .. h[7]`). -/
structure Sha8 where
  r0 : Nat
  r1 : Nat
  r2 : Nat
  r3 : Nat
  r4 : Nat
  r5 : Nat
  r6 : Nat
  r7 : Nat

/-- The initial hash value `h` of `sha256` (hmac.ts). -/
def shaInit : Sha8 :=
  ⟨0x6a09e667, 0xbb67ae85, 0x3c6ef372, 0xa54ff53a,
   0x510e527f, 0x9b05688c, 0x1f83d9ab, 0x5be0cd19⟩

/-- The round-constant table `k` of `sha256` (hmac.ts). -/
def SHA_K : List Nat :=
  [0x428a2f98, 0x71374491, 0xb5c0fbcf, 0xe9b5dba5,
   0x3956c25b, 0x59f111f1, 0x923f82a4, 0xab1c5ed5] ++
  [0xd807aa98, 0x12835b01, 0x243185be, 0x550c7dc3,
   0x72be5d74, 0x80deb1fe, 0x9bdc06a7, 0xc19bf174] ++
  [0xe49b69c1, 0xefbe4786, 0x0fc19dc6, 0x240ca1cc,
   0x2de92c6f, 0x4a7484aa, 0x5cb0a9dc, 0x76f988da] ++
  [0x983e5152, 0xa831c66d, 0xb00327c8, 0xbf597fc7,
   0xc6e00bf3, 0xd5a79147, 0x06ca6351, 0x14292967] ++
  [0x27b70a85, 0x2e1b2138, 0x4d2c6dfc, 0x53380d13,
   0x650a7354, 0x766a0abb, 0x81c2c92e, 0x92722c85] ++
  [0xa2bfe8a1, 0xa81a664b, 0xc24b8b70, 0xc76c51a3,
   0xd192e819, 0xd6990624, 0xf40e3585, 0x106aa070] ++
  [0x19a4c116, 0x1e376c08, 0x2748774c, 0x34b0bcb5,
   0x391c0cb3, 0x4ed8aa4a, 0x5b9cca4f, 0x682e6ff3] ++
  [0x748f82ee, 0x78a5636f, 0x84c87814, 0x8cc70208,
   0x90befffa, 0xa4506ceb, 0xbef9a3f7, 0xc67178f2]

/-- `rrot` of hmac.ts: `(x >>> n) | (x << (32 - n))` on 32-bit values. -/
def rrot (x n : Nat) : Nat := (x >>> n) ||| u32 (x <<< (32 - n))

/-- The padding step of `sha256` (hmac.ts): `0x80`, zeros to 56 mod 64, then
the bit length as a big-endian 64-bit integer.  The zero count
`((56 - (len + 1) % 64) + 64) % 64` of the source is computed in JS signed
arithmetic; on naturals it is `(120 - (len + 1) % 64) % 64`. -/
def shaPad (data : List Nat) : List Nat :=
  data ++ [128] ++ List.replicate ((120 - (data.length + 1) % 64) % 64) 0 ++
    [u8 ((data.length * 8 / 4294967296) >>> 24), u8 ((data.length * 8 / 4294967296) >>> 16),
     u8 ((data.length * 8 / 4294967296) >>> 8), u8 (data.length * 8 / 4294967296),
     u8 ((u32 (data.length * 8)) >>> 24), u8 ((u32 (data.length * 8)) >>> 16),
     u8 ((u32 (data.length * 8)) >>> 8), u8 (u32 (data.length * 8))]

/-- The first 16 message-schedule words of a chunk (big-endian packing). -/
def shaSchedule16 (chunk : List Nat) : List Nat :=
  (List.range 16).map (fun j =>
    pack4 (chunk.getD (j * 4) 0) (chunk.getD (j * 4 + 1) 0)
      (chunk.getD (j * 4 + 2) 0) (chunk.getD (j * 4 + 3) 0))

/-- The message-schedule extension loop `j = 16 .. 63`: at each step the
current `w.length` is the loop index `j`. -/
def shaExtendGo : Nat → List Nat → List Nat
  | 0, w => w
  | n + 1, w =>
    shaExtendGo n (w ++ [u32 (w.getD (w.length - 16) 0 +
      (rrot (w.getD (w.length - 15) 0) 7 ^^^ rrot (w.getD (w.length - 15) 0) 18 ^^^
        (w.getD (w.length - 15) 0 >>> 3)) +
      w.getD (w.length - 7) 0 +
      (rrot (w.getD (w.length - 2) 0) 17 ^^^ rrot (w.getD (w.length - 2) 0) 19 ^^^
        (w.getD (w.length - 2) 0 >>> 10)))])

/-- One compression round of `sha256` (hmac.ts): `S1`, `ch` (`~e` on a
32-bit value is `4294967295 ^^^ e`), `temp1`, `S0`, `maj`, `temp2`, then the
register rotation. -/
def shaRound (w : List Nat) (r : Sha8) (j : Nat) : Sha8 :=
  ⟨u32 (u32 (r.r7 + (rrot r.r4 6 ^^^ rrot r.r4 11 ^^^ rrot r.r4 25) +
      ((r.r4 &&& r.r5) ^^^ ((4294967295 ^^^ r.r4) &&& r.r6)) +
      SHA_K.getD j 0 + w.getD j 0) +
    u32 ((rrot r.r0 2 ^^^ rrot r.r0 13 ^^^ rrot r.r0 22) +
      ((r.r0 &&& r.r1) ^^^ (r.r0 &&& r.r2) ^^^ (r.r1 &&& r.r2)))),
   r.r0, r.r1, r.r2,
   u32 (r.r3 + u32 (r.r7 + (rrot r.r4 6 ^^^ rrot r.r4 11 ^^^ rrot r.r4 25) +
      ((r.r4 &&& r.r5) ^^^ ((4294967295 ^^^ r.r4) &&& r.r6)) +
      SHA_K.getD j 0 + w.getD j 0)),
   r.r4, r.r5, r.r6⟩

/-- One 64-byte chunk of `sha256` (hmac.ts): schedule, 64 rounds, add. -/
def sha256Block (H : Sha8) (chunk : List Nat) : Sha8 :=
  let w := shaExtendGo 48 (shaSchedule16 chunk)
  let r := (List.range 64).foldl (shaRound w) H
  ⟨u32 (H.r0 + r.r0), u32 (H.r1 + r.r1), u32 (H.r2 + r.r2), u32 (H.r3 + r.r3),
   u32 (H.r4 + r.r4), u32 (H.r5 + r.r5), u32 (H.r6 + r.r6), u32 (H.r7 + r.r7)⟩

/-- The `for (let i = 0; i < padded.length; i += 64)` chunk loop. -/
def sha256Chunks : Sha8 → List Nat → Sha8
  | H, [] => H
  | H, a :: rest =>
    sha256Chunks (sha256Block H ((a :: rest).take 64)) ((a :: rest).drop 64)
  termination_by _ l => l.length
  decreasing_by simp only [List.length_drop, List.length_cons]; omega

/-- `setUint32(..., x, false)`: the four big-endian bytes of a 32-bit word. -/
def wordBytes (x : Nat) : List Nat := [u8 (x >>> 24), u8 (x >>> 16), u8 (x >>> 8), u8 x]

/-- The 32-byte result assembly of `sha256` (hmac.ts). -/
def shaOut (s : Sha8) : List Nat :=
  wordBytes s.r0 ++ wordBytes s.r1 ++ wordBytes s.r2 ++ wordBytes s.r3 ++
  wordBytes s.r4 ++ wordBytes s.r5 ++ wordBytes s.r6 ++ wordBytes s.r7

/-- `sha256` of hmac.ts. -/
def sha256 (data : List Nat) : List Nat := shaOut (sha256Chunks shaInit (shaPad data))

/-- One lowercase hex digit char code (`b.toString(16)`). -/
def toHexDigit (d : Nat) : Nat := if d < 10 then 48 + d else 87 + d

/-- `toHex` of hmac.ts: `b.toString(16).padStart(2, \"0\")` per byte, joined
(every byte gives exactly two lowercase hex digits). -/
def toHex (l : List Nat) : List Nat :=
  l.flatMap (fun b => [toHexDigit (b / 16), toHexDigit (b % 16)])

/-! HMAC (hmac.ts) -/

/-- Step 1 of `hmacSign`: keys longer than the 64-byte block are hashed. -/
def hmacHashedKey (key : List Nat) : List Nat :=
  if 64 < (stringToUtf8Bytes key).length then sha256 (stringToUtf8Bytes key)
  else stringToUtf8Bytes key

/-- Step 2 of `hmacSign`: keys shorter than 64 bytes are zero-padded
(`new Uint8Array(blockSize)` + `set`). -/
def hmacPaddedKey (key : List Nat) : List Nat :=
  if (hmacHashedKey key).length < 64 then
    hmacHashedKey key ++ List.replicate (64 - (hmacHashedKey key).length) 0
  else hmacHashedKey key

/-- `hmacSign` of hmac.ts: `toHex(sha256(opad || sha256(ipad || msg)))`,
where `oPad[i] = keyBytes[i] ^ 0x5c` and `iPad[i] = keyBytes[i] ^ 0x36` are
built over the 64 indices of the padded key. -/
def hmacSign (message key : List Nat) : List Nat :=
  toHex (sha256 ((List.range 64).map (fun i => u8 ((hmacPaddedKey key).getD i 0 ^^^ 92)) ++
    sha256 ((List.range 64).map (fun i => u8 ((hmacPaddedKey key).getD i 0 ^^^ 54)) ++
      stringToUtf8Bytes message)))

/-- Modelled from the spec: the normalized key of C9 — the key is replaced
by its SHA-256 digest if its UTF-8 length exceeds 64, then zero-padded to
64 bytes. -/
def hmacNormKey (key : List Nat) : List Nat :=
  hmacHashedKey key ++ List.replicate (64 - (hmacHashedKey key).length) 0

/-- Modelled from the spec: the C9 description of the HMAC output — the
lowercase-hex rendering of `SHA256(opad || SHA256(ipad || message))` with
`ipad`/`opad` the normalized key XORed bytewise with `0x36`/`0x5c`. -/
def hmacSpec (message key : List Nat) : List Nat :=
  toHex (sha256 ((hmacNormKey key).map (fun b => b ^^^ 92) ++
    sha256 ((hmacNormKey key).map (fun b => b ^^^ 54) ++ stringToUtf8Bytes message)))

theorem shaOut_length (s : Sha8) : (shaOut s).length = 32 := rfl

theorem wordBytes_lt (x : Nat) : ∀ b ∈ wordBytes x, b < 256 := by
  intro b hb
  simp only [wordBytes, List.mem_cons, List.not_mem_nil, or_false] at hb
  rcases hb with rfl | rfl | rfl | rfl <;> exact Nat.mod_lt _ (by norm_num)

theorem shaOut_lt (s : Sha8) : ∀ b ∈ shaOut s, b < 256 := by
  intro b hb
  unfold shaOut at hb
  simp only [List.mem_append] at hb
  rcases hb with ((((((hb | hb) | hb) | hb) | hb) | hb) | hb) | hb <;>
    exact wordBytes_lt _ b hb

theorem sha256_length (data : List Nat) : (sha256 data).length = 32 := rfl

theorem sha256_lt (data : List Nat) : ∀ b ∈ sha256 data, b < 256 :=
  shaOut_lt _

theorem hmacHashedKey_le (key : List Nat) : (hmacHashedKey key).length ≤ 64 := by
  unfold hmacHashedKey
  split
  · rw [sha256_length]; omega
  · omega

theorem hmacPaddedKey_eq (key : List Nat) : hmacPaddedKey key = hmacNormKey key := by
  unfold hmacPaddedKey hmacNormKey
  split
  · rfl
  · have h := hmacHashedKey_le key
    rw [show 64 - (hmacHashedKey key).length = 0 by omega]
    simp

theorem hmacNormKey_length (key : List Nat) : (hmacNormKey key).length = 64 := by
  unfold hmacNormKey
  rw [List.length_append, List.length_replicate]
  have h := hmacHashedKey_le key
  omega

theorem hmacNormKey_lt {key : List Nat} (hK : WfText key) :
    ∀ b ∈ hmacNormKey key, b < 256 := by
  intro b hb
  unfold hmacNormKey at hb
  rcases List.mem_append.mp hb with hb | hb
  · unfold hmacHashedKey at hb
    rcases Decidable.em (64 < (stringToUtf8Bytes key).length) with h | h
    · rw [if_pos h] at hb
      exact sha256_lt _ b hb
    · rw [if_neg h] at hb
      exact stringToUtf8Bytes_lt hK b hb
  · rw [List.eq_of_mem_replicate hb]
    norm_num

theorem map_range_getD_u8xor (pk : List Nat) (m : Nat) (hlen : pk.length = 64)
    (hm : m < 256) (hb : ∀ x ∈ pk, x < 256) :
    (List.range 64).map (fun i => u8 (pk.getD i 0 ^^^ m)) = pk.map (fun b => b ^^^ m) := by
  refine List.ext_getElem (by simp [hlen]) ?_
  intro i h1 h2
  rw [List.length_map, List.length_range] at h1
  have hi : i < pk.length := by omega
  rw [List.getElem_map, List.getElem_map, List.getElem_range]
  have hgd : pk.getD i 0 = pk[i] := by
    rw [List.getD_eq_getElem?_getD, List.getElem?_eq_getElem hi]
    rfl
  rw [hgd]
  refine u8_eq ?_
  have h1 : pk[i] < 256 := hb _ (List.getElem_mem hi)
  have : pk[i] ^^^ m < 2 ^ 8 := Nat.xor_lt_two_pow (by omega) (by omega)
  omega

/-- C9: `hmacSign(message, key)` equals the lowercase-hex rendering of
`SHA256(opad || SHA256(ipad || message))` built from the normalized key as
the spec describes. -/
theorem hmac_structural (message key : List Nat) (hK : WfText key) :
    hmacSign message key = hmacSpec message key := by
  unfold hmacSign hmacSpec
  rw [hmacPaddedKey_eq,
    map_range_getD_u8xor _ 92 (hmacNormKey_length key) (by norm_num) (hmacNormKey_lt hK),
    map_range_getD_u8xor _ 54 (hmacNormKey_length key) (by norm_num) (hmacNormKey_lt hK)]

theorem hmac_structural_witness :
    WfText [107] ∧ hmacSign [104] [107] = hmacSpec [104] [107] :=
  ⟨by unfold WfText isScalar; decide,
   hmac_structural [104] [107] (by unfold WfText isScalar; decide)⟩

/-! ## RSA-OAEP (rsa.ts) -/

/-- One compression round of the `Sha256` class of rsa.ts.  The source
executes two register-shift statement groups in sequence (line `h = g; ...
d = (d + temp1) >>> 0;`, a line of dead `e` writes ending in `e = d`, then
the `h=g; g=f; f=e; e=(d+temp1)>>>0; ...` line), so per round effectively
`h←f, g←e, f←(d+temp1), e←((d+temp1)+temp1)`, each reduced mod 2^32.  The
embedding reproduces this faithfully. -/
def rsaShaRound (w : List Nat) (r : Sha8) (j : Nat) : Sha8 :=
  ⟨u32 (u32 (r.r7 + (rrot r.r4 6 ^^^ rrot r.r4 11 ^^^ rrot r.r4 25) +
      ((r.r4 &&& r.r5) ^^^ ((4294967295 ^^^ r.r4) &&& r.r6)) +
      SHA_K.getD j 0 + w.getD j 0) +
    u32 ((rrot r.r0 2 ^^^ rrot r.r0 13 ^^^ rrot r.r0 22) +
      ((r.r0 &&& r.r1) ^^^ (r.r0 &&& r.r2) ^^^ (r.r1 &&& r.r2)))),
   r.r0, r.r1, r.r2,
   u32 (u32 (r.r3 + u32 (r.r7 + (rrot r.r4 6 ^^^ rrot r.r4 11 ^^^ rrot r.r4 25) +
      ((r.r4 &&& r.r5) ^^^ ((4294967295 ^^^ r.r4) &&& r.r6)) +
      SHA_K.getD j 0 + w.getD j 0)) +
    u32 (r.r7 + (rrot r.r4 6 ^^^ rrot r.r4 11 ^^^ rrot r.r4 25) +
      ((r.r4 &&& r.r5) ^^^ ((4294967295 ^^^ r.r4) &&& r.r6)) +
      SHA_K.getD j 0 + w.getD j 0)),
   u32 (r.r3 + u32 (r.r7 + (rrot r.r4 6 ^^^ rrot r.r4 11 ^^^ rrot r.r4 25) +
      ((r.r4 &&& r.r5) ^^^ ((4294967295 ^^^ r.r4) &&& r.r6)) +
      SHA_K.getD j 0 + w.getD j 0)),
   r.r4, r.r5⟩

/-- One 64-byte chunk of the rsa.ts `Sha256` (same schedule and table as
hmac.ts; only the round differs). -/
def rsaSha256Block (H : Sha8) (chunk : List Nat) : Sha8 :=
  let w := shaExtendGo 48 (shaSchedule16 chunk)
  let r := (List.range 64).foldl (rsaShaRound w) H
  ⟨u32 (H.r0 + r.r0), u32 (H.r1 + r.r1), u32 (H.r2 + r.r2), u32 (H.r3 + r.r3),
   u32 (H.r4 + r.r4), u32 (H.r5 + r.r5), u32 (H.r6 + r.r6), u32 (H.r7 + r.r7)⟩

/-- The chunk loop of the rsa.ts `Sha256.process`. -/
def rsaSha256Chunks : Sha8 → List Nat → Sha8
  | H, [] => H
  | H, a :: rest =>
    rsaSha256Chunks (rsaSha256Block H ((a :: rest).take 64)) ((a :: rest).drop 64)
  termination_by _ l => l.length
  decreasing_by simp only [List.length_drop, List.length_cons]; omega

/-- `sha256` of rsa.ts (`new Sha256().process(data)`); padding, schedule and
output assembly are identical to hmac.ts, shared above. -/
def rsaSha256 (data : List Nat) : List Nat :=
  shaOut (rsaSha256Chunks shaInit (shaPad data))

theorem rsaSha256_length (data : List Nat) : (rsaSha256 data).length = 32 := rfl

theorem rsaSha256_lt (data : List Nat) : ∀ b ∈ rsaSha256 data, b < 256 :=
  shaOut_lt _

/-- The square-and-multiply loop of `modPow` (rsa.ts). -/
def modPowGo (res base exp md : Nat) : Nat :=
  if exp = 0 then res
  else modPowGo (if exp % 2 = 1 then res * base % md else res) (base * base % md)
    (exp / 2) md
  termination_by exp
  decreasing_by omega

/-- `modPow` of rsa.ts. -/
def modPow (base exp md : Nat) : Nat := modPowGo 1 (base % md) exp md

/-- `os2ip` of rsa.ts: big-endian bytes to integer (`res << 8n` is `* 256`). -/
def os2ip (bytes : List Nat) : Nat := bytes.foldl (fun res b => res * 256 + b) 0

/-- `i2osp` of rsa.ts: the loop fills `res[i] = (x >> 8*(len-1-i)) & 0xff`. -/
def i2osp (x len : Nat) : List Nat :=
  (List.range len).map (fun i => (x >>> (8 * (len - 1 - i))) &&& 255)

/-- `xor` of rsa.ts: bytewise XOR over the length of the first argument,
stored into a `Uint8Array`. -/
def xorB (a b : List Nat) : List Nat :=
  (List.range a.length).map (fun i => u8 (a.getD i 0 ^^^ b.getD i 0))

/-- The `while (offset < len)` loop of `mgf1` (rsa.ts), recursing on the
remaining length; the 4-byte big-endian counter is `wordBytes counter`. -/
def mgf1Go (seed : List Nat) : Nat → Nat → List Nat
  | counter, remaining =>
    if remaining = 0 then []
    else (rsaSha256 (seed ++ wordBytes counter)).take (min 32 remaining) ++
      mgf1Go seed (counter + 1) (remaining - min 32 remaining)
  termination_by _ remaining => remaining
  decreasing_by omega

/-- `mgf1` of rsa.ts. -/
def mgf1 (seed : List Nat) (len : Nat) : List Nat := mgf1Go seed 0 len

/-- The `db` block of `oaepPad`: `lHash || PS || 0x01 || message`. -/
def oaepDB (message : List Nat) (k : Nat) : List Nat :=
  rsaSha256 [] ++ List.replicate (k - message.length - 2 * 32 - 2) 0 ++ [1] ++ message

/-- `maskedDB = xor(db, mgf1(seed, k - hLen - 1))` of `oaepPad`. -/
def oaepMaskedDB (message : List Nat) (k : Nat) (seed : List Nat) : List Nat :=
  xorB (oaepDB message k) (mgf1 seed (k - 32 - 1))

/-- `maskedSeed = xor(seed, mgf1(maskedDB, hLen))` of `oaepPad`. -/
def oaepMaskedSeed (message : List Nat) (k : Nat) (seed : List Nat) : List Nat :=
  xorB seed (mgf1 (oaepMaskedDB message k seed) 32)

/-- `oaepPad` of rsa.ts; the 32 random seed bytes (`Math.random() * 256`)
are an explicit parameter.  The length guard compares JS numbers, which can
be negative, hence the `Int` comparison. -/
def oaepPad (message : List Nat) (k : Nat) (seed : List Nat) : Except String (List Nat) :=
  if (message.length : Int) > (k : Int) - 2 * 32 - 2 then Except.error "Message too long"
  else Except.ok (0 :: (oaepMaskedSeed message k seed ++ oaepMaskedDB message k seed))

/-- The `while (index < db.length && db[index] === 0x00) index++` scan of
`oaepUnpad`. -/
def oaepScan (db : List Nat) (index : Nat) : Nat :=
  if h : index < db.length ∧ db.getD index 0 = 0 then oaepScan db (index + 1) else index
  termination_by db.length - index
  decreasing_by omega

/-- The recovered `seed` of `oaepUnpad` (`em.subarray(1, 33)` and
`em.subarray(33)` are `(em.drop 1).take 32` and `em.drop 33`). -/
def oaepUnSeed (em : List Nat) : List Nat :=
  xorB ((em.drop 1).take 32) (mgf1 (em.drop 33) 32)

/-- The recovered `db` of `oaepUnpad`. -/
def oaepUnDB (em : List Nat) (k : Nat) : List Nat :=
  xorB (em.drop 33) (mgf1 (oaepUnSeed em) (k - 32 - 1))

/-- `oaepUnpad` of rsa.ts: first-byte check, label-hash check, zero scan,
`0x01` check, then the message suffix. -/
def oaepUnpad (em : List Nat) (k : Nat) : Except String (List Nat) :=
  if em.getD 0 0 ≠ 0 then Except.error "Decryption error: First byte not 0"
  else if ¬ ((List.range 32).all
      (fun i => (oaepUnDB em k).getD i 0 == (rsaSha256 []).getD i 0)) then
    Except.error "Decryption error: Hash mismatch"
  else if (oaepUnDB em k).length ≤ oaepScan (oaepUnDB em k) 32 ∨
      (oaepUnDB em k).getD (oaepScan (oaepUnDB em k) 32) 0 ≠ 1 then
    Except.error "Decryption error: Padding invalid"
  else Except.ok ((oaepUnDB em k).drop (oaepScan (oaepUnDB em k) 32 + 1))

/-- Modelled from the spec: `n.toString(16).length`, the number of hex
digits of a BigInt (`\"0\"` has one digit). -/
def hexDigits (n : Nat) : Nat := if n = 0 then 1 else Nat.log 16 n + 1

/-- `k = (n.toString(16).length + 1) >> 1` of `rsaEncrypt`. -/
def rsaK (n : Nat) : Nat := (hexDigits n + 1) >>> 1

/-- Modelled from the spec: the byte length of the modulus `n`. -/
def byteLength (n : Nat) : Nat := Nat.log 256 n + 1

/-- `rsaEncrypt` of rsa.ts after `parsePublicKeyPEM` (the parsed modulus
`n` and exponent `e` are passed directly; PEM decoding is plumbing that
does not affect the C4 length check): OAEP-pad, `os2ip`, `modPow`, `i2osp`,
Base64 (`arrayBufferToBase64` encodes exactly like `bytesToBase64`). -/
def rsaEncrypt (plaintext : List Nat) (n e : Nat) (seed : List Nat) :
    Except String (List Nat) :=
  match oaepPad (stringToUtf8Bytes plaintext) (rsaK n) seed with
  | Except.error s => Except.error s
  | Except.ok padded =>
    Except.ok (bytesToBase64 (i2osp (modPow (os2ip padded) e n) (rsaK n)))

theorem xorB_length (a b : List Nat) : (xorB a b).length = a.length := by
  simp [xorB]

theorem xorB_getD {a b : List Nat} {i : Nat} (h : i < a.length) :
    (xorB a b).getD i 0 = u8 (a.getD i 0 ^^^ b.getD i 0) :=
  getD_map_range h

theorem xorB_lt (a b : List Nat) : ∀ x ∈ xorB a b, x < 256 := by
  intro x hx
  unfold xorB at hx
  rcases List.mem_map.mp hx with ⟨i, _, rfl⟩
  exact Nat.mod_lt _ (by norm_num)

theorem xorB_xorB {a b : List Nat} (ha : ∀ x ∈ a, x < 256) (hb : ∀ x ∈ b, x < 256) :
    xorB (xorB a b) b = a := by
  have hlen : (xorB (xorB a b) b).length = a.length := by
    rw [xorB_length, xorB_length]
  refine List.ext_getElem hlen ?_
  intro i h1 h2
  have hia : i < a.length := by rw [hlen] at h1; exact h1
  have e1 : (xorB (xorB a b) b)[i] = (xorB (xorB a b) b).getD i 0 := by
    rw [List.getD_eq_getElem?_getD, List.getElem?_eq_getElem h1]
    rfl
  rw [e1]
  show (xorB (xorB a b) b).getD i 0 = a[i]
  have h1' : i < (xorB a b).length := by rw [xorB_length]; exact hia
  rw [xorB_getD h1', xorB_getD hia]
  have hax : a.getD i 0 < 256 := getD_lt_of_forall (by norm_num) ha i
  have hbx : b.getD i 0 < 256 := getD_lt_of_forall (by norm_num) hb i
  have hxy : a.getD i 0 ^^^ b.getD i 0 < 256 := by
    have : a.getD i 0 ^^^ b.getD i 0 < 2 ^ 8 := Nat.xor_lt_two_pow (by omega) (by omega)
    omega
  rw [u8_eq hxy, Nat.xor_cancel_right, u8_eq hax, List.getD_eq_getElem?_getD,
    List.getElem?_eq_getElem h2]
  rfl

theorem mgf1Go_length (seed : List Nat) : ∀ (remaining counter : Nat),
    (mgf1Go seed counter remaining).length = remaining := by
  intro remaining
  induction remaining using Nat.strong_induction_on with
  | _ remaining ih =>
    intro counter
    rw [mgf1Go]
    split
    · simp [*]
    · rename_i h
      rw [List.length_append, List.length_take, rsaSha256_length,
        ih (remaining - min 32 remaining) (by omega) (counter + 1)]
      omega

theorem mgf1_length (seed : List Nat) (len : Nat) : (mgf1 seed len).length = len :=
  mgf1Go_length seed len 0

theorem mgf1Go_lt (seed : List Nat) : ∀ (remaining counter : Nat),
    ∀ x ∈ mgf1Go seed counter remaining, x < 256 := by
  intro remaining
  induction remaining using Nat.strong_induction_on with
  | _ remaining ih =>
    intro counter x hx
    rw [mgf1Go] at hx
    split at hx
    · simp at hx
    · rename_i h
      rcases List.mem_append.mp hx with hx | hx
      · exact rsaSha256_lt _ x (List.mem_of_mem_take hx)
      · exact ih (remaining - min 32 remaining) (by omega) (counter + 1) x hx

theorem mgf1_lt (seed : List Nat) (len : Nat) : ∀ x ∈ mgf1 seed len, x < 256 :=
  mgf1Go_lt seed len 0

theorem oaepScan_spec (db : List Nat) : ∀ (m s : Nat),
    (∀ j, s ≤ j → j < s + m → db.getD j 0 = 0) → s + m < db.length →
    db.getD (s + m) 0 ≠ 0 → oaepScan db s = s + m := by
  intro m
  induction m with
  | zero =>
    intro s hz hlen hnz
    rw [oaepScan, dif_neg (by rintro ⟨_, h2⟩; exact hnz (by simpa using h2))]
    omega
  | succ m ih =>
    intro s hz hlen hnz
    rw [oaepScan, dif_pos ⟨by omega, hz s (Nat.le_refl s) (by omega)⟩]
    have heq : s + (m + 1) = (s + 1) + m := by omega
    rw [heq]
    refine ih (s + 1) (fun j h1 h2 => hz j (by omega) (by omega)) (by omega) ?_
    rw [← heq]
    exact hnz

theorem oaepDB_lt {message : List Nat} (k : Nat) (hmb : ∀ x ∈ message, x < 256) :
    ∀ x ∈ oaepDB message k, x < 256 := by
  intro x hx
  unfold oaepDB at hx
  rcases List.mem_append.mp hx with hx | hx
  · rcases List.mem_append.mp hx with hx | hx
    · rcases List.mem_append.mp hx with hx | hx
      · exact rsaSha256_lt _ x hx
      · rw [List.eq_of_mem_replicate hx]; norm_num
    · simp only [List.mem_cons, List.not_mem_nil, or_false] at hx
      rw [hx]; norm_num
  · exact hmb x hx

theorem oaepDB_length {message : List Nat} {k : Nat} (hk : message.length + 2 * 32 + 2 ≤ k) :
    (oaepDB message k).length = k - 33 := by
  unfold oaepDB
  simp only [List.length_append, List.length_replicate, List.length_cons, List.length_nil,
    rsaSha256_length]
  omega

theorem oaepUnpad_oaepPad (message : List Nat) (k : Nat) (seed : List Nat)
    (hk : message.length + 2 * 32 + 2 ≤ k) (hs : seed.length = 32)
    (hsb : ∀ x ∈ seed, x < 256) (hmb : ∀ x ∈ message, x < 256) :
    oaepUnpad (0 :: (oaepMaskedSeed message k seed ++ oaepMaskedDB message k seed)) k =
      Except.ok message := by
  have hmsLen : (oaepMaskedSeed message k seed).length = 32 := by
    rw [oaepMaskedSeed, xorB_length, hs]
  have hdrop1 : (0 :: (oaepMaskedSeed message k seed ++ oaepMaskedDB message k seed)).drop 1 =
      oaepMaskedSeed message k seed ++ oaepMaskedDB message k seed := rfl
  have htake : ((0 :: (oaepMaskedSeed message k seed ++
      oaepMaskedDB message k seed)).drop 1).take 32 = oaepMaskedSeed message k seed := by
    rw [hdrop1, List.take_left' hmsLen]
  have hdrop33 : (0 :: (oaepMaskedSeed message k seed ++
      oaepMaskedDB message k seed)).drop 33 = oaepMaskedDB message k seed := by
    have e : (0 :: (oaepMaskedSeed message k seed ++
        oaepMaskedDB message k seed)).drop 33 =
        (oaepMaskedSeed message k seed ++ oaepMaskedDB message k seed).drop 32 := rfl
    rw [e, List.drop_left' hmsLen]
  have hseed : oaepUnSeed (0 :: (oaepMaskedSeed message k seed ++
      oaepMaskedDB message k seed)) = seed := by
    rw [oaepUnSeed, htake, hdrop33, oaepMaskedSeed]
    exact xorB_xorB hsb (mgf1_lt _ _)
  have hdb : oaepUnDB (0 :: (oaepMaskedSeed message k seed ++
      oaepMaskedDB message k seed)) k = oaepDB message k := by
    rw [oaepUnDB, hdrop33, hseed, oaepMaskedDB]
    exact xorB_xorB (oaepDB_lt k hmb) (mgf1_lt _ _)
  have hdbLen : (oaepDB message k).length = k - 33 := oaepDB_length hk
  have hdb32 : ∀ i, i < 32 → (oaepDB message k).getD i 0 = (rsaSha256 []).getD i 0 := by
    intro i hi
    unfold oaepDB
    rw [getD_append_left, getD_append_left, getD_append_left]
    · rw [rsaSha256_length]; exact hi
    · rw [List.length_append, rsaSha256_length, List.length_replicate]; omega
    · rw [List.length_append, List.length_append, rsaSha256_length,
        List.length_replicate, List.length_cons, List.length_nil]
      omega
  have hdbzero : ∀ j, 32 ≤ j → j < 32 + (k - message.length - 2 * 32 - 2) →
      (oaepDB message k).getD j 0 = 0 := by
    intro j h1 h2
    unfold oaepDB
    rw [getD_append_left, getD_append_left, getD_append_right', getD_replicate_of_lt]
    · rw [rsaSha256_length]; omega
    · rw [rsaSha256_length]; exact h1
    · rw [List.length_append, rsaSha256_length, List.length_replicate]; omega
    · rw [List.length_append, List.length_append, rsaSha256_length,
        List.length_replicate, List.length_cons, List.length_nil]
      omega
  have hdbone : (oaepDB message k).getD (32 + (k - message.length - 2 * 32 - 2)) 0 = 1 := by
    unfold oaepDB
    rw [getD_append_left, getD_append_right']
    · rw [List.length_append, rsaSha256_length, List.length_replicate]
      rw [show 32 + (k - message.length - 2 * 32 - 2) - (32 + (k - message.length - 2 * 32 - 2)) = 0 by omega]
      rfl
    · rw [List.length_append, rsaSha256_length, List.length_replicate]
    · rw [List.length_append, List.length_append, rsaSha256_length,
        List.length_replicate, List.length_cons, List.length_nil]
      omega
  have hscan : oaepScan (oaepDB message k) 32 = 32 + (k - message.length - 2 * 32 - 2) := by
    refine oaepScan_spec _ (k - message.length - 2 * 32 - 2) 32 hdbzero ?_ ?_
    · rw [hdbLen]; omega
    · rw [hdbone]; omega
  have hall : ((List.range 32).all
      (fun i => (oaepDB message k).getD i 0 == (rsaSha256 []).getD i 0)) = true := by
    rw [List.all_eq_true]
    intro i hi
    rw [beq_iff_eq]
    exact hdb32 i (List.mem_range.mp hi)
  have hc3 : ¬((oaepDB message k).length ≤ oaepScan (oaepDB message k) 32 ∨
      (oaepDB message k).getD (oaepScan (oaepDB message k) 32) 0 ≠ 1) := by
    rw [hscan, hdbLen, hdbone]
    rintro (h | h)
    · omega
    · exact h rfl
  have hdropmsg : (oaepDB message k).drop
      (32 + (k - message.length - 2 * 32 - 2) + 1) = message := by
    unfold oaepDB
    rw [List.drop_left' (by
      simp only [List.length_append, rsaSha256_length, List.length_replicate,
        List.length_cons, List.length_nil])]
  unfold oaepUnpad
  rw [hdb, if_neg (by simp), if_neg (not_not_intro hall), if_neg hc3, hscan, hdropmsg]

/-- The `k` computed from the hex-digit count is the byte length of `n`. -/
theorem rsaK_eq_byteLength {n : Nat} (hn : 0 < n) : rsaK n = byteLength n := by
  unfold rsaK byteLength hexDigits
  rw [if_neg (by omega)]
  have h1 : 16 ^ Nat.log 16 n ≤ n := Nat.pow_log_le_self 16 (by omega)
  have h2 : n < 16 ^ (Nat.log 16 n + 1) := Nat.lt_pow_succ_log_self (by norm_num) n
  have h256 : Nat.log 256 n = Nat.log 16 n / 2 := by
    refine Nat.log_eq_of_pow_le_of_lt_pow ?_ ?_
    · calc 256 ^ (Nat.log 16 n / 2) = 16 ^ (2 * (Nat.log 16 n / 2)) := by
            rw [Nat.pow_mul]
      _ ≤ 16 ^ Nat.log 16 n := Nat.pow_le_pow_right (by norm_num) (by omega)
      _ ≤ n := h1
    · calc n < 16 ^ (Nat.log 16 n + 1) := h2
      _ ≤ 16 ^ (2 * (Nat.log 16 n / 2 + 1)) := Nat.pow_le_pow_right (by norm_num) (by omega)
      _ = 256 ^ (Nat.log 16 n / 2 + 1) := by
            rw [Nat.pow_mul]
  rw [h256, Nat.shiftRight_eq_div_pow]
  omega

/-- C4: `rsaEncrypt` throws `Message too long` exactly when the UTF-8 byte
length of the plaintext exceeds `k - 2*32 - 2`, with `k` the byte length of
the modulus; otherwise it succeeds and the OAEP block decodes back to the
full message (no silent truncation). -/
theorem rsa_message_too_long (plaintext : List Nat) (n e : Nat) (seed : List Nat)
    (hn : 0 < n) (hs : seed.length = 32) (hsb : ∀ x ∈ seed, x < 256)
    (hM : WfText plaintext) :
    (((stringToUtf8Bytes plaintext).length : Int) > (byteLength n : Int) - 2 * 32 - 2 →
      rsaEncrypt plaintext n e seed = Except.error "Message too long") ∧
    (((stringToUtf8Bytes plaintext).length : Int) ≤ (byteLength n : Int) - 2 * 32 - 2 →
      ∃ em, oaepPad (stringToUtf8Bytes plaintext) (rsaK n) seed = Except.ok em ∧
        rsaEncrypt plaintext n e seed =
          Except.ok (bytesToBase64 (i2osp (modPow (os2ip em) e n) (rsaK n))) ∧
        oaepUnpad em (rsaK n) = Except.ok (stringToUtf8Bytes plaintext)) := by
  have hkb := rsaK_eq_byteLength hn
  constructor
  · intro hgt
    have hpad : oaepPad (stringToUtf8Bytes plaintext) (rsaK n) seed =
        Except.error "Message too long" := by
      unfold oaepPad
      rw [if_pos (by rw [hkb]; exact hgt)]
    unfold rsaEncrypt
    rw [hpad]
  · intro hle
    have hcond : ¬ (((stringToUtf8Bytes plaintext).length : Int) >
        (rsaK n : Int) - 2 * 32 - 2) := by
      rw [hkb]
      omega
    have hpad : oaepPad (stringToUtf8Bytes plaintext) (rsaK n) seed =
        Except.ok (0 :: (oaepMaskedSeed (stringToUtf8Bytes plaintext) (rsaK n) seed ++
          oaepMaskedDB (stringToUtf8Bytes plaintext) (rsaK n) seed)) := by
      unfold oaepPad
      rw [if_neg hcond]
    refine ⟨_, hpad, ?_, ?_⟩
    · unfold rsaEncrypt
      rw [hpad]
    · refine oaepUnpad_oaepPad _ _ _ ?_ hs hsb (stringToUtf8Bytes_lt hM)
      rw [hkb]
      omega

theorem rsa_message_too_long_witness :
    0 < 1 ∧ (List.replicate 32 0).length = 32 ∧ (∀ x ∈ List.replicate 32 0, x < 256) ∧
    WfText [104] ∧
    ((((stringToUtf8Bytes [104]).length : Int) > (byteLength 1 : Int) - 2 * 32 - 2 →
      rsaEncrypt [104] 1 3 (List.replicate 32 0) = Except.error "Message too long") ∧
     (((stringToUtf8Bytes [104]).length : Int) ≤ (byteLength 1 : Int) - 2 * 32 - 2 →
      ∃ em, oaepPad (stringToUtf8Bytes [104]) (rsaK 1) (List.replicate 32 0) =
          Except.ok em ∧
        rsaEncrypt [104] 1 3 (List.replicate 32 0) =
          Except.ok (bytesToBase64 (i2osp (modPow (os2ip em) 3 1) (rsaK 1))) ∧
        oaepUnpad em (rsaK 1) = Except.ok (stringToUtf8Bytes [104]))) :=
  ⟨by decide, by decide, by decide, by unfold WfText isScalar; decide,
   rsa_message_too_long [104] 1 3 (List.replicate 32 0) (by decide) (by decide)
     (by decide) (by unfold WfText isScalar; decide)⟩
